import Mathlib

/-!
# aws-janitor: mark-and-sweep ledger and sweepers

A shallow embedding of `jenkins/aws-janitor/main.go`.

* Go maps keyed by strings are association lists (`GoMap`); the order of the
  list stands for the (unspecified) iteration order of the Go map.
* `time.Time` is an instant counted in nanoseconds, `time.Duration` a signed
  64-bit count of nanoseconds; `Time.Sub` saturates the way Go's does.
* Calls that leave the process (AWS, the clock) are answered by an explicit
  environment, and every such call is recorded in a trace.
-/

namespace AwsJanitor

/-! ## Go maps -/

/-- A Go `map[string]V`: key/value entries, looked up by first match. -/
abbrev GoMap (V : Type) := List (String × V)

/-- The comma-ok lookup `v, ok := m[k]`. -/
def GoMap.get {V : Type} : GoMap V → String → Option V
  | [], _ => none
  | (k', v) :: m, k => if k' = k then some v else GoMap.get m k

/-- The assignment `m[k] = v`. -/
def GoMap.set {V : Type} (m : GoMap V) (k : String) (v : V) : GoMap V :=
  (k, v) :: m.filter (fun e => decide (e.1 ≠ k))

/-- The builtin `delete(m, k)`. -/
def GoMap.delete {V : Type} (m : GoMap V) (k : String) : GoMap V :=
  m.filter (fun e => decide (e.1 ≠ k))

/-- The keys visited by `for k := range m`. -/
def GoMap.keys {V : Type} (m : GoMap V) : List String :=
  m.map (fun e => e.1)

/-! ## Time -/

/-- An instant (`time.Time`), in nanoseconds. -/
abbrev Time := Int

/-- A `time.Duration`: nanoseconds, held in an int64. -/
abbrev Duration := Int

/-- Largest `time.Duration`. -/
def maxDuration : Duration := 2 ^ 63 - 1

/-- Smallest `time.Duration`. -/
def minDuration : Duration := -(2 ^ 63)

/-- The method `t.Sub(u)`: the difference `t - u`, replaced by the largest or
smallest duration when it does not fit an int64. -/
def Time.Sub (t u : Time) : Duration :=
  if t - u > maxDuration then maxDuration
  else if t - u < minDuration then minDuration
  else t - u

/-! ## Resources and their ARNs -/

/-- The interface `awsResource`: anything with an `ARN()`. -/
class awsResource (R : Type) where
  ARN : R → String

/-- The format `arn:aws:ec2:%s:%s:<kind>/%s` shared by the EC2 resources. -/
def ec2ARN (kind Region Account ID : String) : String :=
  "arn:aws:ec2:" ++ Region ++ ":" ++ Account ++ ":" ++ kind ++ "/" ++ ID

/-- The struct `instance`. -/
structure instance_ where
  Account : String
  Region : String
  InstanceID : String
  deriving DecidableEq

/-- The method `instance.ARN`. -/
def instance_.ARN (i : instance_) : String :=
  ec2ARN "instance" i.Region i.Account i.InstanceID

/-- The struct `autoScalingGroup`. -/
structure autoScalingGroup where
  ID : String
  Name : String
  deriving DecidableEq

/-- The method `autoScalingGroup.ARN`. -/
def autoScalingGroup.ARN (asg : autoScalingGroup) : String := asg.ID

/-- The struct `launchConfiguration`. -/
structure launchConfiguration where
  ID : String
  Name : String
  deriving DecidableEq

/-- The method `launchConfiguration.ARN`. -/
def launchConfiguration.ARN (lc : launchConfiguration) : String := lc.ID

/-- The struct `subnet`. -/
structure subnet where
  Account : String
  Region : String
  ID : String
  deriving DecidableEq

/-- The method `subnet.ARN`. -/
def subnet.ARN (sub : subnet) : String :=
  ec2ARN "subnet" sub.Region sub.Account sub.ID

/-- The struct `securityGroup`. -/
structure securityGroup where
  Account : String
  Region : String
  ID : String
  deriving DecidableEq

/-- The method `securityGroup.ARN`. -/
def securityGroup.ARN (sg : securityGroup) : String :=
  ec2ARN "security-group" sg.Region sg.Account sg.ID

/-- The struct `internetGateway`. -/
structure internetGateway where
  Account : String
  Region : String
  ID : String
  deriving DecidableEq

/-- The method `internetGateway.ARN`. -/
def internetGateway.ARN (ig : internetGateway) : String :=
  ec2ARN "internet-gateway" ig.Region ig.Account ig.ID

/-- The struct `routeTable`. -/
structure routeTable where
  Account : String
  Region : String
  ID : String
  deriving DecidableEq

/-- The method `routeTable.ARN`. -/
def routeTable.ARN (rt : routeTable) : String :=
  ec2ARN "route-table" rt.Region rt.Account rt.ID

/-- The struct `vpc`. -/
structure vpc where
  Account : String
  Region : String
  ID : String
  deriving DecidableEq

/-- The method `vpc.ARN`. -/
def vpc.ARN (vp : vpc) : String :=
  ec2ARN "vpc" vp.Region vp.Account vp.ID

/-- The struct `dhcpOption`. -/
structure dhcpOption where
  Account : String
  Region : String
  ID : String
  deriving DecidableEq

/-- The method `dhcpOption.ARN`. -/
def dhcpOption.ARN (dhcp : dhcpOption) : String :=
  ec2ARN "dhcp-option" dhcp.Region dhcp.Account dhcp.ID

/-- The struct `volume`. -/
structure volume where
  Account : String
  Region : String
  ID : String
  deriving DecidableEq

/-- The method `volume.ARN`. -/
def volume.ARN (vol : volume) : String :=
  ec2ARN "volume" vol.Region vol.Account vol.ID

instance : awsResource instance_ := ⟨instance_.ARN⟩
instance : awsResource autoScalingGroup := ⟨autoScalingGroup.ARN⟩
instance : awsResource launchConfiguration := ⟨launchConfiguration.ARN⟩
instance : awsResource subnet := ⟨subnet.ARN⟩
instance : awsResource securityGroup := ⟨securityGroup.ARN⟩
instance : awsResource internetGateway := ⟨internetGateway.ARN⟩
instance : awsResource routeTable := ⟨routeTable.ARN⟩
instance : awsResource vpc := ⟨vpc.ARN⟩
instance : awsResource dhcpOption := ⟨dhcpOption.ARN⟩
instance : awsResource volume := ⟨volume.ARN⟩

/-- A resource of one of the eight kinds whose ARN is built from the region,
the account and a local id. -/
inductive ec2Resource where
  | ofInstance (i : instance_)
  | ofSubnet (sub : subnet)
  | ofSecurityGroup (sg : securityGroup)
  | ofInternetGateway (ig : internetGateway)
  | ofRouteTable (rt : routeTable)
  | ofVpc (vp : vpc)
  | ofDhcpOption (dhcp : dhcpOption)
  | ofVolume (vol : volume)
  deriving DecidableEq

/-- The method `ARN()` of the resource. -/
def ec2Resource.ARN : ec2Resource → String
  | .ofInstance i => i.ARN
  | .ofSubnet sub => sub.ARN
  | .ofSecurityGroup sg => sg.ARN
  | .ofInternetGateway ig => ig.ARN
  | .ofRouteTable rt => rt.ARN
  | .ofVpc vp => vp.ARN
  | .ofDhcpOption dhcp => dhcp.ARN
  | .ofVolume vol => vol.ARN

/-- The category of the resource, as its ARN spells it. -/
def ec2Resource.kind : ec2Resource → String
  | .ofInstance _ => "instance"
  | .ofSubnet _ => "subnet"
  | .ofSecurityGroup _ => "security-group"
  | .ofInternetGateway _ => "internet-gateway"
  | .ofRouteTable _ => "route-table"
  | .ofVpc _ => "vpc"
  | .ofDhcpOption _ => "dhcp-option"
  | .ofVolume _ => "volume"

/-- The field `Region` of the resource. -/
def ec2Resource.Region : ec2Resource → String
  | .ofInstance i => i.Region
  | .ofSubnet sub => sub.Region
  | .ofSecurityGroup sg => sg.Region
  | .ofInternetGateway ig => ig.Region
  | .ofRouteTable rt => rt.Region
  | .ofVpc vp => vp.Region
  | .ofDhcpOption dhcp => dhcp.Region
  | .ofVolume vol => vol.Region

/-- The field `Account` of the resource. -/
def ec2Resource.Account : ec2Resource → String
  | .ofInstance i => i.Account
  | .ofSubnet sub => sub.Account
  | .ofSecurityGroup sg => sg.Account
  | .ofInternetGateway ig => ig.Account
  | .ofRouteTable rt => rt.Account
  | .ofVpc vp => vp.Account
  | .ofDhcpOption dhcp => dhcp.Account
  | .ofVolume vol => vol.Account

/-- The local id of the resource: `InstanceID` for an instance, `ID` for the
others. -/
def ec2Resource.ID : ec2Resource → String
  | .ofInstance i => i.InstanceID
  | .ofSubnet sub => sub.ID
  | .ofSecurityGroup sg => sg.ID
  | .ofInternetGateway ig => ig.ID
  | .ofRouteTable rt => rt.ID
  | .ofVpc vp => vp.ID
  | .ofDhcpOption dhcp => dhcp.ID
  | .ofVolume vol => vol.ID

/-! ## The ledger -/

/-- The struct `awsResourceSet`: first sighting of each ARN, the ARNs seen this
run, and the TTL. -/
structure awsResourceSet where
  firstSeen : GoMap Time
  marked : GoMap Bool
  ttl : Duration
  deriving DecidableEq

/-- The read `s.marked[arn]`, false for a missing key. -/
def awsResourceSet.isMarked (s : awsResourceSet) (arn : String) : Bool :=
  (s.marked.get arn).getD false

/-- The method `Mark`, with the reading of `time.Now()` passed as `now`:
returns the updated set and whether the resource should be deleted. -/
def awsResourceSet.Mark {R : Type} [awsResource R] (s : awsResourceSet) (r : R)
    (now : Time) : awsResourceSet × Bool :=
  let arn := awsResource.ARN r
  let s1 : awsResourceSet := { s with marked := s.marked.set arn true }
  match s1.firstSeen.get arn with
  | some t =>
    let since := Time.Sub now t
    if since > s1.ttl then (s1, true) else (s1, false)
  | none => ({ s1 with firstSeen := s1.firstSeen.set arn now }, decide (s1.ttl = 0))

/-- The first loop of `markComplete`: the ARNs of `firstSeen` that are not
marked. -/
def awsResourceSet.gone (s : awsResourceSet) : List String :=
  s.firstSeen.keys.filter (fun arn => !s.isMarked arn)

/-- The method `markComplete`: drops from `firstSeen` every ARN collected by
the first loop. -/
def awsResourceSet.markComplete (s : awsResourceSet) : awsResourceSet :=
  { s with firstSeen := s.gone.foldl (fun m arn => m.delete arn) s.firstSeen }

/-! ## AWS descriptors -/

/-- The struct `ec2.UserIdGroupPair`, the fields the janitor reads. -/
structure UserIdGroupPair where
  UserId : String
  GroupId : String
  deriving DecidableEq

/-- The struct `ec2.IpPermission`: the group pairs, and `rule` for the
remaining fields (protocol, ports, ranges), which the janitor only passes
back. -/
structure IpPermission where
  rule : String
  UserIdGroupPairs : List UserIdGroupPair
  deriving DecidableEq

/-- The struct `ec2.SecurityGroup`, the fields the janitor reads. -/
structure SecurityGroup where
  GroupName : String
  GroupId : String
  IpPermissions : List IpPermission
  IpPermissionsEgress : List IpPermission
  deriving DecidableEq

/-- The struct `ec2.Instance`. -/
structure Instance where
  InstanceId : String
  deriving DecidableEq

/-- The struct `ec2.Reservation`. -/
structure Reservation where
  Instances : List Instance
  deriving DecidableEq

/-- The struct `autoscaling.Group`. -/
structure Group where
  AutoScalingGroupARN : String
  AutoScalingGroupName : String
  deriving DecidableEq

/-- The struct `autoscaling.LaunchConfiguration`. -/
structure LaunchConfiguration where
  LaunchConfigurationARN : String
  LaunchConfigurationName : String
  deriving DecidableEq

/-- The struct `ec2.Subnet`. -/
structure Subnet where
  SubnetId : String
  deriving DecidableEq

/-- The struct `ec2.InternetGatewayAttachment`. -/
structure InternetGatewayAttachment where
  VpcId : String
  deriving DecidableEq

/-- The struct `ec2.InternetGateway`. -/
structure InternetGateway where
  InternetGatewayId : String
  Attachments : List InternetGatewayAttachment
  deriving DecidableEq

/-- The struct `ec2.RouteTableAssociation`. -/
structure RouteTableAssociation where
  Main : Bool
  SubnetId : String
  RouteTableAssociationId : String
  deriving DecidableEq

/-- The struct `ec2.RouteTable`. -/
structure RouteTable where
  RouteTableId : String
  Associations : List RouteTableAssociation
  deriving DecidableEq

/-- The struct `ec2.Vpc`. -/
structure Vpc where
  VpcId : String
  DhcpOptionsId : String
  deriving DecidableEq

/-- The struct `ec2.DhcpOptions`. -/
structure DhcpOptions where
  DhcpOptionsId : String
  deriving DecidableEq

/-- The struct `ec2.Volume`. -/
structure Volume where
  VolumeId : String
  deriving DecidableEq

/-! ## The outside world -/

/-- The requests the janitor sends; every one carries the region of the
client it is sent through, except the two S3 requests. -/
inductive ApiCall where
  | DescribeInstancesPages (region : String)
  | TerminateInstances (region : String) (ids : List String)
  | DescribeAutoScalingGroupsPages (region : String)
  | DeleteAutoScalingGroup (region name : String)
  | WaitUntilGroupNotExists (region name : String)
  | DescribeLaunchConfigurationsPages (region : String)
  | DeleteLaunchConfiguration (region name : String)
  | DescribeSubnets (region : String)
  | DeleteSubnet (region id : String)
  | DescribeSecurityGroups (region : String)
  | RevokeSecurityGroupIngress (region groupId : String) (perm : IpPermission)
  | RevokeSecurityGroupEgress (region groupId : String) (perm : IpPermission)
  | DeleteSecurityGroup (region id : String)
  | DescribeInternetGateways (region : String)
  | DetachInternetGateway (region id vpcId : String)
  | DeleteInternetGateway (region id : String)
  | DescribeRouteTables (region : String)
  | DisassociateRouteTable (region associationId : String)
  | DeleteRouteTable (region id : String)
  | DescribeVpcs (region : String) (isDefault : Bool)
  | AssociateDhcpOptions (region vpcId dhcpOptionsId : String)
  | DeleteVpc (region id : String)
  | DescribeDhcpOptions (region : String)
  | DeleteDhcpOptions (region id : String)
  | DescribeVolumesPages (region : String)
  | DeleteVolume (region id : String)
  | GetObject
  | PutObject (body : String)
  deriving DecidableEq

/-- What a run does that can be seen from outside: the requests it sends and
the lines it logs at `Info`, `Warning`, `Error` and `Fatal`.  The text of a log
line keeps the ARN and the error and leaves out the `%T` and `%v` rendering of
AWS structures; the lines at verbosity 1 are not recorded. -/
inductive Event where
  | call (c : ApiCall)
  | info (text : String)
  | warning (text : String)
  | error (text : String)
  | fatal (text : String)
  deriving DecidableEq

/-- The state of a run outside the ledger: the events so far, oldest first,
and the number of clock readings taken. -/
structure World where
  trace : List Event
  ticks : Nat
  deriving DecidableEq

/-- The answers of everything outside the process.  An answer may depend on
the events so far.  A paged listing answers with the pages delivered and the
error, if any, that ended it. -/
structure Env where
  now : Nat → Time
  respond : List Event → ApiCall → Option String
  DescribeInstancesPages : List Event → String → List (List Reservation) × Option String
  DescribeAutoScalingGroupsPages : List Event → String → List (List Group) × Option String
  DescribeLaunchConfigurationsPages :
    List Event → String → List (List LaunchConfiguration) × Option String
  DescribeSubnets : List Event → String → Except String (List Subnet)
  DescribeSecurityGroups : List Event → String → Except String (List SecurityGroup)
  DescribeInternetGateways : List Event → String → Except String (List InternetGateway)
  DescribeRouteTables : List Event → String → Except String (List RouteTable)
  DescribeVpcs : List Event → String → Bool → Except String (List Vpc)
  DescribeDhcpOptions : List Event → String → Except String (List DhcpOptions)
  DescribeVolumesPages : List Event → String → List (List Volume) × Option String
  GetObjectError : List Event → Option String
  Decode : String → Except String (GoMap Time)
  MarshalIndent : GoMap Time → Except String String

/-- Appends one event to the trace. -/
def World.emit (w : World) (e : Event) : World :=
  { w with trace := w.trace ++ [e] }

/-- Sends a request whose failure is only logged: the request is recorded, and
when the answer is an error the warning built by `onFail` follows it. -/
def World.attempt (env : Env) (w : World) (c : ApiCall) (onFail : String → String) : World :=
  match env.respond w.trace c with
  | none => w.emit (.call c)
  | some err => (w.emit (.call c)).emit (.warning (onFail err))

/-- The call `set.Mark(r)` inside a sweeper: reads the clock and marks. -/
def markNow {R : Type} [awsResource R] (env : Env) (set : awsResourceSet) (w : World) (r : R) :
    Bool × awsResourceSet × World :=
  let m := set.Mark r (env.now w.ticks)
  (m.2, m.1, { w with ticks := w.ticks + 1 })

/-- The requests in a trace, in order. -/
def calls (trace : List Event) : List ApiCall :=
  trace.filterMap (fun e => match e with
    | .call c => some c
    | _ => none)

/-! ## Sweepers -/

/-- What `MarkAndSweep` leaves behind: the error it returns, if any, the ledger
and the world. -/
abbrev Swept := Option String × awsResourceSet × World

/-- The page callback of `instances.MarkAndSweep`, for the instances of one
reservation. -/
def instances.eachInstance (env : Env) (acct region : String) :
    List Instance → List String × awsResourceSet × World → List String × awsResourceSet × World
  | [], st => st
  | inst :: rest, (toDelete, set, w) =>
    let i : instance_ := ⟨acct, region, inst.InstanceId⟩
    match markNow env set w i with
    | (true, set1, w1) =>
      instances.eachInstance env acct region rest
        (toDelete ++ [inst.InstanceId], set1, w1.emit (.warning (i.ARN ++ ": deleting")))
    | (false, set1, w1) => instances.eachInstance env acct region rest (toDelete, set1, w1)

/-- The page callback of `instances.MarkAndSweep`, for the reservations of one
page. -/
def instances.eachReservation (env : Env) (acct region : String) :
    List Reservation → List String × awsResourceSet × World →
      List String × awsResourceSet × World
  | [], st => st
  | res :: rest, st =>
    instances.eachReservation env acct region rest
      (instances.eachInstance env acct region res.Instances st)

/-- The page callback of `instances.MarkAndSweep`, over the pages delivered. -/
def instances.eachPage (env : Env) (acct region : String) :
    List (List Reservation) → List String × awsResourceSet × World →
      List String × awsResourceSet × World
  | [], st => st
  | page :: rest, st =>
    instances.eachPage env acct region rest (instances.eachReservation env acct region page st)

/-- The method `instances.MarkAndSweep`. -/
def instances.MarkAndSweep (env : Env) (acct region : String) (set : awsResourceSet)
    (w : World) : Swept :=
  let listing := env.DescribeInstancesPages w.trace region
  let st := instances.eachPage env acct region listing.1
    ([], set, w.emit (.call (.DescribeInstancesPages region)))
  match listing.2 with
  | some err => (some err, st.2.1, st.2.2)
  | none =>
    if st.1.length > 0 then
      (none, st.2.1, st.2.2.attempt env (.TerminateInstances region st.1)
        (fun err => "termination failed: " ++ err))
    else (none, st.2.1, st.2.2)

/-- The page callback of `autoScalingGroups.MarkAndSweep`, for one page. -/
def autoScalingGroups.eachGroup (env : Env) :
    List Group → List autoScalingGroup × awsResourceSet × World →
      List autoScalingGroup × awsResourceSet × World
  | [], st => st
  | asg :: rest, (toDelete, set, w) =>
    let a : autoScalingGroup := ⟨asg.AutoScalingGroupARN, asg.AutoScalingGroupName⟩
    match markNow env set w a with
    | (true, set1, w1) =>
      autoScalingGroups.eachGroup env rest
        (toDelete ++ [a], set1, w1.emit (.warning (a.ARN ++ ": deleting")))
    | (false, set1, w1) => autoScalingGroups.eachGroup env rest (toDelete, set1, w1)

/-- The page callback of `autoScalingGroups.MarkAndSweep`, over the pages
delivered. -/
def autoScalingGroups.eachPage (env : Env) :
    List (List Group) → List autoScalingGroup × awsResourceSet × World →
      List autoScalingGroup × awsResourceSet × World
  | [], st => st
  | page :: rest, st =>
    autoScalingGroups.eachPage env rest (autoScalingGroups.eachGroup env page st)

/-- The first loop over `toDelete` in `autoScalingGroups.MarkAndSweep`. -/
def autoScalingGroups.deleteEach (env : Env) (region : String) :
    List autoScalingGroup → World → World
  | [], w => w
  | asg :: rest, w =>
    autoScalingGroups.deleteEach env region rest
      (w.attempt env (.DeleteAutoScalingGroup region asg.Name)
        (fun err => asg.ARN ++ ": delete failed: " ++ err))

/-- The second loop over `toDelete` in `autoScalingGroups.MarkAndSweep`. -/
def autoScalingGroups.waitEach (env : Env) (region : String) :
    List autoScalingGroup → World → World
  | [], w => w
  | asg :: rest, w =>
    autoScalingGroups.waitEach env region rest
      ((w.emit (.warning (asg.ARN ++ ": waiting for delete"))).attempt env
        (.WaitUntilGroupNotExists region asg.Name)
        (fun err => asg.ARN ++ ": wait failed: " ++ err))

/-- The method `autoScalingGroups.MarkAndSweep`. -/
def autoScalingGroups.MarkAndSweep (env : Env) (_acct region : String) (set : awsResourceSet)
    (w : World) : Swept :=
  let listing := env.DescribeAutoScalingGroupsPages w.trace region
  let st := autoScalingGroups.eachPage env listing.1
    ([], set, w.emit (.call (.DescribeAutoScalingGroupsPages region)))
  match listing.2 with
  | some err => (some err, st.2.1, st.2.2)
  | none =>
    (none, st.2.1,
      autoScalingGroups.waitEach env region st.1
        (autoScalingGroups.deleteEach env region st.1 st.2.2))

/-- The page callback of `launchConfigurations.MarkAndSweep`, for one page. -/
def launchConfigurations.eachConfiguration (env : Env) :
    List LaunchConfiguration → List launchConfiguration × awsResourceSet × World →
      List launchConfiguration × awsResourceSet × World
  | [], st => st
  | lc :: rest, (toDelete, set, w) =>
    let l : launchConfiguration := ⟨lc.LaunchConfigurationARN, lc.LaunchConfigurationName⟩
    match markNow env set w l with
    | (true, set1, w1) =>
      launchConfigurations.eachConfiguration env rest
        (toDelete ++ [l], set1, w1.emit (.warning (l.ARN ++ ": deleting")))
    | (false, set1, w1) => launchConfigurations.eachConfiguration env rest (toDelete, set1, w1)

/-- The page callback of `launchConfigurations.MarkAndSweep`, over the pages
delivered. -/
def launchConfigurations.eachPage (env : Env) :
    List (List LaunchConfiguration) → List launchConfiguration × awsResourceSet × World →
      List launchConfiguration × awsResourceSet × World
  | [], st => st
  | page :: rest, st =>
    launchConfigurations.eachPage env rest (launchConfigurations.eachConfiguration env page st)

/-- The loop over `toDelete` in `launchConfigurations.MarkAndSweep`. -/
def launchConfigurations.deleteEach (env : Env) (region : String) :
    List launchConfiguration → World → World
  | [], w => w
  | lc :: rest, w =>
    launchConfigurations.deleteEach env region rest
      (w.attempt env (.DeleteLaunchConfiguration region lc.Name)
        (fun err => lc.ARN ++ ": delete failed: " ++ err))

/-- The method `launchConfigurations.MarkAndSweep`. -/
def launchConfigurations.MarkAndSweep (env : Env) (_acct region : String)
    (set : awsResourceSet) (w : World) : Swept :=
  let listing := env.DescribeLaunchConfigurationsPages w.trace region
  let st := launchConfigurations.eachPage env listing.1
    ([], set, w.emit (.call (.DescribeLaunchConfigurationsPages region)))
  match listing.2 with
  | some err => (some err, st.2.1, st.2.2)
  | none => (none, st.2.1, launchConfigurations.deleteEach env region st.1 st.2.2)

/-- The loop over `resp.Subnets` in `subnets.MarkAndSweep`. -/
def subnets.eachSubnet (env : Env) (acct region : String) :
    List Subnet → awsResourceSet × World → awsResourceSet × World
  | [], st => st
  | sub :: rest, (set, w) =>
    let s : subnet := ⟨acct, region, sub.SubnetId⟩
    match markNow env set w s with
    | (true, set1, w1) =>
      subnets.eachSubnet env acct region rest
        (set1, (w1.emit (.warning (s.ARN ++ ": deleting"))).attempt env
          (.DeleteSubnet region sub.SubnetId) (fun err => s.ARN ++ ": delete failed: " ++ err))
    | (false, set1, w1) => subnets.eachSubnet env acct region rest (set1, w1)

/-- The method `subnets.MarkAndSweep`. -/
def subnets.MarkAndSweep (env : Env) (acct region : String) (set : awsResourceSet)
    (w : World) : Swept :=
  match env.DescribeSubnets w.trace region with
  | .error err => (some err, set, w.emit (.call (.DescribeSubnets region)))
  | .ok resp =>
    let st := subnets.eachSubnet env acct region resp
      (set, w.emit (.call (.DescribeSubnets region)))
    (none, st.1, st.2)

/-- The struct `sgRef`: the group holding a rule, and the rule. -/
structure sgRef where
  id : String
  perm : IpPermission
  deriving DecidableEq

/-- The inner loop of `addRefs`, over the pairs of one permission. -/
def addRefs.eachPair (id acct : String) (perm : IpPermission) :
    List UserIdGroupPair → GoMap (List sgRef) → GoMap (List sgRef)
  | [], refs => refs
  | pair :: rest, refs =>
    if pair.UserId = acct ∧ pair.GroupId ≠ id then
      addRefs.eachPair id acct perm rest
        (refs.set pair.GroupId ((refs.get pair.GroupId).getD [] ++ [⟨id, perm⟩]))
    else addRefs.eachPair id acct perm rest refs

/-- The function `addRefs`: the outer loop, over the permissions. -/
def addRefs (refs : GoMap (List sgRef)) (id acct : String) :
    List IpPermission → GoMap (List sgRef)
  | [] => refs
  | perm :: rest =>
    addRefs (addRefs.eachPair id acct perm perm.UserIdGroupPairs refs) id acct rest

/-- The variables of the first loop of `securityGroups.MarkAndSweep`. -/
structure sgScan where
  toDelete : List securityGroup
  ingress : GoMap (List sgRef)
  egress : GoMap (List sgRef)
  set : awsResourceSet
  w : World
  deriving DecidableEq

/-- The first loop of `securityGroups.MarkAndSweep`, over
`resp.SecurityGroups`. -/
def securityGroups.eachGroup (env : Env) (acct region : String) :
    List SecurityGroup → sgScan → sgScan
  | [], st => st
  | sg :: rest, st =>
    if sg.GroupName = "default" then securityGroups.eachGroup env acct region rest st
    else
      let s : securityGroup := ⟨acct, region, sg.GroupId⟩
      let ingress := addRefs st.ingress sg.GroupId acct sg.IpPermissions
      let egress := addRefs st.egress sg.GroupId acct sg.IpPermissionsEgress
      match markNow env st.set st.w s with
      | (true, set1, w1) =>
        securityGroups.eachGroup env acct region rest
          ⟨st.toDelete ++ [s], ingress, egress, set1, w1.emit (.warning (s.ARN ++ ": deleting"))⟩
      | (false, set1, w1) =>
        securityGroups.eachGroup env acct region rest ⟨st.toDelete, ingress, egress, set1, w1⟩

/-- The loop over `ingress[sg.ID]` in `securityGroups.MarkAndSweep`. -/
def securityGroups.revokeIngress (env : Env) (region : String) (sg : securityGroup) :
    List sgRef → World → World
  | [], w => w
  | ref :: rest, w =>
    securityGroups.revokeIngress env region sg rest
      ((w.emit (.info (sg.ARN ++ ": revoking reference from " ++ ref.id))).attempt env
        (.RevokeSecurityGroupIngress region ref.id ref.perm)
        (fun err => sg.ARN ++ ": failed to revoke ingress reference from " ++ ref.id ++ ": "
          ++ err))

/-- The loop over `egress[sg.ID]` in `securityGroups.MarkAndSweep`. -/
def securityGroups.revokeEgress (env : Env) (region : String) (sg : securityGroup) :
    List sgRef → World → World
  | [], w => w
  | ref :: rest, w =>
    securityGroups.revokeEgress env region sg rest
      (w.attempt env (.RevokeSecurityGroupEgress region ref.id ref.perm)
        (fun err => sg.ARN ++ ": failed to revoke egress reference from " ++ ref.id ++ ": "
          ++ err))

/-- The second loop of `securityGroups.MarkAndSweep`, over `toDelete`. -/
def securityGroups.deleteEach (env : Env) (region : String)
    (ingress egress : GoMap (List sgRef)) : List securityGroup → World → World
  | [], w => w
  | sg :: rest, w =>
    let w1 := securityGroups.revokeIngress env region sg ((ingress.get sg.ID).getD []) w
    let w2 := securityGroups.revokeEgress env region sg ((egress.get sg.ID).getD []) w1
    securityGroups.deleteEach env region ingress egress rest
      (w2.attempt env (.DeleteSecurityGroup region sg.ID)
        (fun err => sg.ARN ++ ": delete failed: " ++ err))

/-- The body of `securityGroups.MarkAndSweep` once the listing has answered
with `groups`: both loops, from the world `w` in which the listing request is
already recorded. -/
def securityGroups.sweepListing (env : Env) (acct region : String)
    (groups : List SecurityGroup) (set : awsResourceSet) (w : World) : sgScan :=
  let st := securityGroups.eachGroup env acct region groups ⟨[], [], [], set, w⟩
  { st with w := securityGroups.deleteEach env region st.ingress st.egress st.toDelete st.w }

/-- The method `securityGroups.MarkAndSweep`. -/
def securityGroups.MarkAndSweep (env : Env) (acct region : String) (set : awsResourceSet)
    (w : World) : Swept :=
  match env.DescribeSecurityGroups w.trace region with
  | .error err => (some err, set, w.emit (.call (.DescribeSecurityGroups region)))
  | .ok resp =>
    let st := securityGroups.sweepListing env acct region resp set
      (w.emit (.call (.DescribeSecurityGroups region)))
    (none, st.set, st.w)

/-- The loop over `ig.Attachments` in `internetGateways.MarkAndSweep`. -/
def internetGateways.detachEach (env : Env) (region : String) (i : internetGateway) :
    List InternetGatewayAttachment → World → World
  | [], w => w
  | att :: rest, w =>
    internetGateways.detachEach env region i rest
      (w.attempt env (.DetachInternetGateway region i.ID att.VpcId)
        (fun err => i.ARN ++ ": detach from " ++ att.VpcId ++ " failed: " ++ err))

/-- The loop over `resp.InternetGateways` in `internetGateways.MarkAndSweep`. -/
def internetGateways.eachGateway (env : Env) (acct region : String) :
    List InternetGateway → awsResourceSet × World → awsResourceSet × World
  | [], st => st
  | ig :: rest, (set, w) =>
    let i : internetGateway := ⟨acct, region, ig.InternetGatewayId⟩
    match markNow env set w i with
    | (true, set1, w1) =>
      let w2 := internetGateways.detachEach env region i ig.Attachments
        (w1.emit (.warning (i.ARN ++ ": deleting")))
      internetGateways.eachGateway env acct region rest
        (set1, w2.attempt env (.DeleteInternetGateway region ig.InternetGatewayId)
          (fun err => i.ARN ++ ": delete failed: " ++ err))
    | (false, set1, w1) => internetGateways.eachGateway env acct region rest (set1, w1)

/-- The method `internetGateways.MarkAndSweep`. -/
def internetGateways.MarkAndSweep (env : Env) (acct region : String) (set : awsResourceSet)
    (w : World) : Swept :=
  match env.DescribeInternetGateways w.trace region with
  | .error err => (some err, set, w.emit (.call (.DescribeInternetGateways region)))
  | .ok resp =>
    let st := internetGateways.eachGateway env acct region resp
      (set, w.emit (.call (.DescribeInternetGateways region)))
    (none, st.1, st.2)

/-- The loop `main = main || *assoc.Main` of `routeTables.MarkAndSweep`. -/
def routeTables.hasMain : List RouteTableAssociation → Bool → Bool
  | [], main => main
  | assoc :: rest, main => routeTables.hasMain rest (main || assoc.Main)

/-- The loop over `rt.Associations` of a marked table in
`routeTables.MarkAndSweep`. -/
def routeTables.disassociateEach (env : Env) (region : String) (r : routeTable) :
    List RouteTableAssociation → World → World
  | [], w => w
  | assoc :: rest, w =>
    routeTables.disassociateEach env region r rest
      ((w.emit (.info (r.ARN ++ ": disassociating from " ++ assoc.SubnetId))).attempt env
        (.DisassociateRouteTable region assoc.RouteTableAssociationId)
        (fun err => r.ARN ++ ": disassociation from subnet " ++ assoc.SubnetId ++ " failed: "
          ++ err))

/-- The loop over `resp.RouteTables` in `routeTables.MarkAndSweep`. -/
def routeTables.eachTable (env : Env) (acct region : String) :
    List RouteTable → awsResourceSet × World → awsResourceSet × World
  | [], st => st
  | rt :: rest, (set, w) =>
    if routeTables.hasMain rt.Associations false then
      routeTables.eachTable env acct region rest (set, w)
    else
      let r : routeTable := ⟨acct, region, rt.RouteTableId⟩
      match markNow env set w r with
      | (true, set1, w1) =>
        let w2 := routeTables.disassociateEach env region r rt.Associations w1
        routeTables.eachTable env acct region rest
          (set1, (w2.emit (.warning (r.ARN ++ ": deleting"))).attempt env
            (.DeleteRouteTable region rt.RouteTableId)
            (fun err => r.ARN ++ ": delete failed: " ++ err))
      | (false, set1, w1) => routeTables.eachTable env acct region rest (set1, w1)

/-- The method `routeTables.MarkAndSweep`. -/
def routeTables.MarkAndSweep (env : Env) (acct region : String) (set : awsResourceSet)
    (w : World) : Swept :=
  match env.DescribeRouteTables w.trace region with
  | .error err => (some err, set, w.emit (.call (.DescribeRouteTables region)))
  | .ok resp =>
    let st := routeTables.eachTable env acct region resp
      (set, w.emit (.call (.DescribeRouteTables region)))
    (none, st.1, st.2)

/-- The loop over `resp.Vpcs` in `vpcs.MarkAndSweep`. -/
def vpcs.eachVpc (env : Env) (acct region : String) :
    List Vpc → awsResourceSet × World → awsResourceSet × World
  | [], st => st
  | vp :: rest, (set, w) =>
    let v : vpc := ⟨acct, region, vp.VpcId⟩
    match markNow env set w v with
    | (true, set1, w1) =>
      let w2 := w1.emit (.warning (v.ARN ++ ": deleting"))
      let w3 :=
        if vp.DhcpOptionsId ≠ "default" then
          w2.attempt env (.AssociateDhcpOptions region vp.VpcId "default")
            (fun err => v.ARN ++ ": disassociating DHCP option set " ++ vp.DhcpOptionsId
              ++ " failed: " ++ err)
        else w2
      vpcs.eachVpc env acct region rest
        (set1, w3.attempt env (.DeleteVpc region vp.VpcId)
          (fun err => v.ARN ++ ": delete failed: " ++ err))
    | (false, set1, w1) => vpcs.eachVpc env acct region rest (set1, w1)

/-- The method `vpcs.MarkAndSweep`. -/
def vpcs.MarkAndSweep (env : Env) (acct region : String) (set : awsResourceSet)
    (w : World) : Swept :=
  match env.DescribeVpcs w.trace region false with
  | .error err => (some err, set, w.emit (.call (.DescribeVpcs region false)))
  | .ok resp =>
    let st := vpcs.eachVpc env acct region resp
      (set, w.emit (.call (.DescribeVpcs region false)))
    (none, st.1, st.2)

/-- The loop that fills `defaultRefs` in `dhcpOptions.MarkAndSweep`. -/
def dhcpOptions.defaultRefs : List Vpc → GoMap Bool → GoMap Bool
  | [], refs => refs
  | vp :: rest, refs => dhcpOptions.defaultRefs rest (refs.set vp.DhcpOptionsId true)

/-- The loop over `resp.DhcpOptions` in `dhcpOptions.MarkAndSweep`. -/
def dhcpOptions.eachOption (env : Env) (acct region : String) (defaultRefs : GoMap Bool) :
    List DhcpOptions → awsResourceSet × World → awsResourceSet × World
  | [], st => st
  | dhcp :: rest, (set, w) =>
    if (defaultRefs.get dhcp.DhcpOptionsId).getD false then
      dhcpOptions.eachOption env acct region defaultRefs rest (set, w)
    else
      let dh : dhcpOption := ⟨acct, region, dhcp.DhcpOptionsId⟩
      match markNow env set w dh with
      | (true, set1, w1) =>
        dhcpOptions.eachOption env acct region defaultRefs rest
          (set1, (w1.emit (.warning (dh.ARN ++ ": deleting"))).attempt env
            (.DeleteDhcpOptions region dhcp.DhcpOptionsId)
            (fun err => dh.ARN ++ ": delete failed: " ++ err))
      | (false, set1, w1) =>
        dhcpOptions.eachOption env acct region defaultRefs rest (set1, w1)

/-- The method `dhcpOptions.MarkAndSweep`. -/
def dhcpOptions.MarkAndSweep (env : Env) (acct region : String) (set : awsResourceSet)
    (w : World) : Swept :=
  match env.DescribeVpcs w.trace region true with
  | .error err => (some err, set, w.emit (.call (.DescribeVpcs region true)))
  | .ok defaults =>
    let w1 := w.emit (.call (.DescribeVpcs region true))
    match env.DescribeDhcpOptions w1.trace region with
    | .error err => (some err, set, w1.emit (.call (.DescribeDhcpOptions region)))
    | .ok resp =>
      let st := dhcpOptions.eachOption env acct region (dhcpOptions.defaultRefs defaults [])
        resp (set, w1.emit (.call (.DescribeDhcpOptions region)))
      (none, st.1, st.2)

/-- The page callback of `volumes.MarkAndSweep`, for one page. -/
def volumes.eachVolume (env : Env) (acct region : String) :
    List Volume → List volume × awsResourceSet × World → List volume × awsResourceSet × World
  | [], st => st
  | vol :: rest, (toDelete, set, w) =>
    let v : volume := ⟨acct, region, vol.VolumeId⟩
    match markNow env set w v with
    | (true, set1, w1) =>
      volumes.eachVolume env acct region rest
        (toDelete ++ [v], set1, w1.emit (.warning (v.ARN ++ ": deleting")))
    | (false, set1, w1) => volumes.eachVolume env acct region rest (toDelete, set1, w1)

/-- The page callback of `volumes.MarkAndSweep`, over the pages delivered. -/
def volumes.eachPage (env : Env) (acct region : String) :
    List (List Volume) → List volume × awsResourceSet × World →
      List volume × awsResourceSet × World
  | [], st => st
  | page :: rest, st =>
    volumes.eachPage env acct region rest (volumes.eachVolume env acct region page st)

/-- The loop over `toDelete` in `volumes.MarkAndSweep`. -/
def volumes.deleteEach (env : Env) (region : String) : List volume → World → World
  | [], w => w
  | vol :: rest, w =>
    volumes.deleteEach env region rest
      (w.attempt env (.DeleteVolume region vol.ID)
        (fun err => vol.ARN ++ ": delete failed: " ++ err))

/-- The method `volumes.MarkAndSweep`. -/
def volumes.MarkAndSweep (env : Env) (acct region : String) (set : awsResourceSet)
    (w : World) : Swept :=
  let listing := env.DescribeVolumesPages w.trace region
  let st := volumes.eachPage env acct region listing.1
    ([], set, w.emit (.call (.DescribeVolumesPages region)))
  match listing.2 with
  | some err => (some err, st.2.1, st.2.2)
  | none => (none, st.2.1, volumes.deleteEach env region st.1 st.2.2)

/-! ## The account of the caller -/

/-- The call `strings.Split(s, sep)` for a separator of one character, on the
characters of `s`: the pieces between the separators, one piece when there is
no separator. -/
def splitChars (sep : Char) : List Char → List (List Char)
  | [] => [[]]
  | c :: cs =>
    if c = sep then [] :: splitChars sep cs
    else
      match splitChars sep cs with
      | [] => [[c]]
      | piece :: pieces => (c :: piece) :: pieces

/-- The call `strings.SplitN(s, sep, 2)` for a separator of one character: the
part before the first separator and, when there is one, the part after it. -/
def splitFirst (sep : Char) : List Char → List Char × Option (List Char)
  | [] => ([], none)
  | c :: cs =>
    if c = sep then ([], some cs)
    else ((c :: (splitFirst sep cs).1), (splitFirst sep cs).2)

/-- The struct `arn`. -/
structure arn where
  partition : String
  service : String
  region : String
  account : String
  resourceType : String
  resource : String
  deriving DecidableEq

/-- The function `parseARN`. -/
def parseARN (s : String) : Except String arn :=
  match (splitChars ':' s.data).map String.mk with
  | [p0, p1, p2, p3, p4, p5] =>
    if p0 ≠ "arn" ∨ p1 ≠ "aws" then .error ("Invalid AWS ARN: " ++ s)
    else
      match splitFirst '/' p5.data with
      | (res0, none) => .ok ⟨p1, p2, p3, p4, "", String.mk res0⟩
      | (res0, some res1) => .ok ⟨p1, p2, p3, p4, String.mk res0, String.mk res1⟩
  | _ => .error ("Invalid AWS ARN: " ++ s)

/-- The function `getAccount`, given the answer of `GetUser`: the error, or
the ARN of the user. -/
def getAccount (user : Except String String) : Except String String :=
  match user with
  | .error err => .error err
  | .ok userArn =>
    match parseARN userArn with
    | .error err => .error err
    | .ok a => .ok a.account

/-! ## The orchestrator -/

/-- The interface `awsResourceType`, with the name `%T` prints for it. -/
structure awsResourceType where
  name : String
  MarkAndSweep : Env → String → String → awsResourceSet → World → Swept

/-- The table `awsResourceTypes`, in its declared order. -/
def awsResourceTypes : List awsResourceType :=
  [ ⟨"main.autoScalingGroups", autoScalingGroups.MarkAndSweep⟩,
    ⟨"main.launchConfigurations", launchConfigurations.MarkAndSweep⟩,
    ⟨"main.instances", instances.MarkAndSweep⟩,
    ⟨"main.subnets", subnets.MarkAndSweep⟩,
    ⟨"main.securityGroups", securityGroups.MarkAndSweep⟩,
    ⟨"main.internetGateways", internetGateways.MarkAndSweep⟩,
    ⟨"main.routeTables", routeTables.MarkAndSweep⟩,
    ⟨"main.vpcs", vpcs.MarkAndSweep⟩,
    ⟨"main.dhcpOptions", dhcpOptions.MarkAndSweep⟩,
    ⟨"main.volumes", volumes.MarkAndSweep⟩ ]

/-- The function `LoadResourceSet`, reading the stored object `object` (`none`
when S3 answers `NoSuchKey`). -/
def LoadResourceSet (env : Env) (ttl : Duration) (object : Option String) (w : World) :
    Except String awsResourceSet × World :=
  let s : awsResourceSet := ⟨[], [], ttl⟩
  let w1 := w.emit (.call .GetObject)
  match env.GetObjectError w.trace with
  | some err => (.error err, w1)
  | none =>
    match object with
    | none => (.ok s, w1)
    | some body =>
      match env.Decode body with
      | .error err => (.error err, w1)
      | .ok m => (.ok { s with firstSeen := m }, w1)

/-- The method `Save`: returns the error, the ledger, the world and the stored
object. -/
def awsResourceSet.Save (env : Env) (s : awsResourceSet) (object : Option String) (w : World) :
    Option String × awsResourceSet × World × Option String :=
  let s1 := s.markComplete
  match env.MarshalIndent s1.firstSeen with
  | .error err => (some err, s1, w, object)
  | .ok b =>
    match env.respond w.trace (.PutObject b) with
    | some err => (some err, s1, w.emit (.call (.PutObject b)), object)
    | none => (none, s1, w.emit (.call (.PutObject b)), some b)

/-- The inner loop of `main`, over `awsResourceTypes`: stops, after logging, at
the first sweeper that returns an error. -/
def main.eachType (env : Env) (acct region : String) :
    List awsResourceType → awsResourceSet → World → Swept
  | [], res, w => (none, res, w)
  | typ :: rest, res, w =>
    match typ.MarkAndSweep env acct region res w with
    | (some err, res1, w1) =>
      (some err, res1, w1.emit (.error ("error sweeping " ++ typ.name ++ ": " ++ err)))
    | (none, res1, w1) => main.eachType env acct region rest res1 w1

/-- The outer loop of `main`, over the regions. -/
def main.eachRegion (env : Env) (acct : String) (types : List awsResourceType) :
    List String → awsResourceSet → World → Swept
  | [], res, w => (none, res, w)
  | region :: rest, res, w =>
    match main.eachType env acct region types res w with
    | (some err, res1, w1) => (some err, res1, w1)
    | (none, res1, w1) => main.eachRegion env acct types rest res1 w1

/-- How `main` ended. -/
inductive Exit where
  | saved
  | sweepError
  | fatal
  deriving DecidableEq

/-- What a run of `main` leaves behind: how it ended, the ledger in memory
when it ended (none when loading failed), the world and the stored object. -/
structure Outcome where
  exit : Exit
  res : Option awsResourceSet
  w : World
  object : Option String
  deriving DecidableEq

/-- The function `main` from `LoadResourceSet` on, for the regions, account and
TTL that the flags and `getAccount` gave it. -/
def main (env : Env) (regions : List String) (acct : String) (ttl : Duration)
    (object : Option String) (w : World) : Outcome :=
  match LoadResourceSet env ttl object w with
  | (.error err, w1) => ⟨.fatal, none, w1.emit (.fatal ("error loading: " ++ err)), object⟩
  | (.ok res, w1) =>
    match main.eachRegion env acct awsResourceTypes regions res w1 with
    | (some _, res1, w2) => ⟨.sweepError, some res1, w2, object⟩
    | (none, res1, w2) =>
      match res1.Save env object w2 with
      | (some err, res2, w3, object1) =>
        ⟨.fatal, some res2, w3.emit (.fatal ("error saving: " ++ err)), object1⟩
      | (none, res2, w3, object1) => ⟨.saved, some res2, w3, object1⟩

/-! ## Reference edges and the requests due for a group, stated on the listing

The next definitions do not come from the janitor: they say, on the listing
alone, which rules point at a group and which requests are due before it is
deleted.  The theorems compare the sweeper with them. -/

/-- The edges that the rules `perms` of group `id` hold on group `k`: one for
every pair of the sweeping account that names `k`, unless `k` is `id` itself. -/
def edgesAt (acct id : String) (perms : List IpPermission) (k : String) : List sgRef :=
  perms.flatMap (fun perm =>
    (perm.UserIdGroupPairs.filter (fun pair =>
      decide (pair.UserId = acct ∧ pair.GroupId ≠ id ∧ pair.GroupId = k))).map
      (fun _ => (⟨id, perm⟩ : sgRef)))

/-- The edges that the ingress rules of the listed groups not named `default`
hold on group `k`. -/
def ingressAt (acct : String) (groups : List SecurityGroup) (k : String) : List sgRef :=
  (groups.filter (fun g => decide (g.GroupName ≠ "default"))).flatMap
    (fun g => edgesAt acct g.GroupId g.IpPermissions k)

/-- The edges that the egress rules of the listed groups not named `default`
hold on group `k`. -/
def egressAt (acct : String) (groups : List SecurityGroup) (k : String) : List sgRef :=
  (groups.filter (fun g => decide (g.GroupName ≠ "default"))).flatMap
    (fun g => edgesAt acct g.GroupId g.IpPermissionsEgress k)

/-- The requests due for one group of the deletion batch: a revoke on the
holder of every ingress edge, a revoke on the holder of every egress edge,
then the delete. -/
def requestsFor (region : String) (ingress egress : List sgRef) (sg : securityGroup) :
    List ApiCall :=
  ingress.map (fun ref => ApiCall.RevokeSecurityGroupIngress region ref.id ref.perm) ++
    egress.map (fun ref => ApiCall.RevokeSecurityGroupEgress region ref.id ref.perm) ++
    [ApiCall.DeleteSecurityGroup region sg.ID]

/-- The ids of the `DeleteSecurityGroup` requests sent through the client of
`region`, in the order they were sent. -/
def deleteAttempts (region : String) (cs : List ApiCall) : List String :=
  cs.filterMap (fun c => match c with
    | .DeleteSecurityGroup r id => if r = region then some id else none
    | _ => none)

/-! ## The ledger document: RFC 3339 timestamps

`Save` writes the ledger with `json.MarshalIndent` and `LoadResourceSet` reads
it with `json.NewDecoder(...).Decode`, both at the type `map[string]time.Time`.
This section and the next two give these two functions of the Go library at
that type: the timestamps, the strings and the object.  A `time.Time` is taken
as its instant, in nanoseconds from 1970-01-01T00:00:00Z; the zone in which the
encoder shows it is an argument of the encoder. -/

/-- The decimal digit `d`, for `d < 10`. -/
def digitChar (d : Nat) : Char := Char.ofNat (48 + d)

/-- The value of a decimal digit, none for any other character. -/
def digitVal (c : Char) : Option Nat :=
  if 48 ≤ c.toNat ∧ c.toNat ≤ 57 then some (c.toNat - 48) else none

/-- The last `w` decimal digits of `n`, most significant first, padded with
zeros. -/
def padDigits : Nat → Nat → List Char
  | 0, _ => []
  | w + 1, n => digitChar (n / 10 ^ w % 10) :: padDigits w n

/-- The number written by a list of decimal digits, continuing from `acc`;
none when a character is not a digit. -/
def readDigits (acc : Nat) : List Char → Option Nat
  | [] => some acc
  | c :: cs =>
    match digitVal c with
    | none => none
    | some d => readDigits (acc * 10 + d) cs

/-- The digits of a fraction of `w` decimal places without its trailing
zeros: what is left of `padDigits w n` once the zeros at its end are cut. -/
def fracDigits : Nat → Nat → List Char
  | 0, _ => []
  | w + 1, n =>
    if n % 10 ^ (w + 1) = 0 then [] else digitChar (n / 10 ^ w % 10) :: fracDigits w n

/-- The fraction written by a list of digits, in units of the `w`-th decimal
place; digits beyond the `w`-th are read and dropped. -/
def readFrac : Nat → List Char → Option Nat
  | _, [] => some 0
  | 0, c :: cs =>
    match digitVal c with
    | none => none
    | some _ => readFrac 0 cs
  | w + 1, c :: cs =>
    match digitVal c with
    | none => none
    | some d =>
      match readFrac w cs with
      | none => none
      | some f => some (d * 10 ^ w + f)

/-- The civil date (year, month, day) of the day `z` days after 1970-01-01 in
the proleptic Gregorian calendar: the 400-year, 100-year, 4-year and 1-year
cycles are taken off a count of days that starts on a 1 March. -/
def civilFromDays (z : Int) : Int × Int × Int :=
  let z1 := z + 719468
  let era := z1 / 146097
  let doe := z1 % 146097
  let n100 := min (doe / 36524) 3
  let r := doe - 36524 * n100
  let n4 := r / 1461
  let r2 := r - 1461 * n4
  let n1 := min (r2 / 365) 3
  let yoe := 100 * n100 + 4 * n4 + n1
  let doy := r2 - 365 * n1
  let mp := (5 * doy + 2) / 153
  let d := doy - (153 * mp + 2) / 5 + 1
  let m := if mp < 10 then mp + 3 else mp - 9
  let y := yoe + era * 400 + (if m ≤ 2 then 1 else 0)
  (y, m, d)

/-- The number of days from 1970-01-01 to the civil date `y`-`m`-`d`. -/
def daysFromCivil (y m d : Int) : Int :=
  let y1 := if m ≤ 2 then y - 1 else y
  let era := y1 / 400
  let yoe := y1 % 400
  let mp := if m > 2 then m - 3 else m + 9
  let doy := (153 * mp + 2) / 5 + d - 1
  let doe := yoe * 365 + yoe / 4 - yoe / 100 + doy
  era * 146097 + doe - 719468

/-- The number of days of month `m` of year `y`. -/
def daysIn (y m : Int) : Int :=
  if m = 2 then (if y % 4 = 0 ∧ (y % 100 ≠ 0 ∨ y % 400 = 0) then 29 else 28)
  else if m = 4 ∨ m = 6 ∨ m = 9 ∨ m = 11 then 30
  else 31

/-- The offset of the zone in which a `time.Time` shows its instant: minutes
east of UTC, less than a day either way. -/
structure Zone where
  minutes : Int
  small : -1440 < minutes ∧ minutes < 1440

/-- The zone UTC. -/
def Zone.utc : Zone := ⟨0, by decide⟩

/-- The zone of an RFC 3339 timestamp as `Format` writes it for an offset of
`z` minutes: `Z` for no offset, otherwise the sign, two digits of hours, a
colon and two digits of minutes. -/
def zoneText (z : Int) : List Char :=
  if z = 0 then ['Z']
  else (if z < 0 then '-' else '+') ::
    (padDigits 2 (z.natAbs / 60) ++ ':' :: padDigits 2 (z.natAbs % 60))

/-- The text `time.Time.MarshalJSON` puts between the quotes for the instant
`t`, counted in nanoseconds from 1970-01-01T00:00:00Z and shown in the zone
`z` minutes east of UTC: the layout `RFC3339Nano`, or the error for a year
outside 0..9999. -/
def formatTime (z : Int) (t : Int) : Except String (List Char) :=
  let shown := t + z * 60000000000
  let secs := shown / 1000000000
  let nanos := shown % 1000000000
  let days := secs / 86400
  let sod := secs % 86400
  let ymd := civilFromDays days
  if ymd.1 < 0 ∨ 9999 < ymd.1 then
    .error "Time.MarshalJSON: year outside of range [0,9999]"
  else
    .ok (padDigits 4 ymd.1.toNat ++ '-' :: padDigits 2 ymd.2.1.toNat ++ '-' ::
      padDigits 2 ymd.2.2.toNat ++ 'T' :: padDigits 2 (sod / 3600).toNat ++ ':' ::
      padDigits 2 (sod % 3600 / 60).toNat ++ ':' :: padDigits 2 (sod % 60).toNat ++
      (if nanos = 0 then [] else '.' :: fracDigits 9 nanos.toNat) ++ zoneText z)

/-- The zone of an RFC 3339 timestamp, in seconds east of UTC: `Z`, or a sign,
two digits of hours, a colon and two digits of minutes. -/
def parseZone : List Char → Option Int
  | [z] => if z = 'Z' then some 0 else none
  | [sign, h1, h2, colon, m1, m2] =>
    if colon = ':' ∧ (sign = '+' ∨ sign = '-') then
      match readDigits 0 [h1, h2], readDigits 0 [m1, m2] with
      | some h, some m =>
        if h < 24 ∧ m < 60 then
          some ((if sign = '-' then -1 else 1) * ((h : Int) * 3600 + (m : Int) * 60))
        else none
      | _, _ => none
    else none
  | _ => none

/-- The fraction of a second and the zone that follow the seconds of an RFC
3339 timestamp: nanoseconds and seconds east of UTC. -/
def parseFracZone (rest : List Char) : Option (Nat × Int) :=
  match rest with
  | c :: cs =>
    if c = '.' then
      match cs.span (fun x => (digitVal x).isSome) with
      | ([], _) => none
      | (ds, zone) =>
        match readFrac 9 ds, parseZone zone with
        | some f, some off => some (f, off)
        | _, _ => none
    else
      match parseZone (c :: cs) with
      | some off => some (0, off)
      | none => none
  | [] => none

/-- The instant written by an RFC 3339 timestamp, as `time.Time.UnmarshalJSON`
reads the text between the quotes: date and time of day in digits of fixed
width, an optional fraction and the zone.  A text that RFC 3339 does not admit
is answered with none. -/
def parseTime (cs : List Char) : Option Int :=
  match cs with
  | y1 :: y2 :: y3 :: y4 :: a :: m1 :: m2 :: b :: d1 :: d2 :: c :: h1 :: h2 :: e :: n1 :: n2 ::
      f :: s1 :: s2 :: rest =>
    if a = '-' ∧ b = '-' ∧ c = 'T' ∧ e = ':' ∧ f = ':' then
      match readDigits 0 [y1, y2, y3, y4], readDigits 0 [m1, m2], readDigits 0 [d1, d2],
        readDigits 0 [h1, h2], readDigits 0 [n1, n2], readDigits 0 [s1, s2],
        parseFracZone rest with
      | some y, some m, some d, some h, some n, some s, some (frac, off) =>
        if 1 ≤ m ∧ m ≤ 12 ∧ 1 ≤ d ∧ (d : Int) ≤ daysIn y m ∧ h < 24 ∧ n < 60 ∧ s < 60 then
          some (((daysFromCivil y m d * 86400 + (h : Int) * 3600 + (n : Int) * 60 + (s : Int))
            - off) * 1000000000 + (frac : Int))
        else none
      | _, _, _, _, _, _, _ => none
    else none
  | _ => none

/-- A character that a timestamp is written with. -/
def timeChar (c : Char) : Prop :=
  (digitVal c).isSome = true ∨ c = '-' ∨ c = 'T' ∨ c = ':' ∨ c = '.' ∨ c = 'Z' ∨ c = '+'

/-! ## The ledger document: JSON strings -/

/-- The double quote. -/
def quoteChar : Char := Char.ofNat 34

/-- The backslash. -/
def backslash : Char := Char.ofNat 92

/-- The line feed. -/
def newline : Char := Char.ofNat 10

/-- The opening brace. -/
def lbrace : Char := Char.ofNat 123

/-- The closing brace. -/
def rbrace : Char := Char.ofNat 125

/-- The hexadecimal digit `d`, for `d < 16`, in lower case. -/
def hexDigit (d : Nat) : Char :=
  if d < 10 then Char.ofNat (48 + d) else Char.ofNat (87 + d)

/-- The value of a hexadecimal digit of either case. -/
def hexVal (c : Char) : Option Nat :=
  if 48 ≤ c.toNat ∧ c.toNat ≤ 57 then some (c.toNat - 48)
  else if 97 ≤ c.toNat ∧ c.toNat ≤ 102 then some (c.toNat - 87)
  else if 65 ≤ c.toNat ∧ c.toNat ≤ 70 then some (c.toNat - 55)
  else none

/-- The four hexadecimal digits of `n`, for `n < 65536`. -/
def hex4 (n : Nat) : List Char :=
  [hexDigit (n / 4096 % 16), hexDigit (n / 256 % 16), hexDigit (n / 16 % 16), hexDigit (n % 16)]

/-- The number written by four hexadecimal digits. -/
def readHex4 (a b c d : Char) : Option Nat :=
  match hexVal a, hexVal b, hexVal c, hexVal d with
  | some x, some y, some z, some w => some (((x * 16 + y) * 16 + z) * 16 + w)
  | _, _, _, _ => none

/-- What the encoder writes for one character of a string, with the escaping
of HTML characters that `Marshal` applies: a two-character escape for the
quote, the backslash, line feed, carriage return and tab, a `u` escape for
the other control characters, for `<`, `>`, `&`, U+2028 and U+2029, and the
character itself otherwise. -/
def escapeChar (c : Char) : List Char :=
  if c = quoteChar then [backslash, quoteChar]
  else if c = backslash then [backslash, backslash]
  else if c.toNat = 10 then [backslash, 'n']
  else if c.toNat = 13 then [backslash, 'r']
  else if c.toNat = 9 then [backslash, 't']
  else if c.toNat < 32 ∨ c = '<' ∨ c = '>' ∨ c = '&' ∨ c.toNat = 8232 ∨ c.toNat = 8233 then
    backslash :: 'u' :: hex4 c.toNat
  else [c]

/-- The JSON string the encoder writes for `s`. -/
def quote (s : List Char) : List Char :=
  quoteChar :: s.flatMap escapeChar ++ [quoteChar]

/-- The character of a `u` escape, or of a pair of them: a code unit outside
the surrogates is its character, a high surrogate followed by the escape of a
low surrogate is the character of the pair, and any other surrogate is
U+FFFD.  The result says how many characters of the rest the pair took. -/
def decodeUnit (n : Nat) (rest : List Char) : Char × Nat :=
  if 55296 ≤ n ∧ n < 57344 then
    match rest with
    | b :: u :: a1 :: a2 :: a3 :: a4 :: _ =>
      if n < 56320 ∧ b = backslash ∧ u = 'u' then
        match readHex4 a1 a2 a3 a4 with
        | some n2 =>
          if 56320 ≤ n2 ∧ n2 < 57344 then
            (Char.ofNat (65536 + (n - 55296) * 1024 + (n2 - 56320)), 6)
          else (Char.ofNat 65533, 0)
        | none => (Char.ofNat 65533, 0)
      else (Char.ofNat 65533, 0)
    | _ => (Char.ofNat 65533, 0)
  else (Char.ofNat n, 0)

/-- The character of a two-character escape, by the character after the
backslash. -/
def escapeValue (e : Char) : Option Char :=
  if e = quoteChar then some quoteChar
  else if e = backslash then some backslash
  else if e = '/' then some '/'
  else if e = 'b' then some (Char.ofNat 8)
  else if e = 'f' then some (Char.ofNat 12)
  else if e = 'n' then some (Char.ofNat 10)
  else if e = 'r' then some (Char.ofNat 13)
  else if e = 't' then some (Char.ofNat 9)
  else none

/-- The decoder on an escape, after its backslash: the character it stands
for and what follows the escape. -/
def readEscape : List Char → Option (Char × List Char)
  | [] => none
  | e :: cs1 =>
    if e = 'u' then
      match cs1 with
      | a1 :: a2 :: a3 :: a4 :: cs2 =>
        match readHex4 a1 a2 a3 a4 with
        | none => none
        | some n => some ((decodeUnit n cs2).1, cs2.drop (decodeUnit n cs2).2)
      | _ => none
    else
      match escapeValue e with
      | none => none
      | some x => some (x, cs1)

/-- The decoder on the body of a JSON string, after its opening quote: the
characters of the string up to the closing quote, and what follows it; none
when the string is not closed, holds a raw control character or a bad escape.
The fuel bounds the number of steps and is the length of the input. -/
def unquoteBody : Nat → List Char → Option (List Char × List Char)
  | 0, _ => none
  | _ + 1, [] => none
  | fuel + 1, c :: cs =>
    if c = quoteChar then some ([], cs)
    else if c = backslash then
      match readEscape cs with
      | none => none
      | some (x, cs1) => (unquoteBody fuel cs1).map (fun r => (x :: r.1, r.2))
    else if c.toNat < 32 then none
    else (unquoteBody fuel cs).map (fun r => (c :: r.1, r.2))

/-- The decoder on a JSON string: its characters and what follows it. -/
def parseString (cs : List Char) : Option (List Char × List Char) :=
  match cs with
  | [] => none
  | c :: cs1 => if c = quoteChar then unquoteBody cs1.length cs1 else none

/-! ## The ledger document: the JSON object -/

/-- The white space of JSON: space, tab, line feed and carriage return. -/
def isSpace (c : Char) : Bool :=
  decide (c.toNat = 32 ∨ c.toNat = 9 ∨ c.toNat = 10 ∨ c.toNat = 13)

/-- Drops the white space at the head of the input. -/
def skipSpace (cs : List Char) : List Char :=
  cs.dropWhile isSpace

/-- The order in which the encoder writes the keys of a map: Go compares
strings byte by byte, which on UTF-8 is the order of the code points. -/
def keyLe : List Char → List Char → Bool
  | [], _ => true
  | _ :: _, [] => false
  | a :: as, b :: bs =>
    if a.toNat < b.toNat then true
    else if b.toNat < a.toNat then false
    else keyLe as bs

/-- The entries of a map as the encoder visits them: every key once, in
increasing order, with the value the map holds for it. -/
def sortedEntries (m : GoMap Time) : List (String × Time) :=
  (List.insertionSort (fun a b => keyLe a.data b.data = true) m.keys.dedup).filterMap
    (fun k => (m.get k).map (fun v => (k, v)))

/-- One member of the object: the key as a JSON string, a colon, a space and
the timestamp between quotes, which is what `time.Time.MarshalJSON` answers.
The timestamp is shown in the zone that `zone` gives for the key. -/
def encodeMember (zone : String → Zone) (e : String × Time) : Except String (List Char) :=
  match formatTime (zone e.1).minutes e.2 with
  | .error err => .error err
  | .ok text => .ok (quote e.1.data ++ ':' :: ' ' :: quoteChar :: (text ++ [quoteChar]))

/-- The members of the object, in order; the first error ends the encoding. -/
def encodeMembers (zone : String → Zone) : List (String × Time) → Except String (List (List Char))
  | [] => .ok []
  | e :: es =>
    (encodeMember zone e).bind (fun a => (encodeMembers zone es).map (fun as => a :: as))

/-- The members laid out with the indent of two spaces: a comma, a line feed
and the indent between one member and the next. -/
def joinMembers : List (List Char) → List Char
  | [] => []
  | a :: as =>
    match as with
    | [] => a
    | _ :: _ => a ++ ',' :: newline :: ' ' :: ' ' :: joinMembers as

/-- The call `json.MarshalIndent(m, "", "  ")` on a `map[string]time.Time`
whose timestamps are shown in the zones `zone`: the two braces for an empty
map, and otherwise the members on lines of their own between the braces. -/
def json.MarshalIndent (zone : String → Zone) (m : GoMap Time) : Except String String :=
  match encodeMembers zone (sortedEntries m) with
  | .error err => .error ("json: error calling MarshalJSON for type time.Time: " ++ err)
  | .ok [] => .ok (String.mk [lbrace, rbrace])
  | .ok (a :: as) =>
    .ok (String.mk (lbrace :: newline :: ' ' :: ' ' :: (joinMembers (a :: as) ++ [newline, rbrace])))

/-- The decoder on the value of a member: `time.Time.UnmarshalJSON` reads the
literal as it stands in the document, so the text between the quotes must be
a timestamp as it is, without escapes.  Answers the instant and what follows
the closing quote. -/
def parseTimeValue (cs : List Char) : Option (Time × List Char) :=
  match cs with
  | [] => none
  | c :: cs1 =>
    if c = quoteChar then
      match cs1.span (fun x => decide (x ≠ quoteChar)) with
      | (_, []) => none
      | (text, _ :: rest) =>
        match parseTime text with
        | none => none
        | some t => some (t, rest)
    else none

/-- The decoder on one member: a key, a colon and a timestamp, with white
space allowed around the colon.  Answers the entry and what follows it, white
space dropped. -/
def parseMember (cs : List Char) : Option ((String × Time) × List Char) :=
  match parseString cs with
  | none => none
  | some (k, cs1) =>
    match skipSpace cs1 with
    | [] => none
    | c :: cs2 =>
      if c = ':' then
        match parseTimeValue (skipSpace cs2) with
        | none => none
        | some (t, cs3) => some ((String.mk k, t), skipSpace cs3)
      else none

/-- The decoder on the members of an object, from the first character of a
key on: each member is assigned into the map, so that of two members with one
key the later stays, and the closing brace ends the object.  The fuel bounds
the number of members and is the length of the input. -/
def parseMembers : Nat → List Char → GoMap Time → Option (GoMap Time)
  | 0, _, _ => none
  | fuel + 1, cs, acc =>
    match parseMember cs with
    | none => none
    | some (e, rest) =>
      match rest with
      | [] => none
      | c :: cs1 =>
        if c = ',' then parseMembers fuel (skipSpace cs1) (acc.set e.1 e.2)
        else if c = rbrace then some (acc.set e.1 e.2)
        else none

/-- The call `json.NewDecoder(body).Decode(&m)` on an empty
`map[string]time.Time`: the first JSON value of the body is read and what
follows it is not.  An object whose values are timestamps gives the map of
its members and `null` leaves the map empty; a body of any other shape is
answered with an error. -/
def json.Decode (body : String) : Except String (GoMap Time) :=
  match skipSpace body.data with
  | [] => .error "EOF"
  | c :: cs =>
    if c = lbrace then
      match skipSpace cs with
      | [] => .error "unexpected EOF"
      | c1 :: cs1 =>
        if c1 = rbrace then .ok []
        else
          match parseMembers (c1 :: cs1).length (c1 :: cs1) [] with
          | none => .error "json: cannot unmarshal the body into a map of timestamps"
          | some m => .ok m
    else if (c :: cs).take 4 = ['n', 'u', 'l', 'l'] then .ok []
    else .error "json: cannot unmarshal the body into a map of timestamps"

/-- The environment `env` with the JSON encoder and decoder of the Go library
in place of its own: the encoder shows the timestamp of each key in the zone
`zone` gives for it. -/
def Env.withJSON (env : Env) (zone : String → Zone) : Env :=
  { env with MarshalIndent := json.MarshalIndent zone, Decode := json.Decode }

/-! ## Environments for the examples -/

/-- An environment whose clock always reads `t`, whose listings are empty and
whose requests all succeed. -/
def Env.idle (t : Time) : Env where
  now := fun _ => t
  respond := fun _ _ => none
  DescribeInstancesPages := fun _ _ => ([], none)
  DescribeAutoScalingGroupsPages := fun _ _ => ([], none)
  DescribeLaunchConfigurationsPages := fun _ _ => ([], none)
  DescribeSubnets := fun _ _ => .ok []
  DescribeSecurityGroups := fun _ _ => .ok []
  DescribeInternetGateways := fun _ _ => .ok []
  DescribeRouteTables := fun _ _ => .ok []
  DescribeVpcs := fun _ _ _ => .ok []
  DescribeDhcpOptions := fun _ _ => .ok []
  DescribeVolumesPages := fun _ _ => ([], none)
  GetObjectError := fun _ => none
  Decode := fun _ => .ok []
  MarshalIndent := fun _ => .ok ""

/-- Two groups that reference each other: `sg-1` admits traffic from `sg-2` on
port 22, `sg-2` admits traffic from `sg-1` on port 443. -/
def mutualGroups : List SecurityGroup :=
  [ ⟨"web", "sg-1", [⟨"tcp/22", [⟨"42", "sg-2"⟩]⟩], []⟩,
    ⟨"db", "sg-2", [⟨"tcp/443", [⟨"42", "sg-1"⟩]⟩], []⟩ ]

/-- The environment of the mutual-reference example: the clock reads 100 and
the security-group listing answers `mutualGroups`. -/
def mutualEnv : Env :=
  { Env.idle 100 with DescribeSecurityGroups := fun _ _ => .ok mutualGroups }

/-- The ledger of the mutual-reference example: `sg-1` was first seen at 0,
`sg-2` never, and the TTL is 24, so that at 100 only `sg-1` is due. -/
def mutualLedger : awsResourceSet :=
  ⟨[("arn:aws:ec2:us-west-2:42:security-group/sg-1", 0)], [], 24⟩

/-- A listing with the protected group `default` and one other group. -/
def defaultGroups : List SecurityGroup :=
  [ ⟨"default", "sg-0", [], []⟩, ⟨"web", "sg-1", [], []⟩ ]

/-- The environment of the protected-group example. -/
def defaultEnv : Env :=
  { Env.idle 100 with DescribeSecurityGroups := fun _ _ => .ok defaultGroups }

/-- An environment in which the listing of subnets fails in `us-west-2` and
everything else is idle. -/
def failingEnv : Env :=
  { Env.idle 100 with
    DescribeSubnets := fun _ region =>
      if region = "us-west-2" then .error "RequestLimitExceeded" else .ok [] }

/-- The environment of the mutual-reference example in which every revoke and
every delete is refused. -/
def refusingEnv : Env :=
  { mutualEnv with respond := fun _ _ => some "DependencyViolation" }

/-- A ledger with two subnets, of which only `subnet-1` was marked this run:
`subnet-1` was first seen on 2016-10-21 at 12:00:00.123456 UTC, `subnet-2` on
2016-10-09 at 08:00:00 UTC, and the TTL is 24 hours. -/
def savedLedger : awsResourceSet :=
  ⟨[ ("arn:aws:ec2:us-west-2:42:subnet/subnet-1", 1477051200123456000),
     ("arn:aws:ec2:us-west-2:42:subnet/subnet-2", 1476000000000000000) ],
   [("arn:aws:ec2:us-west-2:42:subnet/subnet-1", true)], 86400000000000⟩

/-- An idle environment with the JSON encoder and decoder of the Go library,
in a process that shows its timestamps seven hours west of UTC. -/
def savedEnv : Env :=
  (Env.idle 200).withJSON (fun _ => ⟨-420, by decide⟩)

/-! ## Lemmas on Go maps -/

theorem GoMap.get_filter_ne {V : Type} (m : GoMap V) (k k' : String) :
    GoMap.get (m.filter (fun e => decide (e.1 ≠ k))) k' = if k' = k then none else GoMap.get m k' := by
  induction m with
  | nil => simp [GoMap.get]
  | cons e m ih =>
    obtain ⟨a, v⟩ := e
    by_cases ha : a = k
    · subst ha
      by_cases hk : k' = a
      · subst hk
        simpa [List.filter_cons] using ih
      · have hk2 : ¬ a = k' := fun h => hk h.symm
        simp only [List.filter_cons, ne_eq, not_true_eq_false, decide_False, Bool.false_eq_true,
          if_false, GoMap.get, hk2, hk] at ih ⊢
        exact ih
    · by_cases hk : k' = k
      · subst hk
        have : ¬ a = k' := ha
        simpa [List.filter_cons, ha, GoMap.get, this] using ih
      · by_cases hak : a = k'
        · subst hak
          simp [List.filter_cons, ha, GoMap.get]
        · simpa [List.filter_cons, ha, GoMap.get, hak, hk] using ih

theorem GoMap.get_set {V : Type} (m : GoMap V) (k k' : String) (v : V) :
    GoMap.get (m.set k v) k' = if k' = k then some v else GoMap.get m k' := by
  unfold GoMap.set
  by_cases hk : k' = k
  · subst hk
    simp [GoMap.get]
  · have hk2 : ¬ k = k' := fun h => hk h.symm
    simp only [GoMap.get, hk2, if_false, hk]
    rw [GoMap.get_filter_ne]
    simp [hk]

theorem GoMap.get_delete {V : Type} (m : GoMap V) (k k' : String) :
    GoMap.get (m.delete k) k' = if k' = k then none else GoMap.get m k' :=
  GoMap.get_filter_ne m k k'

theorem GoMap.set_set {V : Type} (m : GoMap V) (k : String) (v v' : V) :
    (m.set k v).set k v' = m.set k v' := by
  simp [GoMap.set, List.filter_cons, List.filter_filter]

theorem GoMap.get_eq_none_of_not_mem_keys {V : Type} (m : GoMap V) (k : String)
    (h : k ∉ m.keys) : GoMap.get m k = none := by
  induction m with
  | nil => rfl
  | cons e m ih =>
    obtain ⟨a, v⟩ := e
    simp only [GoMap.keys, List.map_cons, List.mem_cons, not_or] at h
    have ha : ¬ a = k := fun h' => h.1 h'.symm
    simp only [GoMap.get, ha, if_false]
    exact ih h.2

theorem GoMap.get_foldl_delete {V : Type} (ks : List String) (m : GoMap V) (k : String) :
    GoMap.get (ks.foldl (fun m arn => GoMap.delete m arn) m) k
      = if k ∈ ks then none else GoMap.get m k := by
  induction ks generalizing m with
  | nil => simp
  | cons a ks ih =>
    rw [List.foldl_cons, ih, GoMap.get_delete]
    by_cases h1 : k ∈ ks
    · simp [h1]
    · by_cases h2 : k = a
      · simp [h2]
      · simp [h1, h2]

/-! ## Lemmas on time -/

theorem Time.Sub_mono (t1 t2 u : Time) (h : t1 ≤ t2) : Time.Sub t1 u ≤ Time.Sub t2 u := by
  have h63 : (2 : Int) ^ 63 = 9223372036854775808 := by norm_num
  unfold Time.Sub maxDuration minDuration
  rw [h63]
  split_ifs <;> linarith

theorem Time.Sub_exact (t u : Time) (h1 : minDuration ≤ t - u) (h2 : t - u ≤ maxDuration) :
    Time.Sub t u = t - u := by
  have h63 : (2 : Int) ^ 63 = 9223372036854775808 := by norm_num
  unfold Time.Sub
  unfold maxDuration minDuration at *
  rw [h63] at *
  split_ifs <;> linarith

theorem Time.Sub_self (t : Time) : Time.Sub t t = 0 := by
  have h63 : (2 : Int) ^ 63 = 9223372036854775808 := by norm_num
  unfold Time.Sub maxDuration minDuration
  rw [h63]
  split_ifs <;> linarith

theorem Time.Sub_pos_iff (t u : Time) : Time.Sub t u > 0 ↔ u < t := by
  have h63 : (2 : Int) ^ 63 = 9223372036854775808 := by norm_num
  unfold Time.Sub maxDuration minDuration
  rw [h63]
  split_ifs <;> constructor <;> intro _ <;> linarith

/-! ## Lemmas on the ledger -/

theorem Mark_seen {R : Type} [awsResource R] (s : awsResourceSet) (r : R) (t0 now : Time)
    (h : s.firstSeen.get (awsResource.ARN r) = some t0) :
    s.Mark r now = (⟨s.firstSeen, s.marked.set (awsResource.ARN r) true, s.ttl⟩,
      decide (Time.Sub now t0 > s.ttl)) := by
  unfold awsResourceSet.Mark
  simp only [h]
  by_cases hc : Time.Sub now t0 > s.ttl <;> simp [hc]

theorem Mark_unseen {R : Type} [awsResource R] (s : awsResourceSet) (r : R) (now : Time)
    (h : s.firstSeen.get (awsResource.ARN r) = none) :
    s.Mark r now = (⟨s.firstSeen.set (awsResource.ARN r) now,
      s.marked.set (awsResource.ARN r) true, s.ttl⟩, decide (s.ttl = 0)) := by
  unfold awsResourceSet.Mark
  simp only [h]

/-! ## Claims on `Mark` and `markComplete` -/

/-- C1: for an identity already in `firstSeen` with timestamp `t0`, `Mark` at
`t1` returns true exactly when the age `t1 - t0` is strictly greater than the
TTL, and an age of exactly the TTL returns false.  The age is the duration
`now.Sub(t0)` that `Mark` computes; it is the exact difference whenever that
difference is a representable duration. -/
theorem C1_mark_seen_true_iff_age_gt_ttl {R : Type} [awsResource R] (s : awsResourceSet)
    (r : R) (t0 t1 : Time) (h : s.firstSeen.get (awsResource.ARN r) = some t0) :
    ((s.Mark r t1).2 = true ↔ Time.Sub t1 t0 > s.ttl) ∧
    (minDuration ≤ t1 - t0 → t1 - t0 ≤ maxDuration →
      ((s.Mark r t1).2 = true ↔ t1 - t0 > s.ttl)) ∧
    (Time.Sub t1 t0 = s.ttl → (s.Mark r t1).2 = false) := by
  rw [Mark_seen s r t0 t1 h]
  refine ⟨by simp, ?_, ?_⟩
  · intro h1 h2
    rw [Time.Sub_exact t1 t0 h1 h2]
    simp
  · intro h1
    simp [h1]

/-- Witness of C1: a subnet first seen at 100 and marked at 125 under a TTL of
24. -/
theorem C1_mark_seen_true_iff_age_gt_ttl_witness :
    (GoMap.get [("arn:aws:ec2:us-west-2:42:subnet/subnet-1", (100 : Time))]
        (awsResource.ARN (⟨"42", "us-west-2", "subnet-1"⟩ : subnet)) = some 100) ∧
    (((awsResourceSet.Mark ⟨[("arn:aws:ec2:us-west-2:42:subnet/subnet-1", 100)], [], 24⟩
        (⟨"42", "us-west-2", "subnet-1"⟩ : subnet) 125).2 = true ↔
      Time.Sub 125 100 > 24) ∧
    (minDuration ≤ (125 : Time) - 100 → (125 : Time) - 100 ≤ maxDuration →
      ((awsResourceSet.Mark ⟨[("arn:aws:ec2:us-west-2:42:subnet/subnet-1", 100)], [], 24⟩
        (⟨"42", "us-west-2", "subnet-1"⟩ : subnet) 125).2 = true ↔ (125 : Time) - 100 > 24)) ∧
    (Time.Sub 125 100 = 24 →
      (awsResourceSet.Mark ⟨[("arn:aws:ec2:us-west-2:42:subnet/subnet-1", 100)], [], 24⟩
        (⟨"42", "us-west-2", "subnet-1"⟩ : subnet) 125).2 = false)) :=
  ⟨by decide,
    C1_mark_seen_true_iff_age_gt_ttl
      ⟨[("arn:aws:ec2:us-west-2:42:subnet/subnet-1", 100)], [], 24⟩
      (⟨"42", "us-west-2", "subnet-1"⟩ : subnet) 100 125 (by decide)⟩

/-- C2: the code breaks the claim.  Under a TTL of 0, a subnet already in
`firstSeen` is not returned as deletable when its recorded timestamp is the
current instant or a later one, although the same subnet seen for the first
time at that instant is. -/
theorem C2_ttl_zero_seen_not_deleted :
    (⟨[("arn:aws:ec2:us-west-2:42:subnet/subnet-1", 100)], [], 0⟩ : awsResourceSet).ttl = 0 ∧
    (awsResourceSet.Mark ⟨[("arn:aws:ec2:us-west-2:42:subnet/subnet-1", 100)], [], 0⟩
      (⟨"42", "us-west-2", "subnet-1"⟩ : subnet) 100).2 = false ∧
    (awsResourceSet.Mark ⟨[("arn:aws:ec2:us-west-2:42:subnet/subnet-1", 100)], [], 0⟩
      (⟨"42", "us-west-2", "subnet-1"⟩ : subnet) 90).2 = false ∧
    (awsResourceSet.Mark ⟨[], [], 0⟩ (⟨"42", "us-west-2", "subnet-1"⟩ : subnet) 100).2 = true := by
  decide

/-- Under a TTL of 0, `Mark` returns true exactly when the identity is absent
from `firstSeen` or its recorded timestamp is strictly earlier than the
current time. -/
theorem Mark_ttl_zero_true_iff {R : Type} [awsResource R] (s : awsResourceSet) (r : R)
    (now : Time) (h : s.ttl = 0) :
    (s.Mark r now).2 = true ↔
      (s.firstSeen.get (awsResource.ARN r) = none ∨
        ∃ t0, s.firstSeen.get (awsResource.ARN r) = some t0 ∧ t0 < now) := by
  cases hg : s.firstSeen.get (awsResource.ARN r) with
  | none => rw [Mark_unseen s r now hg]; simp [h]
  | some t0 =>
    rw [Mark_seen s r t0 now hg]
    simp only [h, decide_eq_true_eq, false_or, Option.some.injEq, exists_eq_left', reduceCtorEq]
    exact Time.Sub_pos_iff now t0

/-- C3: for an identity absent from `firstSeen`, `Mark` at `now` records `now`
as its first sighting, records it in the marked set, and returns true exactly
when the TTL is 0, so false when the TTL is positive; no other entry of
`firstSeen` changes. -/
theorem C3_mark_unseen {R : Type} [awsResource R] (s : awsResourceSet) (r : R) (now : Time)
    (h : s.firstSeen.get (awsResource.ARN r) = none) :
    (s.Mark r now).1.firstSeen.get (awsResource.ARN r) = some now ∧
    (s.Mark r now).1.isMarked (awsResource.ARN r) = true ∧
    ((s.Mark r now).2 = true ↔ s.ttl = 0) ∧
    (0 < s.ttl → (s.Mark r now).2 = false) ∧
    (∀ k, k ≠ awsResource.ARN r → (s.Mark r now).1.firstSeen.get k = s.firstSeen.get k) := by
  rw [Mark_unseen s r now h]
  refine ⟨by simp [GoMap.get_set], by simp [awsResourceSet.isMarked, GoMap.get_set],
    by simp, ?_, ?_⟩
  · intro hpos
    have : s.ttl ≠ 0 := ne_of_gt hpos
    simp [this]
  · intro k hk
    simp [GoMap.get_set, hk]

/-- Witness of C3: a subnet marked for the first time at 100 on an empty
ledger with TTL 24. -/
theorem C3_mark_unseen_witness :
    (GoMap.get ([] : GoMap Time)
        (awsResource.ARN (⟨"42", "us-west-2", "subnet-1"⟩ : subnet)) = none) ∧
    ((awsResourceSet.Mark ⟨[], [], 24⟩ (⟨"42", "us-west-2", "subnet-1"⟩ : subnet) 100).1.firstSeen.get
        (awsResource.ARN (⟨"42", "us-west-2", "subnet-1"⟩ : subnet)) = some 100 ∧
    (awsResourceSet.Mark ⟨[], [], 24⟩ (⟨"42", "us-west-2", "subnet-1"⟩ : subnet) 100).1.isMarked
        (awsResource.ARN (⟨"42", "us-west-2", "subnet-1"⟩ : subnet)) = true ∧
    ((awsResourceSet.Mark ⟨[], [], 24⟩ (⟨"42", "us-west-2", "subnet-1"⟩ : subnet) 100).2 = true ↔
      (⟨[], [], 24⟩ : awsResourceSet).ttl = 0) ∧
    (0 < (⟨[], [], 24⟩ : awsResourceSet).ttl →
      (awsResourceSet.Mark ⟨[], [], 24⟩ (⟨"42", "us-west-2", "subnet-1"⟩ : subnet) 100).2
        = false) ∧
    (∀ k, k ≠ awsResource.ARN (⟨"42", "us-west-2", "subnet-1"⟩ : subnet) →
      (awsResourceSet.Mark ⟨[], [], 24⟩
        (⟨"42", "us-west-2", "subnet-1"⟩ : subnet) 100).1.firstSeen.get k
        = GoMap.get ([] : GoMap Time) k)) :=
  ⟨rfl, C3_mark_unseen ⟨[], [], 24⟩ (⟨"42", "us-west-2", "subnet-1"⟩ : subnet) 100 rfl⟩

/-- C4, counterexample: a subnet first seen at 0 under a TTL of 10 is marked
at 10 and again at 11; the first call returns false and the second true. -/
theorem C4_counterexample :
    (10 : Time) ≤ 11 ∧
    (awsResourceSet.Mark ⟨[("arn:aws:ec2:us-west-2:42:subnet/subnet-1", 0)], [], 10⟩
      (⟨"42", "us-west-2", "subnet-1"⟩ : subnet) 10).2 = false ∧
    (awsResourceSet.Mark
      (awsResourceSet.Mark ⟨[("arn:aws:ec2:us-west-2:42:subnet/subnet-1", 0)], [], 10⟩
        (⟨"42", "us-west-2", "subnet-1"⟩ : subnet) 10).1
      (⟨"42", "us-west-2", "subnet-1"⟩ : subnet) 11).2 = true := by
  decide

/-- C4, amended: marking the same identity at `t1` and again at `t2`, with
`t1 ≤ t2`, leaves the whole ledger, `firstSeen[x]` included, as it was after
the first call, and the second call returns true exactly when the age at
`t2` of that first sighting exceeds the TTL.  The second call returns the same
boolean as the first when the identity was already in `firstSeen` and the
first call returned true or the two calls read the same instant, and when the
identity was first seen by the first call, the TTL is positive and
`t2 - t1` does not exceed it. -/
theorem C4_mark_twice {R : Type} [awsResource R] (s : awsResourceSet) (r : R) (t1 t2 : Time)
    (h : t1 ≤ t2) :
    ((s.Mark r t1).1.Mark r t2).1 = (s.Mark r t1).1 ∧
    (∃ f, (s.Mark r t1).1.firstSeen.get (awsResource.ARN r) = some f ∧
      ((s.Mark r t1).1.Mark r t2).1.firstSeen.get (awsResource.ARN r) = some f ∧
      (((s.Mark r t1).1.Mark r t2).2 = true ↔ Time.Sub t2 f > s.ttl)) ∧
    (s.firstSeen.get (awsResource.ARN r) ≠ none → (s.Mark r t1).2 = true →
      ((s.Mark r t1).1.Mark r t2).2 = true) ∧
    (s.firstSeen.get (awsResource.ARN r) ≠ none → t1 = t2 →
      ((s.Mark r t1).1.Mark r t2).2 = (s.Mark r t1).2) ∧
    (s.firstSeen.get (awsResource.ARN r) = none → 0 < s.ttl → Time.Sub t2 t1 ≤ s.ttl →
      ((s.Mark r t1).1.Mark r t2).2 = (s.Mark r t1).2) := by
  cases hg : s.firstSeen.get (awsResource.ARN r) with
  | some t0 =>
    rw [Mark_seen s r t0 t1 hg]
    rw [Mark_seen ⟨s.firstSeen, s.marked.set (awsResource.ARN r) true, s.ttl⟩ r t0 t2 hg]
    refine ⟨by simp [GoMap.set_set], ⟨t0, hg, hg, by simp⟩, ?_, ?_, by simp⟩
    · intro _ h1
      simp only [decide_eq_true_eq] at h1 ⊢
      exact lt_of_lt_of_le h1 (Time.Sub_mono t1 t2 t0 h)
    · intro _ h12
      subst h12
      rfl
  | none =>
    rw [Mark_unseen s r t1 hg]
    have hg1 : GoMap.get (s.firstSeen.set (awsResource.ARN r) t1) (awsResource.ARN r)
        = some t1 := by
      simp [GoMap.get_set]
    rw [Mark_seen ⟨s.firstSeen.set (awsResource.ARN r) t1,
      s.marked.set (awsResource.ARN r) true, s.ttl⟩ r t1 t2 hg1]
    refine ⟨by simp [GoMap.set_set], ⟨t1, hg1, hg1, by simp⟩, by simp, by simp, ?_⟩
    intro _ hpos hle
    have h0 : s.ttl ≠ 0 := ne_of_gt hpos
    have h1 : ¬ Time.Sub t2 t1 > s.ttl := not_lt.mpr hle
    simp [h0, h1]

/-- Witness of C4 as amended: an empty ledger with TTL 24 and a subnet marked
at 100 and at 110. -/
theorem C4_mark_twice_witness :
    (100 : Time) ≤ 110 ∧
    ((awsResourceSet.Mark (awsResourceSet.Mark ⟨[], [], 24⟩
        (⟨"42", "us-west-2", "subnet-1"⟩ : subnet) 100).1
        (⟨"42", "us-west-2", "subnet-1"⟩ : subnet) 110).1
      = (awsResourceSet.Mark ⟨[], [], 24⟩ (⟨"42", "us-west-2", "subnet-1"⟩ : subnet) 100).1) ∧
    ((awsResourceSet.Mark (awsResourceSet.Mark ⟨[], [], 24⟩
        (⟨"42", "us-west-2", "subnet-1"⟩ : subnet) 100).1
        (⟨"42", "us-west-2", "subnet-1"⟩ : subnet) 110).2
      = (awsResourceSet.Mark ⟨[], [], 24⟩ (⟨"42", "us-west-2", "subnet-1"⟩ : subnet) 100).2) :=
  ⟨by decide,
    (C4_mark_twice ⟨[], [], 24⟩ (⟨"42", "us-west-2", "subnet-1"⟩ : subnet) 100 110
      (by decide)).1,
    (C4_mark_twice ⟨[], [], 24⟩ (⟨"42", "us-west-2", "subnet-1"⟩ : subnet) 100 110
      (by decide)).2.2.2.2 rfl (by decide) (by decide)⟩

/-- C5: after `markComplete`, `firstSeen` holds exactly the entries it held
before whose identity is marked, each with its timestamp unchanged: an
unmarked identity is absent, a marked one reads as before, nothing is added,
and the marked set and the TTL are untouched. -/
theorem C5_markComplete_keeps_exactly_marked (s : awsResourceSet) :
    (∀ arn, s.markComplete.firstSeen.get arn
      = if s.isMarked arn = true then s.firstSeen.get arn else none) ∧
    (∀ arn t, s.markComplete.firstSeen.get arn = some t → s.firstSeen.get arn = some t) ∧
    s.markComplete.marked = s.marked ∧ s.markComplete.ttl = s.ttl := by
  have key : ∀ arn, s.markComplete.firstSeen.get arn
      = if s.isMarked arn = true then s.firstSeen.get arn else none := by
    intro arn
    unfold awsResourceSet.markComplete
    simp only
    rw [GoMap.get_foldl_delete]
    by_cases hm : s.isMarked arn = true
    · have : arn ∉ s.gone := by
        simp [awsResourceSet.gone, hm]
      simp [this, hm]
    · simp only [hm, if_false]
      by_cases hk : arn ∈ s.firstSeen.keys
      · have : arn ∈ s.gone := by
          simp only [awsResourceSet.gone, List.mem_filter]
          exact ⟨hk, by simpa using hm⟩
        simp [this]
      · have : arn ∉ s.gone := by
          simp only [awsResourceSet.gone, List.mem_filter]
          exact fun h => hk h.1
        simp only [this, if_false]
        exact GoMap.get_eq_none_of_not_mem_keys _ _ hk
  refine ⟨key, ?_, rfl, rfl⟩
  intro arn t ht
  rw [key arn] at ht
  by_cases hm : s.isMarked arn = true
  · simpa [hm] using ht
  · simp [hm] at ht

/-! ## The reference index -/

theorem addRefs.eachPair_get (id acct : String) (perm : IpPermission)
    (pairs : List UserIdGroupPair) (refs : GoMap (List sgRef)) (k : String) :
    ((addRefs.eachPair id acct perm pairs refs).get k).getD []
      = (refs.get k).getD [] ++
        (pairs.filter (fun pair =>
          decide (pair.UserId = acct ∧ pair.GroupId ≠ id ∧ pair.GroupId = k))).map
          (fun _ => (⟨id, perm⟩ : sgRef)) := by
  induction pairs generalizing refs with
  | nil => simp [addRefs.eachPair]
  | cons pair rest ih =>
    unfold addRefs.eachPair
    by_cases hq : pair.UserId = acct ∧ pair.GroupId ≠ id
    · rw [if_pos hq, ih, GoMap.get_set]
      by_cases hk : k = pair.GroupId
      · subst hk
        simp [List.filter_cons, hq.1, hq.2]
      · have hk2 : ¬ pair.GroupId = k := fun h => hk h.symm
        simp [List.filter_cons, hk, hk2]
    · rw [if_neg hq, ih]
      have : ¬ (pair.UserId = acct ∧ pair.GroupId ≠ id ∧ pair.GroupId = k) :=
        fun h => hq ⟨h.1, h.2.1⟩
      simp [List.filter_cons, this]

theorem addRefs_get (refs : GoMap (List sgRef)) (id acct : String) (perms : List IpPermission)
    (k : String) :
    ((addRefs refs id acct perms).get k).getD []
      = (refs.get k).getD [] ++
        perms.flatMap (fun perm =>
          (perm.UserIdGroupPairs.filter (fun pair =>
            decide (pair.UserId = acct ∧ pair.GroupId ≠ id ∧ pair.GroupId = k))).map
            (fun _ => (⟨id, perm⟩ : sgRef))) := by
  induction perms generalizing refs with
  | nil => simp [addRefs]
  | cons perm rest ih =>
    unfold addRefs
    rw [ih, addRefs.eachPair_get]
    simp [List.append_assoc]

/-- C9: the entries `addRefs` appends under a group id `k` are exactly one edge
`(id, perm)` for every pair of every permission whose user id is the sweeping
account and whose group id is `k` and differs from `id`, in order.  So nothing
is appended under the referencing group own id, every appended edge comes
from a same-account pair that is not a self-reference, and every such pair
has its edge under the group it references, carrying its permission. -/
theorem C9_addRefs_edges (refs : GoMap (List sgRef)) (id acct : String)
    (perms : List IpPermission) :
    (∀ k, ((addRefs refs id acct perms).get k).getD []
      = (refs.get k).getD [] ++
        perms.flatMap (fun perm =>
          (perm.UserIdGroupPairs.filter (fun pair =>
            decide (pair.UserId = acct ∧ pair.GroupId ≠ id ∧ pair.GroupId = k))).map
            (fun _ => (⟨id, perm⟩ : sgRef)))) ∧
    ((addRefs refs id acct perms).get id).getD [] = (refs.get id).getD [] ∧
    (∀ k, ∃ added, ((addRefs refs id acct perms).get k).getD [] = (refs.get k).getD [] ++ added ∧
      ∀ ref ∈ added, ref.id = id ∧ k ≠ id ∧ ref.perm ∈ perms ∧
        ∃ pair ∈ ref.perm.UserIdGroupPairs, pair.UserId = acct ∧ pair.GroupId = k) ∧
    (∀ perm ∈ perms, ∀ pair ∈ perm.UserIdGroupPairs, pair.UserId = acct → pair.GroupId ≠ id →
      (⟨id, perm⟩ : sgRef) ∈ ((addRefs refs id acct perms).get pair.GroupId).getD []) := by
  refine ⟨fun k => addRefs_get refs id acct perms k, ?_, ?_, ?_⟩
  · rw [addRefs_get]
    simp
  · intro k
    refine ⟨_, addRefs_get refs id acct perms k, ?_⟩
    intro ref href
    simp only [List.mem_flatMap, List.mem_map, List.mem_filter, decide_eq_true_eq] at href
    obtain ⟨perm, hperm, pair, ⟨hpair, hu, hne, hk⟩, rfl⟩ := href
    exact ⟨rfl, fun h => hne (hk.trans h), hperm, pair, hpair, hu, hk⟩
  · intro perm hperm pair hpair hu hne
    rw [addRefs_get]
    apply List.mem_append_right
    simp only [List.mem_flatMap, List.mem_map, List.mem_filter, decide_eq_true_eq]
    exact ⟨perm, hperm, pair, ⟨hpair, hu, hne, rfl⟩, rfl⟩

/-! ## Lemmas on traces -/

theorem calls_append (t1 t2 : List Event) : calls (t1 ++ t2) = calls t1 ++ calls t2 := by
  simp [calls, List.filterMap_append]

theorem calls_emit_call (w : World) (c : ApiCall) :
    calls (w.emit (.call c)).trace = calls w.trace ++ [c] := by
  simp [World.emit, calls, List.filterMap_append]

theorem calls_emit_warning (w : World) (text : String) :
    calls (w.emit (.warning text)).trace = calls w.trace := by
  simp [World.emit, calls, List.filterMap_append]

theorem calls_emit_info (w : World) (text : String) :
    calls (w.emit (.info text)).trace = calls w.trace := by
  simp [World.emit, calls, List.filterMap_append]

theorem calls_attempt (env : Env) (w : World) (c : ApiCall) (onFail : String → String) :
    calls (w.attempt env c onFail).trace = calls w.trace ++ [c] := by
  unfold World.attempt
  cases env.respond w.trace c with
  | none => exact calls_emit_call w c
  | some err => rw [calls_emit_warning, calls_emit_call]

/-! ## Lemmas on marking inside a sweeper -/

theorem Mark_firstSeen_frame {R : Type} [awsResource R] (s : awsResourceSet) (r : R)
    (now : Time) (k : String) (hk : k ≠ awsResource.ARN r) :
    (s.Mark r now).1.firstSeen.get k = s.firstSeen.get k := by
  cases hg : s.firstSeen.get (awsResource.ARN r) with
  | some t0 => rw [Mark_seen s r t0 now hg]
  | none => rw [Mark_unseen s r now hg]; simp [GoMap.get_set, hk]

theorem Mark_marked_frame {R : Type} [awsResource R] (s : awsResourceSet) (r : R)
    (now : Time) (k : String) (hk : k ≠ awsResource.ARN r) :
    (s.Mark r now).1.marked.get k = s.marked.get k := by
  cases hg : s.firstSeen.get (awsResource.ARN r) with
  | some t0 => rw [Mark_seen s r t0 now hg]; simp [GoMap.get_set, hk]
  | none => rw [Mark_unseen s r now hg]; simp [GoMap.get_set, hk]

theorem Mark_isMarked {R : Type} [awsResource R] (s : awsResourceSet) (r : R) (now : Time) :
    (s.Mark r now).1.isMarked (awsResource.ARN r) = true := by
  cases hg : s.firstSeen.get (awsResource.ARN r) with
  | some t0 => rw [Mark_seen s r t0 now hg]; simp [awsResourceSet.isMarked, GoMap.get_set]
  | none => rw [Mark_unseen s r now hg]; simp [awsResourceSet.isMarked, GoMap.get_set]

theorem Mark_isMarked_mono {R : Type} [awsResource R] (s : awsResourceSet) (r : R) (now : Time)
    (k : String) (hk : s.isMarked k = true) : (s.Mark r now).1.isMarked k = true := by
  by_cases h : k = awsResource.ARN r
  · subst h; exact Mark_isMarked s r now
  · unfold awsResourceSet.isMarked at hk ⊢
    rw [Mark_marked_frame s r now k h]; exact hk

theorem String.append_left_cancel (a b c : String) (h : a ++ b = a ++ c) : b = c := by
  have h1 : (a ++ b).data = (a ++ c).data := by rw [h]
  rw [String.data_append, String.data_append] at h1
  exact String.ext (List.append_cancel_left h1)

theorem ec2ARN_injective_id (kind region acct id1 id2 : String)
    (h : ec2ARN kind region acct id1 = ec2ARN kind region acct id2) : id1 = id2 := by
  unfold ec2ARN at h
  exact String.append_left_cancel _ _ _ h

/-! ## Lemmas on the security-group sweep -/

theorem securityGroups.revokeIngress_calls (env : Env) (region : String) (sg : securityGroup)
    (refs : List sgRef) (w : World) :
    calls (securityGroups.revokeIngress env region sg refs w).trace
      = calls w.trace ++
        refs.map (fun ref => ApiCall.RevokeSecurityGroupIngress region ref.id ref.perm) := by
  induction refs generalizing w with
  | nil => simp [securityGroups.revokeIngress]
  | cons ref rest ih =>
    unfold securityGroups.revokeIngress
    rw [ih, calls_attempt, calls_emit_info]
    simp

theorem securityGroups.revokeEgress_calls (env : Env) (region : String) (sg : securityGroup)
    (refs : List sgRef) (w : World) :
    calls (securityGroups.revokeEgress env region sg refs w).trace
      = calls w.trace ++
        refs.map (fun ref => ApiCall.RevokeSecurityGroupEgress region ref.id ref.perm) := by
  induction refs generalizing w with
  | nil => simp [securityGroups.revokeEgress]
  | cons ref rest ih =>
    unfold securityGroups.revokeEgress
    rw [ih, calls_attempt]
    simp

theorem securityGroups.deleteEach_calls (env : Env) (region : String)
    (ingress egress : GoMap (List sgRef)) (batch : List securityGroup) (w : World) :
    calls (securityGroups.deleteEach env region ingress egress batch w).trace
      = calls w.trace ++
        batch.flatMap (fun sg =>
          requestsFor region ((ingress.get sg.ID).getD []) ((egress.get sg.ID).getD []) sg) := by
  induction batch generalizing w with
  | nil => simp [securityGroups.deleteEach]
  | cons sg rest ih =>
    unfold securityGroups.deleteEach
    simp only
    rw [ih, calls_attempt, securityGroups.revokeEgress_calls, securityGroups.revokeIngress_calls]
    simp [requestsFor, List.append_assoc]

theorem securityGroups.eachGroup_calls (env : Env) (acct region : String)
    (groups : List SecurityGroup) (st : sgScan) :
    calls (securityGroups.eachGroup env acct region groups st).w.trace = calls st.w.trace := by
  induction groups generalizing st with
  | nil => rfl
  | cons sg rest ih =>
    unfold securityGroups.eachGroup
    by_cases hd : sg.GroupName = "default"
    · rw [if_pos hd]; exact ih st
    · rw [if_neg hd]
      simp only [markNow]
      split
      · rename_i heq
        simp only [Prod.mk.injEq] at heq
        rw [ih]
        simp only
        rw [calls_emit_warning, ← heq.2.2]
      · rename_i heq
        simp only [Prod.mk.injEq] at heq
        rw [ih]
        simp only
        rw [← heq.2.2]

theorem securityGroups.eachGroup_ingress (env : Env) (acct region : String)
    (groups : List SecurityGroup) (st : sgScan) (k : String) :
    ((securityGroups.eachGroup env acct region groups st).ingress.get k).getD []
      = (st.ingress.get k).getD [] ++ ingressAt acct groups k := by
  induction groups generalizing st with
  | nil => simp [securityGroups.eachGroup, ingressAt]
  | cons sg rest ih =>
    unfold securityGroups.eachGroup
    by_cases hd : sg.GroupName = "default"
    · rw [if_pos hd, ih]
      simp [ingressAt, List.filter_cons, hd]
    · rw [if_neg hd]
      simp only [markNow]
      split <;>
      · rw [ih]
        simp only
        rw [addRefs_get]
        simp [ingressAt, List.filter_cons, hd, edgesAt, List.append_assoc]

theorem securityGroups.eachGroup_egress (env : Env) (acct region : String)
    (groups : List SecurityGroup) (st : sgScan) (k : String) :
    ((securityGroups.eachGroup env acct region groups st).egress.get k).getD []
      = (st.egress.get k).getD [] ++ egressAt acct groups k := by
  induction groups generalizing st with
  | nil => simp [securityGroups.eachGroup, egressAt]
  | cons sg rest ih =>
    unfold securityGroups.eachGroup
    by_cases hd : sg.GroupName = "default"
    · rw [if_pos hd, ih]
      simp [egressAt, List.filter_cons, hd]
    · rw [if_neg hd]
      simp only [markNow]
      split <;>
      · rw [ih]
        simp only
        rw [addRefs_get]
        simp [egressAt, List.filter_cons, hd, edgesAt, List.append_assoc]

theorem securityGroups.eachGroup_toDelete (env : Env) (acct region : String)
    (groups : List SecurityGroup) (st : sgScan) (s : securityGroup)
    (hs : s ∈ (securityGroups.eachGroup env acct region groups st).toDelete) :
    s ∈ st.toDelete ∨
      ∃ g ∈ groups, g.GroupName ≠ "default" ∧ s = ⟨acct, region, g.GroupId⟩ := by
  induction groups generalizing st with
  | nil => exact Or.inl hs
  | cons sg rest ih =>
    unfold securityGroups.eachGroup at hs
    by_cases hd : sg.GroupName = "default"
    · rw [if_pos hd] at hs
      rcases ih st hs with h | ⟨g, hg, hn, he⟩
      · exact Or.inl h
      · exact Or.inr ⟨g, List.mem_cons_of_mem _ hg, hn, he⟩
    · rw [if_neg hd] at hs
      simp only [markNow] at hs
      split at hs
      · rcases ih _ hs with h | ⟨g, hg, hn, he⟩
        · simp only [List.mem_append, List.mem_singleton] at h
          rcases h with h | h
          · exact Or.inl h
          · exact Or.inr ⟨sg, List.mem_cons_self _ _, hd, h⟩
        · exact Or.inr ⟨g, List.mem_cons_of_mem _ hg, hn, he⟩
      · rcases ih _ hs with h | ⟨g, hg, hn, he⟩
        · exact Or.inl h
        · exact Or.inr ⟨g, List.mem_cons_of_mem _ hg, hn, he⟩

theorem securityGroups.eachGroup_filter (env : Env) (acct region : String)
    (groups : List SecurityGroup) (st : sgScan) :
    securityGroups.eachGroup env acct region groups st
      = securityGroups.eachGroup env acct region
          (groups.filter (fun g => decide (g.GroupName ≠ "default"))) st := by
  induction groups generalizing st with
  | nil => rfl
  | cons sg rest ih =>
    by_cases hd : sg.GroupName = "default"
    · rw [List.filter_cons]
      simp only [hd, ne_eq, not_true_eq_false, decide_False, Bool.false_eq_true, if_false]
      rw [securityGroups.eachGroup, if_pos hd]
      exact ih st
    · rw [List.filter_cons]
      simp only [hd, ne_eq, not_false_eq_true, decide_True, if_true]
      rw [securityGroups.eachGroup, securityGroups.eachGroup, if_neg hd, if_neg hd]
      simp only [markNow]
      split <;> exact ih _

theorem securityGroups.eachGroup_ledger_frame (env : Env) (acct region : String)
    (groups : List SecurityGroup) (st : sgScan) (arn : String)
    (h : ∀ g ∈ groups, g.GroupName ≠ "default" →
      arn ≠ securityGroup.ARN ⟨acct, region, g.GroupId⟩) :
    (securityGroups.eachGroup env acct region groups st).set.firstSeen.get arn
        = st.set.firstSeen.get arn ∧
      (securityGroups.eachGroup env acct region groups st).set.marked.get arn
        = st.set.marked.get arn := by
  induction groups generalizing st with
  | nil => exact ⟨rfl, rfl⟩
  | cons sg rest ih =>
    have hrest : ∀ g ∈ rest, g.GroupName ≠ "default" →
        arn ≠ securityGroup.ARN ⟨acct, region, g.GroupId⟩ :=
      fun g hg => h g (List.mem_cons_of_mem _ hg)
    unfold securityGroups.eachGroup
    by_cases hd : sg.GroupName = "default"
    · rw [if_pos hd]; exact ih st hrest
    · rw [if_neg hd]
      have hne : arn ≠ awsResource.ARN (⟨acct, region, sg.GroupId⟩ : securityGroup) :=
        h sg (List.mem_cons_self _ _) hd
      simp only [markNow]
      split
      · rename_i heq
        simp only [Prod.mk.injEq] at heq
        obtain ⟨h1, h2⟩ := ih ⟨st.toDelete ++ [⟨acct, region, sg.GroupId⟩],
          addRefs st.ingress sg.GroupId acct sg.IpPermissions,
          addRefs st.egress sg.GroupId acct sg.IpPermissionsEgress, _, _⟩ hrest
        rw [h1, h2]
        simp only
        rw [← heq.2.1]
        exact ⟨Mark_firstSeen_frame _ _ _ _ hne, Mark_marked_frame _ _ _ _ hne⟩
      · rename_i heq
        simp only [Prod.mk.injEq] at heq
        obtain ⟨h1, h2⟩ := ih ⟨st.toDelete,
          addRefs st.ingress sg.GroupId acct sg.IpPermissions,
          addRefs st.egress sg.GroupId acct sg.IpPermissionsEgress, _, _⟩ hrest
        rw [h1, h2]
        simp only
        rw [← heq.2.1]
        exact ⟨Mark_firstSeen_frame _ _ _ _ hne, Mark_marked_frame _ _ _ _ hne⟩

theorem securityGroups.sweepListing_toDelete (env : Env) (acct region : String)
    (groups : List SecurityGroup) (set : awsResourceSet) (w : World) :
    (securityGroups.sweepListing env acct region groups set w).toDelete
      = (securityGroups.eachGroup env acct region groups ⟨[], [], [], set, w⟩).toDelete := rfl

theorem securityGroups.sweepListing_set (env : Env) (acct region : String)
    (groups : List SecurityGroup) (set : awsResourceSet) (w : World) :
    (securityGroups.sweepListing env acct region groups set w).set
      = (securityGroups.eachGroup env acct region groups ⟨[], [], [], set, w⟩).set := rfl

theorem securityGroups.sweepListing_calls (env : Env) (acct region : String)
    (groups : List SecurityGroup) (set : awsResourceSet) (w : World) :
    calls (securityGroups.sweepListing env acct region groups set w).w.trace
      = calls w.trace ++
        (securityGroups.sweepListing env acct region groups set w).toDelete.flatMap (fun sg =>
          requestsFor region (ingressAt acct groups sg.ID) (egressAt acct groups sg.ID) sg) := by
  unfold securityGroups.sweepListing
  simp only
  rw [securityGroups.deleteEach_calls, securityGroups.eachGroup_calls]
  simp only [securityGroups.eachGroup_ingress, securityGroups.eachGroup_egress]
  simp [GoMap.get]

theorem securityGroups.sweepListing_filter (env : Env) (acct region : String)
    (groups : List SecurityGroup) (set : awsResourceSet) (w : World) :
    securityGroups.sweepListing env acct region groups set w
      = securityGroups.sweepListing env acct region
          (groups.filter (fun g => decide (g.GroupName ≠ "default"))) set w := by
  unfold securityGroups.sweepListing
  rw [← securityGroups.eachGroup_filter]

theorem securityGroups.MarkAndSweep_ok (env : Env) (acct region : String)
    (set : awsResourceSet) (w : World) (groups : List SecurityGroup)
    (hl : env.DescribeSecurityGroups w.trace region = .ok groups) :
    securityGroups.MarkAndSweep env acct region set w
      = (none,
        (securityGroups.sweepListing env acct region groups set
          (w.emit (.call (.DescribeSecurityGroups region)))).set,
        (securityGroups.sweepListing env acct region groups set
          (w.emit (.call (.DescribeSecurityGroups region)))).w) := by
  unfold securityGroups.MarkAndSweep
  rw [hl]

theorem delete_mem_requests (region : String) (ing eg : String → List sgRef)
    (batch : List securityGroup) (id : String)
    (h : ApiCall.DeleteSecurityGroup region id ∈
      batch.flatMap (fun sg => requestsFor region (ing sg.ID) (eg sg.ID) sg)) :
    ∃ sg ∈ batch, sg.ID = id := by
  simp only [List.mem_flatMap, requestsFor, List.mem_append, List.mem_map, List.mem_singleton,
    ApiCall.DeleteSecurityGroup.injEq, reduceCtorEq, and_false, exists_false, false_or] at h
  obtain ⟨sg, hsg, _, hid⟩ := h
  exact ⟨sg, hsg, hid.symm⟩

theorem mem_edgesAt (acct id : String) (perms : List IpPermission) (k : String)
    (perm : IpPermission) (pair : UserIdGroupPair) (hperm : perm ∈ perms)
    (hpair : pair ∈ perm.UserIdGroupPairs) (hu : pair.UserId = acct) (hk : pair.GroupId = k)
    (hne : id ≠ k) : (⟨id, perm⟩ : sgRef) ∈ edgesAt acct id perms k := by
  simp only [edgesAt, List.mem_flatMap, List.mem_map, List.mem_filter, decide_eq_true_eq]
  exact ⟨perm, hperm, pair, ⟨hpair, hu, fun h => hne (h.symm.trans hk), hk⟩, rfl⟩

/-! ## Claims on the security-group sweep -/

/-- C8, counterexample: `sg-1` and `sg-2` reference each other and only `sg-1`
is due.  The sweep revokes the rule of `sg-2` that points at `sg-1` and deletes
`sg-1`; the rule of `sg-1` that points at `sg-2`, a same-account reference that
is not a self-reference, is never revoked. -/
theorem C8_counterexample :
    calls (securityGroups.MarkAndSweep mutualEnv "42" "us-west-2" mutualLedger ⟨[], 0⟩).2.2.trace
      = [ ApiCall.DescribeSecurityGroups "us-west-2",
          ApiCall.RevokeSecurityGroupIngress "us-west-2" "sg-2" ⟨"tcp/443", [⟨"42", "sg-1"⟩]⟩,
          ApiCall.DeleteSecurityGroup "us-west-2" "sg-1" ] ∧
    (⟨"web", "sg-1", [⟨"tcp/22", [⟨"42", "sg-2"⟩]⟩], []⟩ : SecurityGroup) ∈ mutualGroups ∧
    ApiCall.RevokeSecurityGroupIngress "us-west-2" "sg-1" ⟨"tcp/22", [⟨"42", "sg-2"⟩]⟩ ∉
      calls (securityGroups.MarkAndSweep mutualEnv "42" "us-west-2" mutualLedger
        ⟨[], 0⟩).2.2.trace := by
  decide

/-- C8, amended: when the listing answers `groups`, the sweep returns no error
and the requests it issues after the listing are, for each group of the
deletion batch in turn, a revoke on the holder of every same-account,
non-self reference that an ingress or egress rule of a listed group not named
`default` holds on that group, and then its delete.  So every rule of another
such group that points at a batch member is revoked before that member is
deleted, only batch members are deleted, and the batch holds only listed
groups not named `default`.  The rules of a batch member that point at other
groups are not among the requests due for it. -/
theorem C8_referrers_revoked_before_delete (env : Env) (acct region : String)
    (set : awsResourceSet) (w : World) (groups : List SecurityGroup)
    (hl : env.DescribeSecurityGroups w.trace region = .ok groups) :
    ∃ batch issued,
      batch = (securityGroups.sweepListing env acct region groups set
        (w.emit (.call (.DescribeSecurityGroups region)))).toDelete ∧
      (securityGroups.MarkAndSweep env acct region set w).1 = none ∧
      calls (securityGroups.MarkAndSweep env acct region set w).2.2.trace
        = calls w.trace ++ ApiCall.DescribeSecurityGroups region :: issued ∧
      issued = batch.flatMap (fun sg =>
        requestsFor region (ingressAt acct groups sg.ID) (egressAt acct groups sg.ID) sg) ∧
      (∀ sg ∈ batch, ∃ g ∈ groups, g.GroupName ≠ "default" ∧ sg = ⟨acct, region, g.GroupId⟩) ∧
      (∀ sg ∈ batch, ∀ holder ∈ groups, holder.GroupName ≠ "default" →
        holder.GroupId ≠ sg.ID → ∀ perm pair, pair ∈ perm.UserIdGroupPairs →
        pair.UserId = acct → pair.GroupId = sg.ID →
        (perm ∈ holder.IpPermissions → ∃ before after,
          issued = before ++ ApiCall.DeleteSecurityGroup region sg.ID :: after ∧
          ApiCall.RevokeSecurityGroupIngress region holder.GroupId perm ∈ before) ∧
        (perm ∈ holder.IpPermissionsEgress → ∃ before after,
          issued = before ++ ApiCall.DeleteSecurityGroup region sg.ID :: after ∧
          ApiCall.RevokeSecurityGroupEgress region holder.GroupId perm ∈ before)) ∧
      (∀ id, ApiCall.DeleteSecurityGroup region id ∈ issued → ∃ sg ∈ batch, sg.ID = id) := by
  refine ⟨_, _, rfl, ?_, ?_, rfl, ?_, ?_, ?_⟩
  · rw [securityGroups.MarkAndSweep_ok env acct region set w groups hl]
  · rw [securityGroups.MarkAndSweep_ok env acct region set w groups hl]
    simp only
    rw [securityGroups.sweepListing_calls, calls_emit_call]
    simp
  · intro sg hsg
    rw [securityGroups.sweepListing_toDelete] at hsg
    rcases securityGroups.eachGroup_toDelete env acct region groups _ sg hsg with h | h
    · simp at h
    · exact h
  · intro sg hsg holder hholder hnd hne perm pair hpair hu hk
    obtain ⟨l1, l2, hsplit⟩ := List.append_of_mem hsg
    have hin : holder ∈ groups.filter (fun g => decide (g.GroupName ≠ "default")) := by
      simp [List.mem_filter, hholder, hnd]
    constructor
    · intro hperm
      refine ⟨l1.flatMap (fun sg => requestsFor region (ingressAt acct groups sg.ID)
          (egressAt acct groups sg.ID) sg) ++
          ((ingressAt acct groups sg.ID).map
            (fun ref => ApiCall.RevokeSecurityGroupIngress region ref.id ref.perm) ++
          (egressAt acct groups sg.ID).map
            (fun ref => ApiCall.RevokeSecurityGroupEgress region ref.id ref.perm)),
        l2.flatMap (fun sg => requestsFor region (ingressAt acct groups sg.ID)
          (egressAt acct groups sg.ID) sg), ?_, ?_⟩
      · rw [hsplit]
        simp [requestsFor, List.append_assoc]
      · apply List.mem_append_right
        apply List.mem_append_left
        have hmem : (⟨holder.GroupId, perm⟩ : sgRef) ∈ ingressAt acct groups sg.ID := by
          unfold ingressAt
          rw [List.mem_flatMap]
          exact ⟨holder, hin, mem_edgesAt acct holder.GroupId holder.IpPermissions sg.ID perm
            pair hperm hpair hu hk hne⟩
        exact List.mem_map.mpr ⟨_, hmem, rfl⟩
    · intro hperm
      refine ⟨l1.flatMap (fun sg => requestsFor region (ingressAt acct groups sg.ID)
          (egressAt acct groups sg.ID) sg) ++
          ((ingressAt acct groups sg.ID).map
            (fun ref => ApiCall.RevokeSecurityGroupIngress region ref.id ref.perm) ++
          (egressAt acct groups sg.ID).map
            (fun ref => ApiCall.RevokeSecurityGroupEgress region ref.id ref.perm)),
        l2.flatMap (fun sg => requestsFor region (ingressAt acct groups sg.ID)
          (egressAt acct groups sg.ID) sg), ?_, ?_⟩
      · rw [hsplit]
        simp [requestsFor, List.append_assoc]
      · apply List.mem_append_right
        apply List.mem_append_right
        have hmem : (⟨holder.GroupId, perm⟩ : sgRef) ∈ egressAt acct groups sg.ID := by
          unfold egressAt
          rw [List.mem_flatMap]
          exact ⟨holder, hin, mem_edgesAt acct holder.GroupId holder.IpPermissionsEgress sg.ID
            perm pair hperm hpair hu hk hne⟩
        exact List.mem_map.mpr ⟨_, hmem, rfl⟩
  · intro id hid
    exact delete_mem_requests region (ingressAt acct groups) (egressAt acct groups) _ id hid

/-- Witness of C8 as amended: the mutual-reference example. -/
theorem C8_referrers_revoked_before_delete_witness :
    mutualEnv.DescribeSecurityGroups (⟨[], 0⟩ : World).trace "us-west-2" = .ok mutualGroups ∧
    ∃ batch issued,
      batch = (securityGroups.sweepListing mutualEnv "42" "us-west-2" mutualGroups mutualLedger
        ((⟨[], 0⟩ : World).emit (.call (.DescribeSecurityGroups "us-west-2")))).toDelete ∧
      (securityGroups.MarkAndSweep mutualEnv "42" "us-west-2" mutualLedger ⟨[], 0⟩).1 = none ∧
      calls (securityGroups.MarkAndSweep mutualEnv "42" "us-west-2" mutualLedger ⟨[], 0⟩).2.2.trace
        = calls (⟨[], 0⟩ : World).trace ++ ApiCall.DescribeSecurityGroups "us-west-2" :: issued ∧
      issued = batch.flatMap (fun sg =>
        requestsFor "us-west-2" (ingressAt "42" mutualGroups sg.ID)
          (egressAt "42" mutualGroups sg.ID) sg) ∧
      (∀ id, ApiCall.DeleteSecurityGroup "us-west-2" id ∈ issued → ∃ sg ∈ batch, sg.ID = id) :=
  ⟨rfl, by
    obtain ⟨batch, issued, h1, h2, h3, h4, _, _, h7⟩ :=
      C8_referrers_revoked_before_delete mutualEnv "42" "us-west-2" mutualLedger ⟨[], 0⟩
        mutualGroups rfl
    exact ⟨batch, issued, h1, h2, h3, h4, h7⟩⟩

/-- C10: a group named `default`, whose id no other listed group shares, is
skipped before `Mark`: the sweep is the sweep of the listing without
the groups named `default`, the ledger reads for its ARN in `firstSeen` and in
the marked set what it read before, it is not in the deletion batch and no
delete is issued for it.  The ledger and its TTL are arbitrary, 0 included. -/
theorem C10_default_group_never_marked (env : Env) (acct region : String)
    (set : awsResourceSet) (w : World) (groups : List SecurityGroup) (g : SecurityGroup)
    (hl : env.DescribeSecurityGroups w.trace region = .ok groups)
    (hd : g.GroupName = "default")
    (hu : ∀ g' ∈ groups, g'.GroupName ≠ "default" → g'.GroupId ≠ g.GroupId) :
    securityGroups.MarkAndSweep env acct region set w
      = (none,
        (securityGroups.sweepListing env acct region
          (groups.filter (fun g' => decide (g'.GroupName ≠ "default"))) set
          (w.emit (.call (.DescribeSecurityGroups region)))).set,
        (securityGroups.sweepListing env acct region
          (groups.filter (fun g' => decide (g'.GroupName ≠ "default"))) set
          (w.emit (.call (.DescribeSecurityGroups region)))).w) ∧
    g ∉ groups.filter (fun g' => decide (g'.GroupName ≠ "default")) ∧
    (securityGroups.MarkAndSweep env acct region set w).2.1.firstSeen.get
        (securityGroup.ARN ⟨acct, region, g.GroupId⟩)
      = set.firstSeen.get (securityGroup.ARN ⟨acct, region, g.GroupId⟩) ∧
    (securityGroups.MarkAndSweep env acct region set w).2.1.marked.get
        (securityGroup.ARN ⟨acct, region, g.GroupId⟩)
      = set.marked.get (securityGroup.ARN ⟨acct, region, g.GroupId⟩) ∧
    (⟨acct, region, g.GroupId⟩ : securityGroup) ∉
      (securityGroups.sweepListing env acct region groups set
        (w.emit (.call (.DescribeSecurityGroups region)))).toDelete ∧
    (∀ issued, calls (securityGroups.MarkAndSweep env acct region set w).2.2.trace
        = calls w.trace ++ issued →
      ApiCall.DeleteSecurityGroup region g.GroupId ∉ issued) := by
  have hbatch : ∀ sg ∈ (securityGroups.sweepListing env acct region groups set
      (w.emit (.call (.DescribeSecurityGroups region)))).toDelete, sg.ID ≠ g.GroupId := by
    intro sg hsg
    rw [securityGroups.sweepListing_toDelete] at hsg
    rcases securityGroups.eachGroup_toDelete env acct region groups _ sg hsg with h | h
    · simp at h
    · obtain ⟨g', hg', hn, rfl⟩ := h
      exact hu g' hg' hn
  have hframe := securityGroups.eachGroup_ledger_frame env acct region groups
    ⟨[], [], [], set, w.emit (.call (.DescribeSecurityGroups region))⟩
    (securityGroup.ARN ⟨acct, region, g.GroupId⟩)
    (by
      intro g' hg' hn heq
      unfold securityGroup.ARN at heq
      exact hu g' hg' hn (ec2ARN_injective_id _ _ _ _ _ heq).symm)
  rw [securityGroups.MarkAndSweep_ok env acct region set w groups hl]
  refine ⟨?_, ?_, ?_, ?_, ?_, ?_⟩
  · rw [← securityGroups.sweepListing_filter]
  · simp [List.mem_filter, hd]
  · simp only
    rw [securityGroups.sweepListing_set]
    exact hframe.1
  · simp only
    rw [securityGroups.sweepListing_set]
    exact hframe.2
  · intro hmem
    exact hbatch _ hmem rfl
  · intro issued hissued hmem
    simp only at hissued
    rw [securityGroups.sweepListing_calls, calls_emit_call, List.append_assoc] at hissued
    have hi := List.append_cancel_left hissued
    rw [← hi] at hmem
    simp only [List.singleton_append, List.mem_cons, reduceCtorEq, false_or] at hmem
    obtain ⟨sg, hsg, hid⟩ := delete_mem_requests region (ingressAt acct groups)
      (egressAt acct groups) _ g.GroupId hmem
    exact hbatch sg hsg hid

/-- Witness of C10: the group `default` of the protected-group example, under
a TTL of 0. -/
theorem C10_default_group_never_marked_witness :
    (defaultEnv.DescribeSecurityGroups (⟨[], 0⟩ : World).trace "us-west-2" = .ok defaultGroups ∧
      (⟨"default", "sg-0", [], []⟩ : SecurityGroup) ∈ defaultGroups ∧
      (⟨"default", "sg-0", [], []⟩ : SecurityGroup).GroupName = "default" ∧
      ∀ g' ∈ defaultGroups, g'.GroupName ≠ "default" →
        g'.GroupId ≠ (⟨"default", "sg-0", [], []⟩ : SecurityGroup).GroupId) ∧
    (securityGroups.MarkAndSweep defaultEnv "42" "us-west-2" ⟨[], [], 0⟩ ⟨[], 0⟩).2.1.firstSeen.get
        (securityGroup.ARN ⟨"42", "us-west-2", "sg-0"⟩)
      = GoMap.get ([] : GoMap Time) (securityGroup.ARN ⟨"42", "us-west-2", "sg-0"⟩) ∧
    (securityGroups.MarkAndSweep defaultEnv "42" "us-west-2" ⟨[], [], 0⟩ ⟨[], 0⟩).2.1.marked.get
        (securityGroup.ARN ⟨"42", "us-west-2", "sg-0"⟩)
      = GoMap.get ([] : GoMap Bool) (securityGroup.ARN ⟨"42", "us-west-2", "sg-0"⟩) ∧
    (⟨"42", "us-west-2", "sg-0"⟩ : securityGroup) ∉
      (securityGroups.sweepListing defaultEnv "42" "us-west-2" defaultGroups ⟨[], [], 0⟩
        ((⟨[], 0⟩ : World).emit (.call (.DescribeSecurityGroups "us-west-2")))).toDelete :=
  ⟨⟨rfl, by decide, rfl, by decide⟩,
    (C10_default_group_never_marked defaultEnv "42" "us-west-2" ⟨[], [], 0⟩ ⟨[], 0⟩ defaultGroups
      ⟨"default", "sg-0", [], []⟩ rfl rfl (by decide)).2.2.1,
    (C10_default_group_never_marked defaultEnv "42" "us-west-2" ⟨[], [], 0⟩ ⟨[], 0⟩ defaultGroups
      ⟨"default", "sg-0", [], []⟩ rfl rfl (by decide)).2.2.2.1,
    (C10_default_group_never_marked defaultEnv "42" "us-west-2" ⟨[], [], 0⟩ ⟨[], 0⟩ defaultGroups
      ⟨"default", "sg-0", [], []⟩ rfl rfl (by decide)).2.2.2.2.1⟩

/-! ## Lemmas on the orchestrator -/

theorem main.eachType_append (env : Env) (acct region : String)
    (l1 l2 : List awsResourceType) (res : awsResourceSet) (w : World) :
    main.eachType env acct region (l1 ++ l2) res w
      = match main.eachType env acct region l1 res w with
        | (some err, res1, w1) => (some err, res1, w1)
        | (none, res1, w1) => main.eachType env acct region l2 res1 w1 := by
  induction l1 generalizing res w with
  | nil => simp [main.eachType]
  | cons typ rest ih =>
    simp only [List.cons_append, main.eachType]
    rcases h : typ.MarkAndSweep env acct region res w with ⟨e, res1, w1⟩
    cases e with
    | some err => simp
    | none => simp only; exact ih res1 w1

theorem main.eachType_abort (env : Env) (acct region : String)
    (tpre tpost : List awsResourceType) (typ : awsResourceType)
    (res res1 res2 : awsResourceSet) (w w1 w2 : World) (err : String)
    (hpre : main.eachType env acct region tpre res w = (none, res1, w1))
    (hfail : typ.MarkAndSweep env acct region res1 w1 = (some err, res2, w2)) :
    main.eachType env acct region (tpre ++ typ :: tpost) res w
      = (some err, res2, w2.emit (.error ("error sweeping " ++ typ.name ++ ": " ++ err))) := by
  rw [main.eachType_append, hpre]
  simp only [main.eachType, hfail]

theorem main.eachRegion_abort (env : Env) (acct : String) (types : List awsResourceType)
    (rpre rpost : List String) (region : String)
    (res res1 res2 : awsResourceSet) (w w1 w2 : World) (err : String)
    (hpre : main.eachRegion env acct types rpre res w = (none, res1, w1))
    (hfail : main.eachType env acct region types res1 w1 = (some err, res2, w2)) :
    main.eachRegion env acct types (rpre ++ region :: rpost) res w = (some err, res2, w2) := by
  induction rpre generalizing res w with
  | nil =>
    simp only [main.eachRegion, Prod.mk.injEq, true_and] at hpre
    obtain ⟨rfl, rfl⟩ := hpre
    simp only [List.nil_append, main.eachRegion, hfail]
  | cons r rest ih =>
    simp only [List.cons_append, main.eachRegion] at hpre ⊢
    rcases h : main.eachType env acct r types res w with ⟨e, resa, wa⟩
    rw [h] at hpre
    cases e with
    | some err' => simp at hpre
    | none => simp only at hpre ⊢; exact ih resa wa hpre

theorem main_abort (env : Env) (acct : String) (ttl : Duration) (object : Option String)
    (w : World) (rpre rpost : List String) (region : String)
    (tpre tpost : List awsResourceType) (typ : awsResourceType)
    (res0 res1 res2 res3 : awsResourceSet) (w0 w1 w2 w3 : World) (err : String)
    (htypes : awsResourceTypes = tpre ++ typ :: tpost)
    (hload : LoadResourceSet env ttl object w = (.ok res0, w0))
    (hregions : main.eachRegion env acct awsResourceTypes rpre res0 w0 = (none, res1, w1))
    (htpre : main.eachType env acct region tpre res1 w1 = (none, res2, w2))
    (hfail : typ.MarkAndSweep env acct region res2 w2 = (some err, res3, w3)) :
    main env (rpre ++ region :: rpost) acct ttl object w
      = ⟨.sweepError, some res3,
          w3.emit (.error ("error sweeping " ++ typ.name ++ ": " ++ err)), object⟩ := by
  have h1 := main.eachType_abort env acct region tpre tpost typ res1 res2 res3 w1 w2 w3 err
    htpre hfail
  rw [← htypes] at h1
  have h2 := main.eachRegion_abort env acct awsResourceTypes rpre rpost region res0 res1 res3
    w0 w1 _ err hregions h1
  unfold main
  rw [hload]
  simp only [h2]

/-! ## Claims on the orchestrator -/

/-- C6: when a call of `MarkAndSweep` returns an error, after the earlier
regions and the earlier sweepers of its region returned none, the run ends
there: the events of the run are those up to the return of that call followed
by the one error line, so no later sweeper of the region and no sweeper of a
later region is invoked, whatever they are; the ledger in memory is the one
that call left, not reconciled by `markComplete`; and the stored object is the
one that was loaded, nothing being saved. -/
theorem C6_sweep_error_aborts_run (env : Env) (acct : String) (ttl : Duration)
    (object : Option String) (w : World) (rpre rpost : List String) (region : String)
    (tpre tpost : List awsResourceType) (typ : awsResourceType)
    (res0 res1 res2 res3 : awsResourceSet) (w0 w1 w2 w3 : World) (err : String)
    (htypes : awsResourceTypes = tpre ++ typ :: tpost)
    (hload : LoadResourceSet env ttl object w = (.ok res0, w0))
    (hregions : main.eachRegion env acct awsResourceTypes rpre res0 w0 = (none, res1, w1))
    (htpre : main.eachType env acct region tpre res1 w1 = (none, res2, w2))
    (hfail : typ.MarkAndSweep env acct region res2 w2 = (some err, res3, w3)) :
    (main env (rpre ++ region :: rpost) acct ttl object w).exit = .sweepError ∧
    (main env (rpre ++ region :: rpost) acct ttl object w).w.trace
      = w3.trace ++ [Event.error ("error sweeping " ++ typ.name ++ ": " ++ err)] ∧
    (main env (rpre ++ region :: rpost) acct ttl object w).res = some res3 ∧
    (main env (rpre ++ region :: rpost) acct ttl object w).object = object ∧
    (∀ rpost', main env (rpre ++ region :: rpost') acct ttl object w
      = main env (rpre ++ region :: rpost) acct ttl object w) := by
  have h := fun rp => main_abort env acct ttl object w rpre rp region tpre tpost typ
    res0 res1 res2 res3 w0 w1 w2 w3 err htypes hload hregions htpre hfail
  rw [h rpost]
  refine ⟨rfl, rfl, rfl, rfl, ?_⟩
  intro rpost'
  exact h rpost'

/-- Witness of C6: the listing of subnets fails in the first of two regions. -/
theorem C6_sweep_error_aborts_run_witness :
    (main failingEnv ([] ++ "us-west-2" :: ["us-east-1"]) "42" 24 none ⟨[], 0⟩).exit
      = .sweepError ∧
    (main failingEnv ([] ++ "us-west-2" :: ["us-east-1"]) "42" 24 none ⟨[], 0⟩).w.trace
      = [ Event.call .GetObject,
          Event.call (.DescribeAutoScalingGroupsPages "us-west-2"),
          Event.call (.DescribeLaunchConfigurationsPages "us-west-2"),
          Event.call (.DescribeInstancesPages "us-west-2"),
          Event.call (.DescribeSubnets "us-west-2") ] ++
        [Event.error ("error sweeping " ++ "main.subnets" ++ ": " ++ "RequestLimitExceeded")] ∧
    (main failingEnv ([] ++ "us-west-2" :: ["us-east-1"]) "42" 24 none ⟨[], 0⟩).object = none :=
  have h := C6_sweep_error_aborts_run failingEnv "42" 24 none ⟨[], 0⟩ [] ["us-east-1"]
    "us-west-2"
    [ ⟨"main.autoScalingGroups", autoScalingGroups.MarkAndSweep⟩,
      ⟨"main.launchConfigurations", launchConfigurations.MarkAndSweep⟩,
      ⟨"main.instances", instances.MarkAndSweep⟩ ]
    [ ⟨"main.securityGroups", securityGroups.MarkAndSweep⟩,
      ⟨"main.internetGateways", internetGateways.MarkAndSweep⟩,
      ⟨"main.routeTables", routeTables.MarkAndSweep⟩,
      ⟨"main.vpcs", vpcs.MarkAndSweep⟩,
      ⟨"main.dhcpOptions", dhcpOptions.MarkAndSweep⟩,
      ⟨"main.volumes", volumes.MarkAndSweep⟩ ]
    ⟨"main.subnets", subnets.MarkAndSweep⟩
    ⟨[], [], 24⟩ ⟨[], [], 24⟩ ⟨[], [], 24⟩ ⟨[], [], 24⟩
    ⟨[Event.call .GetObject], 0⟩ ⟨[Event.call .GetObject], 0⟩
    ⟨[ Event.call .GetObject,
       Event.call (.DescribeAutoScalingGroupsPages "us-west-2"),
       Event.call (.DescribeLaunchConfigurationsPages "us-west-2"),
       Event.call (.DescribeInstancesPages "us-west-2") ], 0⟩
    ⟨[ Event.call .GetObject,
       Event.call (.DescribeAutoScalingGroupsPages "us-west-2"),
       Event.call (.DescribeLaunchConfigurationsPages "us-west-2"),
       Event.call (.DescribeInstancesPages "us-west-2"),
       Event.call (.DescribeSubnets "us-west-2") ], 0⟩
    "RequestLimitExceeded" rfl rfl rfl rfl rfl
  ⟨h.1, h.2.1, h.2.2.2.1⟩

/-- C7, counterexample: the listing of subnets fails in `us-west-2`, the first
of two regions.  The run ends with the sweep error after that listing: the
security-group sweeper of `us-west-2` and the first sweeper of `us-east-1` are
never invoked. -/
theorem C7_counterexample :
    failingEnv.DescribeSubnets [] "us-west-2" = .error "RequestLimitExceeded" ∧
    (main failingEnv ["us-west-2", "us-east-1"] "42" 24 none ⟨[], 0⟩).exit = .sweepError ∧
    calls (main failingEnv ["us-west-2", "us-east-1"] "42" 24 none ⟨[], 0⟩).w.trace
      = [ ApiCall.GetObject,
          ApiCall.DescribeAutoScalingGroupsPages "us-west-2",
          ApiCall.DescribeLaunchConfigurationsPages "us-west-2",
          ApiCall.DescribeInstancesPages "us-west-2",
          ApiCall.DescribeSubnets "us-west-2" ] ∧
    ApiCall.DescribeSecurityGroups "us-west-2" ∉
      calls (main failingEnv ["us-west-2", "us-east-1"] "42" 24 none ⟨[], 0⟩).w.trace ∧
    ApiCall.DescribeAutoScalingGroupsPages "us-east-1" ∉
      calls (main failingEnv ["us-west-2", "us-east-1"] "42" 24 none ⟨[], 0⟩).w.trace :=
  ⟨rfl, by decide, by decide, by decide, by decide⟩

/-- C7, amended: when the listing of subnets fails in a region, the subnet
sweeper marks and deletes nothing and returns the error, and the whole run is
abandoned at that point: no sweeper of a later category in that region and no
sweeper of a later region is invoked, and nothing is reconciled or saved.  The
sweeper of every other category returns the error of its listing in the same
way, which ends the run likewise. -/
theorem C7_enumeration_error_aborts_run (env : Env) (acct : String) (ttl : Duration)
    (object : Option String) (w : World) (rpre rpost : List String) (region : String)
    (res0 res1 res2 : awsResourceSet) (w0 w1 w2 : World) (err : String)
    (hload : LoadResourceSet env ttl object w = (.ok res0, w0))
    (hregions : main.eachRegion env acct awsResourceTypes rpre res0 w0 = (none, res1, w1))
    (htpre : main.eachType env acct region (awsResourceTypes.take 3) res1 w1 = (none, res2, w2))
    (hlist : env.DescribeSubnets w2.trace region = .error err) :
    subnets.MarkAndSweep env acct region res2 w2
      = (some err, res2, w2.emit (.call (.DescribeSubnets region))) ∧
    main env (rpre ++ region :: rpost) acct ttl object w
      = ⟨.sweepError, some res2,
          (w2.emit (.call (.DescribeSubnets region))).emit
            (.error ("error sweeping main.subnets: " ++ err)), object⟩ ∧
    (∀ (set : awsResourceSet) (v : World) (e : String),
      ((env.DescribeAutoScalingGroupsPages v.trace region).2 = some e →
        (autoScalingGroups.MarkAndSweep env acct region set v).1 = some e) ∧
      ((env.DescribeLaunchConfigurationsPages v.trace region).2 = some e →
        (launchConfigurations.MarkAndSweep env acct region set v).1 = some e) ∧
      ((env.DescribeInstancesPages v.trace region).2 = some e →
        (instances.MarkAndSweep env acct region set v).1 = some e) ∧
      (env.DescribeSecurityGroups v.trace region = .error e →
        (securityGroups.MarkAndSweep env acct region set v).1 = some e) ∧
      (env.DescribeInternetGateways v.trace region = .error e →
        (internetGateways.MarkAndSweep env acct region set v).1 = some e) ∧
      (env.DescribeRouteTables v.trace region = .error e →
        (routeTables.MarkAndSweep env acct region set v).1 = some e) ∧
      (env.DescribeVpcs v.trace region false = .error e →
        (vpcs.MarkAndSweep env acct region set v).1 = some e) ∧
      (env.DescribeVpcs v.trace region true = .error e →
        (dhcpOptions.MarkAndSweep env acct region set v).1 = some e) ∧
      (∀ defaults, env.DescribeVpcs v.trace region true = .ok defaults →
        env.DescribeDhcpOptions (v.emit (.call (.DescribeVpcs region true))).trace region
          = .error e →
        (dhcpOptions.MarkAndSweep env acct region set v).1 = some e) ∧
      ((env.DescribeVolumesPages v.trace region).2 = some e →
        (volumes.MarkAndSweep env acct region set v).1 = some e)) := by
  have hsub : subnets.MarkAndSweep env acct region res2 w2
      = (some err, res2, w2.emit (.call (.DescribeSubnets region))) := by
    unfold subnets.MarkAndSweep
    rw [hlist]
  refine ⟨hsub, ?_, ?_⟩
  · exact main_abort env acct ttl object w rpre rpost region (awsResourceTypes.take 3)
      (awsResourceTypes.drop 4) ⟨"main.subnets", subnets.MarkAndSweep⟩ res0 res1 res2 res2
      w0 w1 w2 _ err rfl hload hregions htpre hsub
  · intro set v e
    refine ⟨?_, ?_, ?_, ?_, ?_, ?_, ?_, ?_, ?_, ?_⟩
    · intro h; unfold autoScalingGroups.MarkAndSweep; simp only [h]
    · intro h; unfold launchConfigurations.MarkAndSweep; simp only [h]
    · intro h; unfold instances.MarkAndSweep; simp only [h]
    · intro h; unfold securityGroups.MarkAndSweep; simp only [h]
    · intro h; unfold internetGateways.MarkAndSweep; simp only [h]
    · intro h; unfold routeTables.MarkAndSweep; simp only [h]
    · intro h; unfold vpcs.MarkAndSweep; simp only [h]
    · intro h; unfold dhcpOptions.MarkAndSweep; simp only [h]
    · intro defaults h1 h2; unfold dhcpOptions.MarkAndSweep; simp only [h1, h2]
    · intro h; unfold volumes.MarkAndSweep; simp only [h]

/-- Witness of C7 as amended: the listing of subnets fails in the first of two
regions. -/
theorem C7_enumeration_error_aborts_run_witness :
    failingEnv.DescribeSubnets
      (⟨[ Event.call .GetObject,
          Event.call (.DescribeAutoScalingGroupsPages "us-west-2"),
          Event.call (.DescribeLaunchConfigurationsPages "us-west-2"),
          Event.call (.DescribeInstancesPages "us-west-2") ], 0⟩ : World).trace "us-west-2"
      = .error "RequestLimitExceeded" ∧
    main failingEnv ([] ++ "us-west-2" :: ["us-east-1"]) "42" 24 none ⟨[], 0⟩
      = ⟨.sweepError, some ⟨[], [], 24⟩,
          ((⟨[ Event.call .GetObject,
              Event.call (.DescribeAutoScalingGroupsPages "us-west-2"),
              Event.call (.DescribeLaunchConfigurationsPages "us-west-2"),
              Event.call (.DescribeInstancesPages "us-west-2") ], 0⟩ : World).emit
            (.call (.DescribeSubnets "us-west-2"))).emit
            (.error ("error sweeping main.subnets: " ++ "RequestLimitExceeded")), none⟩ :=
  ⟨rfl,
    (C7_enumeration_error_aborts_run failingEnv "42" 24 none ⟨[], 0⟩ [] ["us-east-1"]
      "us-west-2" ⟨[], [], 24⟩ ⟨[], [], 24⟩ ⟨[], [], 24⟩
      ⟨[Event.call .GetObject], 0⟩ ⟨[Event.call .GetObject], 0⟩
      ⟨[ Event.call .GetObject,
         Event.call (.DescribeAutoScalingGroupsPages "us-west-2"),
         Event.call (.DescribeLaunchConfigurationsPages "us-west-2"),
         Event.call (.DescribeInstancesPages "us-west-2") ], 0⟩
      "RequestLimitExceeded" rfl rfl rfl rfl).2.1⟩

/-! ## Lemmas on failures in the security-group sweep -/

theorem deleteAttempts_requests (region : String) (ing eg : String → List sgRef)
    (batch : List securityGroup) :
    deleteAttempts region
        (batch.flatMap (fun sg => requestsFor region (ing sg.ID) (eg sg.ID) sg))
      = batch.map (fun sg => sg.ID) := by
  induction batch with
  | nil => rfl
  | cons sg rest ih =>
    have hi : ∀ l : List sgRef, List.filterMap (fun c => match c with
        | ApiCall.DeleteSecurityGroup r id => if r = region then some id else none
        | _ => none)
        (l.map (fun ref => ApiCall.RevokeSecurityGroupIngress region ref.id ref.perm)) = [] := by
      intro l; induction l with
      | nil => rfl
      | cons a l _ => simp [List.filterMap_cons]
    have he : ∀ l : List sgRef, List.filterMap (fun c => match c with
        | ApiCall.DeleteSecurityGroup r id => if r = region then some id else none
        | _ => none)
        (l.map (fun ref => ApiCall.RevokeSecurityGroupEgress region ref.id ref.perm)) = [] := by
      intro l; induction l with
      | nil => rfl
      | cons a l _ => simp [List.filterMap_cons]
    unfold deleteAttempts at ih ⊢
    rw [List.flatMap_cons, List.filterMap_append, ih]
    simp only [requestsFor, List.filterMap_append, hi, he, List.nil_append, List.map_cons]
    simp [List.filterMap_cons]

theorem Mark_firstSeen_isSome {R : Type} [awsResource R] (s : awsResourceSet) (r : R)
    (now : Time) : ((s.Mark r now).1.firstSeen.get (awsResource.ARN r)).isSome = true := by
  cases hg : s.firstSeen.get (awsResource.ARN r) with
  | some t0 => rw [Mark_seen s r t0 now hg]; simp [hg]
  | none => rw [Mark_unseen s r now hg]; simp [GoMap.get_set]

theorem Mark_firstSeen_isSome_mono {R : Type} [awsResource R] (s : awsResourceSet) (r : R)
    (now : Time) (k : String) (hk : (s.firstSeen.get k).isSome = true) :
    ((s.Mark r now).1.firstSeen.get k).isSome = true := by
  by_cases h : k = awsResource.ARN r
  · subst h; exact Mark_firstSeen_isSome s r now
  · rw [Mark_firstSeen_frame s r now k h]; exact hk

theorem securityGroups.eachGroup_batch_marked (env : Env) (acct region : String)
    (groups : List SecurityGroup) (st : sgScan)
    (h : ∀ sg ∈ st.toDelete, st.set.isMarked sg.ARN = true ∧
      (st.set.firstSeen.get sg.ARN).isSome = true) :
    ∀ sg ∈ (securityGroups.eachGroup env acct region groups st).toDelete,
      (securityGroups.eachGroup env acct region groups st).set.isMarked sg.ARN = true ∧
      ((securityGroups.eachGroup env acct region groups st).set.firstSeen.get sg.ARN).isSome
        = true := by
  induction groups generalizing st with
  | nil => exact h
  | cons g rest ih =>
    unfold securityGroups.eachGroup
    by_cases hd : g.GroupName = "default"
    · rw [if_pos hd]; exact ih st h
    · rw [if_neg hd]
      have hnew : (st.set.Mark (⟨acct, region, g.GroupId⟩ : securityGroup)
            (env.now st.w.ticks)).1.isMarked
            (securityGroup.ARN ⟨acct, region, g.GroupId⟩) = true ∧
          ((st.set.Mark (⟨acct, region, g.GroupId⟩ : securityGroup)
            (env.now st.w.ticks)).1.firstSeen.get
            (securityGroup.ARN ⟨acct, region, g.GroupId⟩)).isSome = true :=
        ⟨Mark_isMarked _ _ _, Mark_firstSeen_isSome _ _ _⟩
      have hold : ∀ sg ∈ st.toDelete,
          (st.set.Mark (⟨acct, region, g.GroupId⟩ : securityGroup)
            (env.now st.w.ticks)).1.isMarked sg.ARN = true ∧
          ((st.set.Mark (⟨acct, region, g.GroupId⟩ : securityGroup)
            (env.now st.w.ticks)).1.firstSeen.get sg.ARN).isSome = true :=
        fun sg hsg => ⟨Mark_isMarked_mono _ _ _ _ (h sg hsg).1,
          Mark_firstSeen_isSome_mono _ _ _ _ (h sg hsg).2⟩
      simp only [markNow]
      split
      · rename_i heq
        simp only [Prod.mk.injEq] at heq
        apply ih
        simp only
        rw [← heq.2.1]
        intro sg hsg
        simp only [List.mem_append, List.mem_singleton] at hsg
        rcases hsg with hsg | rfl
        · exact hold sg hsg
        · exact hnew
      · rename_i heq
        simp only [Prod.mk.injEq] at heq
        apply ih
        simp only
        rw [← heq.2.1]
        exact hold

theorem securityGroups.eachGroup_respond (env : Env) (respond : List Event → ApiCall → Option String)
    (acct region : String) (groups : List SecurityGroup) (st : sgScan) :
    securityGroups.eachGroup { env with respond := respond } acct region groups st
      = securityGroups.eachGroup env acct region groups st := by
  induction groups generalizing st with
  | nil => rfl
  | cons g rest ih =>
    rw [securityGroups.eachGroup, securityGroups.eachGroup]
    by_cases hd : g.GroupName = "default"
    · rw [if_pos hd, if_pos hd]; exact ih st
    · rw [if_neg hd, if_neg hd]
      simp only [markNow]
      split <;> exact ih _
/-! ## Claims on failures in the security-group sweep -/

/-- C13: when the listing answers, whatever the revoke and delete requests
answer, the security-group sweep returns no error and the delete requests it
sends are exactly one for every member of the deletion batch, in batch order;
every member of the batch is in the marked set and in `firstSeen` when the
sweep ends, so `markComplete` keeps its entry with its timestamp.  The batch,
the ledger and the requests sent are the same under any other answers to the
requests. -/
theorem C13_failures_do_not_stop_deletes (env : Env) (acct region : String)
    (set : awsResourceSet) (w : World) (groups : List SecurityGroup)
    (hl : env.DescribeSecurityGroups w.trace region = .ok groups) :
    (securityGroups.MarkAndSweep env acct region set w).1 = none ∧
    (∃ issued, calls (securityGroups.MarkAndSweep env acct region set w).2.2.trace
        = calls w.trace ++ ApiCall.DescribeSecurityGroups region :: issued ∧
      deleteAttempts region issued
        = (securityGroups.sweepListing env acct region groups set
            (w.emit (.call (.DescribeSecurityGroups region)))).toDelete.map (fun sg => sg.ID)) ∧
    (∀ sg ∈ (securityGroups.sweepListing env acct region groups set
        (w.emit (.call (.DescribeSecurityGroups region)))).toDelete,
      (securityGroups.MarkAndSweep env acct region set w).2.1.isMarked sg.ARN = true ∧
      ∃ t, (securityGroups.MarkAndSweep env acct region set w).2.1.firstSeen.get sg.ARN = some t ∧
        (securityGroups.MarkAndSweep env acct region set w).2.1.markComplete.firstSeen.get sg.ARN
          = some t) ∧
    (∀ respond : List Event → ApiCall → Option String,
      (securityGroups.MarkAndSweep { env with respond := respond } acct region set w).1 = none ∧
      (securityGroups.MarkAndSweep { env with respond := respond } acct region set w).2.1
        = (securityGroups.MarkAndSweep env acct region set w).2.1 ∧
      (securityGroups.sweepListing { env with respond := respond } acct region groups set
          (w.emit (.call (.DescribeSecurityGroups region)))).toDelete
        = (securityGroups.sweepListing env acct region groups set
          (w.emit (.call (.DescribeSecurityGroups region)))).toDelete ∧
      calls (securityGroups.MarkAndSweep { env with respond := respond } acct region set
          w).2.2.trace
        = calls (securityGroups.MarkAndSweep env acct region set w).2.2.trace) := by
  have hmarked := securityGroups.eachGroup_batch_marked env acct region groups
    ⟨[], [], [], set, w.emit (.call (.DescribeSecurityGroups region))⟩ (by simp)
  rw [securityGroups.MarkAndSweep_ok env acct region set w groups hl]
  refine ⟨rfl, ?_, ?_, ?_⟩
  · refine ⟨_, ?_, deleteAttempts_requests region (ingressAt acct groups) (egressAt acct groups) _⟩
    simp only
    rw [securityGroups.sweepListing_calls, calls_emit_call]
    simp
  · intro sg hsg
    simp only
    rw [securityGroups.sweepListing_set]
    rw [securityGroups.sweepListing_toDelete] at hsg
    obtain ⟨hm, hs⟩ := hmarked sg hsg
    refine ⟨hm, ?_⟩
    obtain ⟨t, ht⟩ := Option.isSome_iff_exists.mp hs
    refine ⟨t, ht, ?_⟩
    unfold awsResourceSet.markComplete
    simp only
    rw [GoMap.get_foldl_delete]
    have : sg.ARN ∉ (securityGroups.eachGroup env acct region groups
        ⟨[], [], [], set, w.emit (.call (.DescribeSecurityGroups region))⟩).set.gone := by
      simp [awsResourceSet.gone, hm]
    simp only [this, if_false]
    exact ht
  · intro respond
    have hl' : ({ env with respond := respond } : Env).DescribeSecurityGroups w.trace region
        = .ok groups := hl
    rw [securityGroups.MarkAndSweep_ok { env with respond := respond } acct region set w groups
      hl']
    have hscan := securityGroups.eachGroup_respond env respond acct region groups
      ⟨[], [], [], set, w.emit (.call (.DescribeSecurityGroups region))⟩
    have htd : (securityGroups.sweepListing { env with respond := respond } acct region groups
        set (w.emit (.call (.DescribeSecurityGroups region)))).toDelete
        = (securityGroups.sweepListing env acct region groups set
          (w.emit (.call (.DescribeSecurityGroups region)))).toDelete := by
      rw [securityGroups.sweepListing_toDelete, securityGroups.sweepListing_toDelete, hscan]
    refine ⟨rfl, ?_, htd, ?_⟩
    · simp only
      rw [securityGroups.sweepListing_set, securityGroups.sweepListing_set, hscan]
    · simp only
      rw [securityGroups.sweepListing_calls, securityGroups.sweepListing_calls, htd]

/-- Witness of C13: the mutual-reference example with every revoke and every
delete refused. -/
theorem C13_failures_do_not_stop_deletes_witness :
    refusingEnv.DescribeSecurityGroups (⟨[], 0⟩ : World).trace "us-west-2" = .ok mutualGroups ∧
    (securityGroups.MarkAndSweep refusingEnv "42" "us-west-2" mutualLedger ⟨[], 0⟩).1 = none ∧
    (∃ issued,
      calls (securityGroups.MarkAndSweep refusingEnv "42" "us-west-2" mutualLedger
          ⟨[], 0⟩).2.2.trace
        = calls (⟨[], 0⟩ : World).trace ++ ApiCall.DescribeSecurityGroups "us-west-2" :: issued ∧
      deleteAttempts "us-west-2" issued
        = (securityGroups.sweepListing refusingEnv "42" "us-west-2" mutualGroups mutualLedger
            ((⟨[], 0⟩ : World).emit (.call (.DescribeSecurityGroups "us-west-2")))).toDelete.map
            (fun sg => sg.ID)) :=
  ⟨rfl,
    (C13_failures_do_not_stop_deletes refusingEnv "42" "us-west-2" mutualLedger ⟨[], 0⟩
      mutualGroups rfl).1,
    (C13_failures_do_not_stop_deletes refusingEnv "42" "us-west-2" mutualLedger ⟨[], 0⟩
      mutualGroups rfl).2.1⟩

/-! ## Claims on ARNs -/

theorem List.split_unique (c : Char) (l1 l2 t1 t2 : List Char) (h1 : c ∉ l1) (h2 : c ∉ l2)
    (h : l1 ++ c :: t1 = l2 ++ c :: t2) : l1 = l2 ∧ t1 = t2 := by
  induction l1 generalizing l2 with
  | nil =>
    cases l2 with
    | nil => simpa using h
    | cons b l2 =>
      simp only [List.nil_append, List.cons_append, List.cons.injEq] at h
      exact absurd h.1 (fun hc => h2 (hc ▸ List.mem_cons_self _ _))
  | cons a l1 ih =>
    cases l2 with
    | nil =>
      simp only [List.nil_append, List.cons_append, List.cons.injEq] at h
      exact absurd h.1.symm (fun hc => h1 (hc ▸ List.mem_cons_self _ _))
    | cons b l2 =>
      simp only [List.cons_append, List.cons.injEq] at h
      have h1' : c ∉ l1 := fun hc => h1 (List.mem_cons_of_mem _ hc)
      have h2' : c ∉ l2 := fun hc => h2 (List.mem_cons_of_mem _ hc)
      obtain ⟨e1, e2⟩ := ih l2 h1' h2' h.2
      exact ⟨by rw [h.1, e1], e2⟩

theorem ec2ARN_data (kind region acct id : String) :
    (ec2ARN kind region acct id).data
      = "arn:aws:ec2:".data ++
        (region.data ++ ':' :: (acct.data ++ ':' :: (kind.data ++ '/' :: id.data))) := by
  unfold ec2ARN
  simp only [String.data_append, List.append_assoc]
  rfl

theorem ec2ARN_injective (k1 k2 r1 r2 a1 a2 i1 i2 : String)
    (hk1 : '/' ∉ k1.data) (hk2 : '/' ∉ k2.data)
    (hr1 : ':' ∉ r1.data) (hr2 : ':' ∉ r2.data)
    (ha1 : ':' ∉ a1.data) (ha2 : ':' ∉ a2.data)
    (h : ec2ARN k1 r1 a1 i1 = ec2ARN k2 r2 a2 i2) :
    k1 = k2 ∧ r1 = r2 ∧ a1 = a2 ∧ i1 = i2 := by
  have hd : (ec2ARN k1 r1 a1 i1).data = (ec2ARN k2 r2 a2 i2).data := by rw [h]
  rw [ec2ARN_data, ec2ARN_data] at hd
  have h0 := List.append_cancel_left hd
  obtain ⟨er, h1⟩ := List.split_unique ':' _ _ _ _ hr1 hr2 h0
  obtain ⟨ea, h2⟩ := List.split_unique ':' _ _ _ _ ha1 ha2 h1
  obtain ⟨ek, ei⟩ := List.split_unique '/' _ _ _ _ hk1 hk2 h2
  exact ⟨String.ext ek, String.ext er, String.ext ea, String.ext ei⟩

theorem ec2Resource.ARN_eq (x : ec2Resource) :
    x.ARN = ec2ARN x.kind x.Region x.Account x.ID := by
  cases x <;> rfl

theorem ec2Resource.kind_no_slash (x : ec2Resource) : '/' ∉ x.kind.data := by
  cases x <;> simp only [ec2Resource.kind] <;> decide

theorem ec2Resource.ext_fields (x y : ec2Resource) (hk : x.kind = y.kind)
    (hr : x.Region = y.Region) (ha : x.Account = y.Account) (hi : x.ID = y.ID) : x = y := by
  cases x <;> cases y <;>
    first
    | (exact absurd hk (by simp only [ec2Resource.kind]; decide))
    | (rename_i p q; cases p; cases q
       simp only [ec2Resource.Region, ec2Resource.Account, ec2Resource.ID] at hr ha hi
       subst hr ha hi; rfl)

theorem splitChars_no_sep (sep : Char) (l : List Char) :
    ∀ piece ∈ splitChars sep l, sep ∉ piece := by
  induction l with
  | nil => simp [splitChars]
  | cons c cs ih =>
    unfold splitChars
    by_cases hc : c = sep
    · rw [if_pos hc]
      intro piece hp
      simp only [List.mem_cons] at hp
      rcases hp with rfl | hp
      · simp
      · exact ih piece hp
    · rw [if_neg hc]
      cases hs : splitChars sep cs with
      | nil => 
        intro piece hp
        simp only [List.mem_singleton] at hp
        subst hp
        simp only [List.mem_singleton]
        exact fun h => hc h.symm
      | cons p ps =>
        rw [hs] at ih
        intro piece hp
        simp only [List.mem_cons] at hp
        rcases hp with rfl | hp
        · simp only [List.mem_cons, not_or]
          exact ⟨fun h => hc h.symm, ih p (List.mem_cons_self _ _)⟩
        · exact ih piece (List.mem_cons_of_mem _ hp)

theorem parseARN_account_no_colon (s : String) (a : arn) (h : parseARN s = .ok a) :
    ':' ∉ a.account.data := by
  unfold parseARN at h
  have hall := splitChars_no_sep ':' s.data
  generalize splitChars ':' s.data = pieces at h hall
  match pieces, h, hall with
  | [q0, q1, q2, q3, q4, q5], h, hall =>
    simp only [List.map_cons, List.map_nil] at h
    have h4 : ':' ∉ q4 := hall q4 (by simp)
    split at h
    · cases h
    · split at h <;>
      · cases h
        exact h4

theorem getAccount_no_colon (user : Except String String) (acct : String)
    (h : getAccount user = .ok acct) : ':' ∉ acct.data := by
  unfold getAccount at h
  cases user with
  | error err => cases h
  | ok userArn =>
    simp only at h
    cases hp : parseARN userArn with
    | error err => rw [hp] at h; cases h
    | ok a =>
      rw [hp] at h
      simp only [Except.ok.injEq] at h
      subst h
      exact parseARN_account_no_colon userArn a hp

theorem ec2Resource.ARN_injective (x y : ec2Resource)
    (hxr : ':' ∉ x.Region.data) (hxa : ':' ∉ x.Account.data)
    (hyr : ':' ∉ y.Region.data) (hya : ':' ∉ y.Account.data)
    (h : x.ARN = y.ARN) : x = y := by
  rw [ec2Resource.ARN_eq, ec2Resource.ARN_eq] at h
  obtain ⟨ek, er, ea, ei⟩ := ec2ARN_injective _ _ _ _ _ _ _ _ x.kind_no_slash y.kind_no_slash
    hxr hyr hxa hya h
  exact ec2Resource.ext_fields x y ek er ea ei

/-- C12: two resources of the eight kinds built from region, account and local
id that differ in category, region, account or local id have different ARNs,
so they never share a ledger key.  The account of each is one that
`getAccount` returned, hence a piece of the caller ARN split at its colons;
the regions hold no colon, as every region whose listing answers does. -/
theorem C12_distinct_resources_distinct_arns (x y : ec2Resource)
    (ux uy : Except String String)
    (hxa : getAccount ux = .ok x.Account) (hya : getAccount uy = .ok y.Account)
    (hxr : ':' ∉ x.Region.data) (hyr : ':' ∉ y.Region.data)
    (hne : x.kind ≠ y.kind ∨ x.Region ≠ y.Region ∨ x.Account ≠ y.Account ∨ x.ID ≠ y.ID) :
    x.ARN ≠ y.ARN ∧ x ≠ y := by
  have hxy : x ≠ y := by
    intro h
    subst h
    simp at hne
  refine ⟨?_, hxy⟩
  intro h
  exact hxy (ec2Resource.ARN_injective x y hxr (getAccount_no_colon ux _ hxa) hyr
    (getAccount_no_colon uy _ hya) h)

/-- Witness of C12: an instance and a subnet of the same region and account
with the same local id, the account being that of the caller
`arn:aws:iam::42:user/janitor`. -/
theorem C12_distinct_resources_distinct_arns_witness :
    getAccount (.ok "arn:aws:iam::42:user/janitor")
      = .ok (ec2Resource.ofInstance ⟨"42", "us-west-2", "x-1"⟩).Account ∧
    (ec2Resource.ofInstance ⟨"42", "us-west-2", "x-1"⟩).kind
      ≠ (ec2Resource.ofSubnet ⟨"42", "us-west-2", "x-1"⟩).kind ∧
    (ec2Resource.ofInstance ⟨"42", "us-west-2", "x-1"⟩).ARN
      ≠ (ec2Resource.ofSubnet ⟨"42", "us-west-2", "x-1"⟩).ARN :=
  ⟨rfl, by decide,
    (C12_distinct_resources_distinct_arns (ec2Resource.ofInstance ⟨"42", "us-west-2", "x-1"⟩)
      (ec2Resource.ofSubnet ⟨"42", "us-west-2", "x-1"⟩)
      (.ok "arn:aws:iam::42:user/janitor") (.ok "arn:aws:iam::42:user/janitor") rfl rfl
      (by decide) (by decide) (Or.inl (by decide))).1⟩

/-! ## Lemmas on RFC 3339 timestamps -/

theorem digitVal_digitChar (d : Nat) (h : d < 10) : digitVal (digitChar d) = some d := by
  interval_cases d <;> rfl

theorem readDigits_padDigits (w n acc : Nat) :
    readDigits acc (padDigits w n) = some (acc * 10 ^ w + n % 10 ^ w) := by
  induction w generalizing acc with
  | zero => simp [padDigits, readDigits, Nat.mod_one]
  | succ w ih =>
    simp only [padDigits, readDigits,
      digitVal_digitChar (n / 10 ^ w % 10) (Nat.mod_lt _ (by norm_num))]
    rw [ih, Nat.mod_pow_succ]
    congr 1
    ring

theorem readFrac_fracDigits (w n : Nat) :
    readFrac w (fracDigits w n) = some (n % 10 ^ w) := by
  induction w with
  | zero => simp [fracDigits, readFrac, Nat.mod_one]
  | succ w ih =>
    unfold fracDigits
    by_cases h : n % 10 ^ (w + 1) = 0
    · rw [if_pos h, h]; rfl
    · rw [if_neg h]
      simp only [readFrac, digitVal_digitChar (n / 10 ^ w % 10) (Nat.mod_lt _ (by norm_num)), ih]
      rw [Nat.mod_pow_succ]
      congr 1
      ring

theorem fracDigits_digits (w n : Nat) : ∀ c ∈ fracDigits w n, (digitVal c).isSome = true := by
  induction w with
  | zero => simp [fracDigits]
  | succ w ih =>
    unfold fracDigits
    by_cases h : n % 10 ^ (w + 1) = 0
    · simp [h]
    · rw [if_neg h]
      intro c hc
      simp only [List.mem_cons] at hc
      rcases hc with rfl | hc
      · rw [digitVal_digitChar _ (Nat.mod_lt _ (by norm_num))]; rfl
      · exact ih c hc

theorem fracDigits_ne_nil (w n : Nat) (h : n % 10 ^ w ≠ 0) : fracDigits w n ≠ [] := by
  cases w with
  | zero => simp [Nat.mod_one] at h
  | succ w => unfold fracDigits; rw [if_neg h]; simp

theorem span_append_stop {α : Type} (p : α → Bool) (l : List α) (a : α) (r : List α)
    (hl : ∀ x ∈ l, p x = true) (ha : p a = false) : (l ++ a :: r).span p = (l, a :: r) := by
  rw [List.span_eq_take_drop]
  induction l with
  | nil => simp [List.takeWhile_cons, List.dropWhile_cons, ha]
  | cons x l ih =>
    have hx : p x = true := hl x (List.mem_cons_self _ _)
    have h := ih (fun y hy => hl y (List.mem_cons_of_mem _ hy))
    simp only [Prod.mk.injEq] at h
    simp [List.takeWhile_cons, List.dropWhile_cons, hx, h.1, h.2]

theorem yoe_lemma (doe n100 r n4 r2 n1 yoe doy : Int) (h0 : 0 ≤ doe) (h1 : doe ≤ 146096)
    (hn100 : n100 = min (doe / 36524) 3) (hr : r = doe - 36524 * n100)
    (hn4 : n4 = r / 1461) (hr2 : r2 = r - 1461 * n4)
    (hn1 : n1 = min (r2 / 365) 3) (hyoe : yoe = 100 * n100 + 4 * n4 + n1)
    (hdoy : doy = r2 - 365 * n1) :
    0 ≤ yoe ∧ yoe ≤ 399 ∧ 0 ≤ doy ∧ doy ≤ 365 ∧
      yoe * 365 + yoe / 4 - yoe / 100 + doy = doe ∧
      (doy = 365 → (yoe + 1) % 4 = 0 ∧ ((yoe + 1) % 100 ≠ 0 ∨ yoe = 399)) := by
  have a1 : 0 ≤ n100 ∧ n100 ≤ 3 := by omega
  have a2 : 0 ≤ r ∧ r ≤ 36524 := by omega
  have a3 : 0 ≤ n4 ∧ n4 ≤ 24 := by omega
  have a4 : 0 ≤ r2 ∧ r2 ≤ 1460 := by omega
  have a5 : 0 ≤ n1 ∧ n1 ≤ 3 := by omega
  have a6 : 0 ≤ doy ∧ doy ≤ 365 := by omega
  have a7 : yoe / 4 = 25 * n100 + n4 := by omega
  have a8 : yoe / 100 = n100 := by omega
  refine ⟨by omega, by omega, a6.1, a6.2, ?_, ?_⟩
  · rw [a7, a8]
    omega
  · intro h365
    have b1 : n1 = 3 := by omega
    have b2 : r2 = 1460 := by omega
    refine ⟨by omega, ?_⟩
    by_cases hn : n4 = 24
    · right
      have : r = 36524 := by omega
      have : n100 = 3 := by omega
      omega
    · left
      have : n4 ≤ 23 := by omega
      omega

theorem mp_lemma (doy mp : Int) (h0 : 0 ≤ doy) (h1 : doy ≤ 365)
    (hmp : mp = (5 * doy + 2) / 153) :
    0 ≤ mp ∧ mp ≤ 11 ∧ 1 ≤ doy - (153 * mp + 2) / 5 + 1 ∧
      (mp = 11 → doy - (153 * mp + 2) / 5 + 1 ≤ 29 ∧
        (doy - (153 * mp + 2) / 5 + 1 = 29 → doy = 365)) ∧
      (mp ≠ 11 → doy - (153 * mp + 2) / 5 + 1
        ≤ (if mp = 1 ∨ mp = 3 ∨ mp = 6 ∨ mp = 8 then 30 else 31)) := by
  have a1 : 0 ≤ mp ∧ mp ≤ 11 := by omega
  have : mp = 0 ∨ mp = 1 ∨ mp = 2 ∨ mp = 3 ∨ mp = 4 ∨ mp = 5 ∨ mp = 6 ∨ mp = 7 ∨ mp = 8 ∨
      mp = 9 ∨ mp = 10 ∨ mp = 11 := by omega
  refine ⟨a1.1, a1.2, by omega, ?_, ?_⟩
  · intro h11
    subst h11
    constructor <;> omega
  · intro hne
    rcases this with h | h | h | h | h | h | h | h | h | h | h | h <;> subst h <;>
      first
      | (exfalso; exact hne rfl)
      | (simp only [reduceIte] ; omega)
      | (norm_num; omega)

theorem civil_core (z era doe yoe doy mp y m d : Int)
    (hera : era = (z + 719468) / 146097) (hdoe : doe = (z + 719468) % 146097)
    (y0 : 0 ≤ yoe) (y1 : yoe ≤ 399)
    (hsum : yoe * 365 + yoe / 4 - yoe / 100 + doy = doe)
    (hleap : doy = 365 → (yoe + 1) % 4 = 0 ∧ ((yoe + 1) % 100 ≠ 0 ∨ yoe = 399))
    (m0 : 0 ≤ mp) (m1 : mp ≤ 11) (dd0 : 1 ≤ doy - (153 * mp + 2) / 5 + 1)
    (hfeb : mp = 11 → doy - (153 * mp + 2) / 5 + 1 ≤ 29 ∧
      (doy - (153 * mp + 2) / 5 + 1 = 29 → doy = 365))
    (hmon : mp ≠ 11 → doy - (153 * mp + 2) / 5 + 1
      ≤ (if mp = 1 ∨ mp = 3 ∨ mp = 6 ∨ mp = 8 then 30 else 31))
    (hm : m = if mp < 10 then mp + 3 else mp - 9)
    (hd : d = doy - (153 * mp + 2) / 5 + 1)
    (hy : y = yoe + era * 400 + (if m ≤ 2 then 1 else 0)) :
    daysFromCivil y m d = z ∧ 1 ≤ m ∧ m ≤ 12 ∧ 1 ≤ d ∧ d ≤ daysIn y m := by
  have e1 : (yoe + era * 400) / 400 = era := by omega
  have e2 : (yoe + era * 400) % 400 = yoe := by omega
  have hz : era * 146097 + doe - 719468 = z := by omega
  have hmp' : (if m > 2 then m - 3 else m + 9) = mp := by
    rw [hm]; split_ifs <;> omega
  have hy1 : (if m ≤ 2 then y - 1 else y) = yoe + era * 400 := by
    rw [hy]; split_ifs <;> omega
  refine ⟨?_, ?_, ?_, ?_, ?_⟩
  · unfold daysFromCivil
    simp only [hmp', hy1, e1, e2]
    omega
  · rw [hm]; split_ifs <;> omega
  · rw [hm]; split_ifs <;> omega
  · omega
  · unfold daysIn
    by_cases h11 : mp = 11
    · have hm2 : m = 2 := by rw [hm]; split_ifs <;> omega
      obtain ⟨f1, f2⟩ := hfeb h11
      have hyy : y = yoe + 1 + era * 400 := by rw [hy, hm2]; simp; ring
      rw [if_pos hm2]
      by_cases h29 : d = 29
      · have hl := hleap (f2 (by omega))
        have c1 : y % 4 = 0 := by omega
        have c2 : y % 100 ≠ 0 ∨ y % 400 = 0 := by
          rcases hl.2 with h | h
          · left; omega
          · right; omega
        rw [if_pos ⟨c1, c2⟩]; omega
      · split_ifs <;> omega
    · have hmon' := hmon h11
      have hne2 : m ≠ 2 := by rw [hm]; split_ifs <;> omega
      rw [if_neg hne2]
      have hmpc : mp = 0 ∨ mp = 1 ∨ mp = 2 ∨ mp = 3 ∨ mp = 4 ∨ mp = 5 ∨ mp = 6 ∨ mp = 7 ∨
          mp = 8 ∨ mp = 9 ∨ mp = 10 := by omega
      rcases hmpc with h | h | h | h | h | h | h | h | h | h | h <;> subst h <;>
        norm_num at hmon' hm <;> subst hm <;> norm_num <;> omega

theorem civilFromDays_spec (z y m d : Int) (h : civilFromDays z = (y, m, d)) :
    daysFromCivil y m d = z ∧ 1 ≤ m ∧ m ≤ 12 ∧ 1 ≤ d ∧ d ≤ daysIn y m := by
  unfold civilFromDays at h
  simp only [Prod.mk.injEq] at h
  obtain ⟨hy, hm, hd⟩ := h
  have h0 : 0 ≤ (z + 719468) % 146097 := Int.emod_nonneg _ (by norm_num)
  have h1 : (z + 719468) % 146097 ≤ 146096 := by
    have := Int.emod_lt_of_pos (z + 719468) (show (0 : Int) < 146097 by norm_num)
    omega
  obtain ⟨y0, y1, d0, d1, hdoe, hleap⟩ := yoe_lemma ((z + 719468) % 146097) _ _ _ _ _ _ _ h0 h1
    rfl rfl rfl rfl rfl rfl rfl
  obtain ⟨m0, m1, dd0, hfeb, hmon⟩ := mp_lemma _ _ d0 d1 rfl
  rw [hm] at hy
  exact civil_core z _ _ _ _ _ y m d rfl rfl y0 y1 hdoe hleap m0 m1 dd0 hfeb hmon hm.symm
    hd.symm hy.symm

theorem parseTime_fields (Y M D H N S : Nat) (rest : List Char) (frac : Nat) (off : Int)
    (hrest : parseFracZone rest = some (frac, off))
    (hY : Y < 10000) (hM : M < 100) (hD : D < 100) (hH : H < 100) (hN : N < 100)
    (hS : S < 100)
    (hv : 1 ≤ M ∧ M ≤ 12 ∧ 1 ≤ D ∧ (D : Int) ≤ daysIn Y M ∧ H < 24 ∧ N < 60 ∧ S < 60) :
    parseTime (padDigits 4 Y ++ '-' :: padDigits 2 M ++ '-' :: padDigits 2 D ++ 'T' ::
        padDigits 2 H ++ ':' :: padDigits 2 N ++ ':' :: padDigits 2 S ++ rest)
      = some (((daysFromCivil Y M D * 86400 + (H : Int) * 3600 + (N : Int) * 60 + (S : Int))
          - off) * 1000000000 + (frac : Int)) := by
  have e4 := readDigits_padDigits 4 Y 0
  have eM := readDigits_padDigits 2 M 0
  have eD := readDigits_padDigits 2 D 0
  have eH := readDigits_padDigits 2 H 0
  have eN := readDigits_padDigits 2 N 0
  have eS := readDigits_padDigits 2 S 0
  rw [Nat.mod_eq_of_lt (by norm_num; exact hY)] at e4
  rw [Nat.mod_eq_of_lt (by norm_num; exact hM)] at eM
  rw [Nat.mod_eq_of_lt (by norm_num; exact hD)] at eD
  rw [Nat.mod_eq_of_lt (by norm_num; exact hH)] at eH
  rw [Nat.mod_eq_of_lt (by norm_num; exact hN)] at eN
  rw [Nat.mod_eq_of_lt (by norm_num; exact hS)] at eS
  simp only [padDigits, Nat.zero_mul, Nat.zero_add] at e4 eM eD eH eN eS
  simp only [padDigits, List.cons_append, List.nil_append, parseTime, and_self, if_true,
    e4, eM, eD, eH, eN, eS, hrest]
  rw [if_pos hv]

theorem zoneText_head (z : Int) :
    ∃ a r, zoneText z = a :: r ∧ (a = 'Z' ∨ a = '+' ∨ a = '-') := by
  unfold zoneText
  by_cases h0 : z = 0
  · rw [if_pos h0]; exact ⟨_, _, rfl, Or.inl rfl⟩
  · rw [if_neg h0]
    by_cases hn : z < 0
    · rw [if_pos hn]; exact ⟨_, _, rfl, Or.inr (Or.inr rfl)⟩
    · rw [if_neg hn]; exact ⟨_, _, rfl, Or.inr (Or.inl rfl)⟩

theorem parseZone_digits (n : Nat) (hn : n < 1440) (sign : Char)
    (hs : sign = '+' ∨ sign = '-') :
    parseZone (sign :: (padDigits 2 (n / 60) ++ ':' :: padDigits 2 (n % 60)))
      = some ((if sign = '-' then -1 else 1) * ((n : Int) * 60)) := by
  have eh := readDigits_padDigits 2 (n / 60) 0
  have em := readDigits_padDigits 2 (n % 60) 0
  have hh : n / 60 < 24 := by omega
  have hm : n % 60 < 60 := by omega
  rw [Nat.mod_eq_of_lt (show n / 60 < 10 ^ 2 by norm_num; omega)] at eh
  rw [Nat.mod_eq_of_lt (show n % 60 < 10 ^ 2 by norm_num; omega)] at em
  simp only [padDigits, Nat.zero_mul, Nat.zero_add] at eh em
  have hsplit : ((n / 60 : Nat) : Int) * 3600 + ((n % 60 : Nat) : Int) * 60 = (n : Int) * 60 := by
    omega
  have hs2 : sign = '+' ∨ sign = '-' := hs
  simp only [padDigits, List.cons_append, List.nil_append, parseZone, true_and, if_true,
    eh, em, hh, hm, and_self, hs2, Option.some.injEq]
  rw [← hsplit]

theorem parseZone_zoneText (z : Int) (h : -1440 < z ∧ z < 1440) :
    parseZone (zoneText z) = some (z * 60) := by
  unfold zoneText
  by_cases h0 : z = 0
  · rw [if_pos h0, h0]; rfl
  · rw [if_neg h0]
    have hlt : z.natAbs < 1440 := by omega
    by_cases hn : z < 0
    · rw [if_pos hn, parseZone_digits _ hlt '-' (Or.inr rfl), if_pos rfl]
      have habs : (z.natAbs : Int) = -z := by omega
      rw [habs]
      ring_nf
    · rw [if_neg hn, parseZone_digits _ hlt '+' (Or.inl rfl), if_neg (by decide)]
      have habs : (z.natAbs : Int) = z := by omega
      rw [habs]
      ring_nf

theorem parseFracZone_zoneText (nanos : Nat) (h : nanos < 1000000000) (z : Int)
    (hz : -1440 < z ∧ z < 1440) :
    parseFracZone ((if (nanos : Int) = 0 then [] else '.' :: fracDigits 9 nanos) ++ zoneText z)
      = some (nanos, z * 60) := by
  have hpz := parseZone_zoneText z hz
  obtain ⟨a, r, hzt, ha⟩ := zoneText_head z
  rw [hzt] at hpz ⊢
  have hadot : a ≠ '.' := by
    rcases ha with rfl | rfl | rfl <;> decide
  have hadig : (digitVal a).isSome = false := by
    rcases ha with rfl | rfl | rfl <;> decide
  by_cases h0 : (nanos : Int) = 0
  · have : nanos = 0 := by exact_mod_cast h0
    subst this
    simp only [parseFracZone, if_true, List.nil_append, if_neg hadot, hpz, Nat.cast_zero]
  · have hn : nanos ≠ 0 := fun hh => h0 (by exact_mod_cast hh)
    have hmod : nanos % 10 ^ 9 = nanos := Nat.mod_eq_of_lt (by norm_num; exact h)
    rw [if_neg h0]
    have hspan := span_append_stop (fun x => (digitVal x).isSome) (fracDigits 9 nanos) a r
      (fracDigits_digits 9 nanos) hadig
    have hne := fracDigits_ne_nil 9 nanos (by rw [hmod]; exact hn)
    have hfrac := readFrac_fracDigits 9 nanos
    rw [hmod] at hfrac
    simp only [parseFracZone, List.cons_append, if_true]
    rw [hspan]
    cases hf : fracDigits 9 nanos with
    | nil => exact absurd hf hne
    | cons c cs =>
      rw [hf] at hfrac
      simp only [hfrac, hpz]

/-- The decoder reads the text of the encoder for an instant back as that
instant, whatever the zone it is shown in. -/
theorem parseTime_formatTime (z t : Int) (hz : -1440 < z ∧ z < 1440) (l : List Char)
    (h : formatTime z t = .ok l) : parseTime l = some t := by
  unfold formatTime at h
  simp only at h
  generalize hu : t + z * 60000000000 = u at h
  obtain ⟨hdays, hm1, hm12, hd1, hdin⟩ := civilFromDays_spec (u / 1000000000 / 86400)
    (civilFromDays (u / 1000000000 / 86400)).1 (civilFromDays (u / 1000000000 / 86400)).2.1
    (civilFromDays (u / 1000000000 / 86400)).2.2 rfl
  generalize (civilFromDays (u / 1000000000 / 86400)).1 = y at *
  generalize (civilFromDays (u / 1000000000 / 86400)).2.1 = m at *
  generalize (civilFromDays (u / 1000000000 / 86400)).2.2 = d at *
  by_cases hy : y < 0 ∨ 9999 < y
  · rw [if_pos hy] at h; cases h
  · rw [if_neg hy] at h
    simp only [Except.ok.injEq] at h
    subst h
    have hy0 : 0 ≤ y := by omega
    have hy9 : y ≤ 9999 := by omega
    have hd31 : d ≤ 31 := by
      unfold daysIn at hdin
      split_ifs at hdin <;> omega
    obtain ⟨Y, rfl⟩ := Int.eq_ofNat_of_zero_le hy0
    obtain ⟨M, rfl⟩ := Int.eq_ofNat_of_zero_le (show (0 : Int) ≤ m by omega)
    obtain ⟨D, rfl⟩ := Int.eq_ofNat_of_zero_le (show (0 : Int) ≤ d by omega)
    obtain ⟨H, hH⟩ := Int.eq_ofNat_of_zero_le
      (show (0 : Int) ≤ u / 1000000000 % 86400 / 3600 by omega)
    obtain ⟨N, hN⟩ := Int.eq_ofNat_of_zero_le
      (show (0 : Int) ≤ u / 1000000000 % 86400 % 3600 / 60 by omega)
    obtain ⟨S, hS⟩ := Int.eq_ofNat_of_zero_le
      (show (0 : Int) ≤ u / 1000000000 % 86400 % 60 by omega)
    obtain ⟨F, hF⟩ := Int.eq_ofNat_of_zero_le (show (0 : Int) ≤ u % 1000000000 by omega)
    rw [hH, hN, hS, hF]
    simp only [Int.toNat_ofNat]
    rw [List.append_assoc]
    rw [parseTime_fields Y M D H N S _ F (z * 60) (parseFracZone_zoneText F (by omega) z hz)
      (by omega) (by omega) (by omega) (by omega) (by omega) (by omega)
      ⟨by omega, by omega, by omega, hdin, by omega, by omega, by omega⟩]
    rw [hdays]
    congr 1
    omega

/-! ## Lemmas on JSON strings -/

theorem hexVal_hexDigit (d : Nat) (h : d < 16) : hexVal (hexDigit d) = some d := by
  interval_cases d <;> rfl

theorem readHex4_hex4 (n : Nat) (h : n < 65536) :
    ∃ a1 a2 a3 a4, hex4 n = [a1, a2, a3, a4] ∧ readHex4 a1 a2 a3 a4 = some n := by
  refine ⟨_, _, _, _, rfl, ?_⟩
  unfold readHex4
  rw [hexVal_hexDigit _ (Nat.mod_lt _ (by decide)), hexVal_hexDigit _ (Nat.mod_lt _ (by decide)),
    hexVal_hexDigit _ (Nat.mod_lt _ (by decide)), hexVal_hexDigit _ (Nat.mod_lt _ (by decide))]
  simp only [Option.some.injEq]
  omega

theorem decodeUnit_plain (n : Nat) (h : n < 55296) (rest : List Char) :
    decodeUnit n rest = (Char.ofNat n, 0) := by
  unfold decodeUnit
  rw [if_neg (by omega)]

theorem escapeChar_length (c : Char) : 1 ≤ (escapeChar c).length := by
  unfold escapeChar
  split_ifs <;> simp [hex4]

theorem unquoteBody_two (e x : Char) (fuel : Nat) (tail s rest : List Char)
    (he : e ≠ 'u') (hx : escapeValue e = some x)
    (h : unquoteBody fuel tail = some (s, rest)) :
    unquoteBody (fuel + 1) (backslash :: e :: tail) = some (x :: s, rest) := by
  have hr : readEscape (e :: tail) = some (x, tail) := by
    simp only [readEscape, if_neg he, hx]
  rw [unquoteBody, if_neg (by decide), if_pos rfl, hr]
  simp only [h, Option.map_some']

theorem unquoteBody_hex (n : Nat) (hn : n < 55296) (fuel : Nat) (tail s rest : List Char)
    (h : unquoteBody fuel tail = some (s, rest)) :
    unquoteBody (fuel + 1) (backslash :: 'u' :: (hex4 n ++ tail)) =
      some (Char.ofNat n :: s, rest) := by
  obtain ⟨a1, a2, a3, a4, e, hr⟩ := readHex4_hex4 n (by omega)
  have hr : readEscape ('u' :: (hex4 n ++ tail)) = some (Char.ofNat n, tail) := by
    rw [e]
    simp only [readEscape, List.cons_append, List.nil_append, if_true, hr,
      decodeUnit_plain _ hn, List.drop_zero]
  rw [unquoteBody, if_neg (by decide), if_pos rfl, hr]
  simp only [h, Option.map_some']

theorem unquoteBody_raw (c : Char) (h1 : c ≠ quoteChar) (h2 : c ≠ backslash)
    (h3 : ¬ c.toNat < 32) (fuel : Nat) (tail s rest : List Char)
    (h : unquoteBody fuel tail = some (s, rest)) :
    unquoteBody (fuel + 1) (c :: tail) = some (c :: s, rest) := by
  rw [unquoteBody, if_neg h1, if_neg h2, if_neg h3]
  simp only [h, Option.map_some']

/-- Reading back one escaped character. -/
theorem unquoteBody_escapeChar (c : Char) (fuel : Nat) (tail s rest : List Char)
    (h : unquoteBody fuel tail = some (s, rest)) :
    unquoteBody (fuel + 1) (escapeChar c ++ tail) = some (c :: s, rest) := by
  unfold escapeChar
  by_cases h1 : c = quoteChar
  · rw [if_pos h1, h1]
    exact unquoteBody_two quoteChar quoteChar fuel tail s rest (by decide) rfl h
  rw [if_neg h1]
  by_cases h2 : c = backslash
  · rw [if_pos h2, h2]
    exact unquoteBody_two backslash backslash fuel tail s rest (by decide) rfl h
  rw [if_neg h2]
  by_cases h3 : c.toNat = 10
  · rw [if_pos h3]
    have hc : c = Char.ofNat 10 := by rw [← h3, Char.ofNat_toNat]
    rw [hc]
    exact unquoteBody_two 'n' _ fuel tail s rest (by decide) rfl h
  rw [if_neg h3]
  by_cases h4 : c.toNat = 13
  · rw [if_pos h4]
    have hc : c = Char.ofNat 13 := by rw [← h4, Char.ofNat_toNat]
    rw [hc]
    exact unquoteBody_two 'r' _ fuel tail s rest (by decide) rfl h
  rw [if_neg h4]
  by_cases h5 : c.toNat = 9
  · rw [if_pos h5]
    have hc : c = Char.ofNat 9 := by rw [← h5, Char.ofNat_toNat]
    rw [hc]
    exact unquoteBody_two 't' _ fuel tail s rest (by decide) rfl h
  rw [if_neg h5]
  by_cases h6 : c.toNat < 32 ∨ c = '<' ∨ c = '>' ∨ c = '&' ∨ c.toNat = 8232 ∨ c.toNat = 8233
  · rw [if_pos h6]
    have hn : c.toNat < 55296 := by
      rcases h6 with h6 | h6 | h6 | h6 | h6 | h6
      · omega
      · rw [h6]; decide
      · rw [h6]; decide
      · rw [h6]; decide
      · omega
      · omega
    have := unquoteBody_hex c.toNat hn fuel tail s rest h
    rw [Char.ofNat_toNat] at this
    exact this
  rw [if_neg h6]
  exact unquoteBody_raw c h1 h2 (fun h => h6 (Or.inl h)) fuel tail s rest h
/-- The decoder reads back what the encoder writes for a string. -/
theorem unquoteBody_escape (s : List Char) (fuel : Nat) (rest : List Char)
    (h : s.length < fuel) :
    unquoteBody fuel (s.flatMap escapeChar ++ quoteChar :: rest) = some (s, rest) := by
  induction s generalizing fuel with
  | nil =>
    obtain ⟨f, rfl⟩ : ∃ f, fuel = f + 1 := ⟨fuel - 1, by simp at h; omega⟩
    simp [unquoteBody]
  | cons c s ih =>
    obtain ⟨f, rfl⟩ : ∃ f, fuel = f + 1 := ⟨fuel - 1, by simp at h; omega⟩
    rw [List.flatMap_cons, List.append_assoc]
    exact unquoteBody_escapeChar c f _ s rest (ih f (by simp at h; omega))

theorem flatMap_escapeChar_length (s : List Char) :
    s.length ≤ (s.flatMap escapeChar).length := by
  induction s with
  | nil => simp
  | cons c s ih =>
    rw [List.flatMap_cons, List.length_append, List.length_cons]
    have := escapeChar_length c
    omega

theorem parseString_quote (s rest : List Char) :
    parseString (quote s ++ rest) = some (s, rest) := by
  unfold quote parseString
  simp only [List.cons_append, List.append_assoc, List.nil_append, if_true]
  apply unquoteBody_escape
  rw [List.length_append, List.length_cons]
  have := flatMap_escapeChar_length s
  omega

/-! ## Lemmas on the JSON object -/

theorem timeChar_ne_quote (c : Char) (h : timeChar c) : c ≠ quoteChar := by
  rintro rfl
  revert h
  unfold timeChar
  decide

theorem padDigits_digits (w n : Nat) : ∀ c ∈ padDigits w n, timeChar c := by
  induction w with
  | zero => simp [padDigits]
  | succ w ih =>
    intro c hc
    simp only [padDigits, List.mem_cons] at hc
    rcases hc with rfl | hc
    · left; rw [digitVal_digitChar _ (Nat.mod_lt _ (by norm_num))]; rfl
    · exact ih c hc

theorem zoneText_chars (z : Int) : ∀ c ∈ zoneText z, timeChar c := by
  intro c hc
  unfold zoneText at hc
  split_ifs at hc
  · simp only [List.mem_singleton] at hc
    subst hc; unfold timeChar; decide
  · simp only [List.mem_cons, List.mem_append] at hc
    rcases hc with rfl | hc | rfl | hc
    · unfold timeChar; decide
    · exact padDigits_digits _ _ c hc
    · unfold timeChar; decide
    · exact padDigits_digits _ _ c hc
  · simp only [List.mem_cons, List.mem_append] at hc
    rcases hc with rfl | hc | rfl | hc
    · unfold timeChar; decide
    · exact padDigits_digits _ _ c hc
    · unfold timeChar; decide
    · exact padDigits_digits _ _ c hc

theorem timeChar_parts (Y M D H N S F Z : List Char)
    (hY : ∀ c ∈ Y, timeChar c) (hM : ∀ c ∈ M, timeChar c) (hD : ∀ c ∈ D, timeChar c)
    (hH : ∀ c ∈ H, timeChar c) (hN : ∀ c ∈ N, timeChar c) (hS : ∀ c ∈ S, timeChar c)
    (hF : ∀ c ∈ F, timeChar c) (hZ : ∀ c ∈ Z, timeChar c) :
    ∀ c ∈ Y ++ '-' :: M ++ '-' :: D ++ 'T' :: H ++ ':' :: N ++ ':' :: S ++ F ++ Z,
      timeChar c := by
  intro c hc
  simp only [List.mem_cons, List.mem_append] at hc
  rcases hc with ((((((hc | rfl | hc) | rfl | hc) | rfl | hc) | rfl | hc) | rfl | hc) | hc) | hc
  · exact hY c hc
  · unfold timeChar; decide
  · exact hM c hc
  · unfold timeChar; decide
  · exact hD c hc
  · unfold timeChar; decide
  · exact hH c hc
  · unfold timeChar; decide
  · exact hN c hc
  · unfold timeChar; decide
  · exact hS c hc
  · exact hF c hc
  · exact hZ c hc

theorem formatTime_chars (z t : Int) (l : List Char) (h : formatTime z t = .ok l) :
    ∀ c ∈ l, timeChar c := by
  unfold formatTime at h
  simp only at h
  split_ifs at h with h1 h2
  · simp only [Except.ok.injEq] at h
    subst h
    exact timeChar_parts _ _ _ _ _ _ _ _ (padDigits_digits _ _) (padDigits_digits _ _)
      (padDigits_digits _ _) (padDigits_digits _ _) (padDigits_digits _ _)
      (padDigits_digits _ _) (fun c hc => absurd hc (List.not_mem_nil c)) (zoneText_chars z)
  · simp only [Except.ok.injEq] at h
    subst h
    refine timeChar_parts _ _ _ _ _ _ _ _ (padDigits_digits _ _) (padDigits_digits _ _)
      (padDigits_digits _ _) (padDigits_digits _ _) (padDigits_digits _ _)
      (padDigits_digits _ _) ?_ (zoneText_chars z)
    intro c hc
    simp only [List.mem_cons] at hc
    rcases hc with rfl | hc
    · unfold timeChar; decide
    · exact Or.inl (fracDigits_digits _ _ c hc)

theorem skipSpace_cons_of_not_space (c : Char) (cs : List Char) (h : isSpace c = false) :
    skipSpace (c :: cs) = c :: cs := by
  unfold skipSpace
  rw [List.dropWhile_cons, h]
  rfl

theorem skipSpace_cons_of_space (c : Char) (cs : List Char) (h : isSpace c = true) :
    skipSpace (c :: cs) = skipSpace cs := by
  unfold skipSpace
  rw [List.dropWhile_cons, h]
  rfl

theorem parseTimeValue_formatTime (z t : Int) (hz : -1440 < z ∧ z < 1440) (l rest : List Char)
    (h : formatTime z t = .ok l) :
    parseTimeValue (quoteChar :: (l ++ quoteChar :: rest)) = some (t, rest) := by
  unfold parseTimeValue
  simp only [if_true]
  rw [span_append_stop _ l quoteChar rest
    (fun c hc => by simpa using timeChar_ne_quote c (formatTime_chars z t l h c hc))
    (by simp)]
  simp only [parseTime_formatTime z t hz l h]

theorem encodeMember_ok (zone : String → Zone) (e : String × Time) (a : List Char)
    (h : encodeMember zone e = .ok a) :
    ∃ text, formatTime (zone e.1).minutes e.2 = .ok text ∧
      a = quote e.1.data ++ ':' :: ' ' :: quoteChar :: (text ++ [quoteChar]) := by
  unfold encodeMember at h
  cases hf : formatTime (zone e.1).minutes e.2 with
  | error err => rw [hf] at h; cases h
  | ok text =>
    rw [hf] at h
    simp only [Except.ok.injEq] at h
    exact ⟨text, rfl, h.symm⟩

theorem encodeMember_head (zone : String → Zone) (e : String × Time) (a : List Char)
    (h : encodeMember zone e = .ok a) : ∃ r, a = quoteChar :: r := by
  obtain ⟨text, _, rfl⟩ := encodeMember_ok zone e a h
  exact ⟨_, rfl⟩

/-- The decoder reads one member of the encoder back as its entry. -/
theorem parseMember_encodeMember (zone : String → Zone) (e : String × Time) (a rest : List Char)
    (h : encodeMember zone e = .ok a) :
    parseMember (a ++ rest) = some (e, skipSpace rest) := by
  obtain ⟨text, hf, rfl⟩ := encodeMember_ok zone e a h
  unfold parseMember
  rw [List.append_assoc, parseString_quote]
  simp only [List.cons_append, List.append_assoc, List.nil_append]
  rw [skipSpace_cons_of_not_space ':' _ (by decide)]
  simp only [if_true]
  rw [skipSpace_cons_of_space ' ' _ (by decide),
    skipSpace_cons_of_not_space quoteChar _ (by decide),
    parseTimeValue_formatTime _ _ (zone e.1).small text rest hf]

theorem joinMembers_cons_cons (a b : List Char) (as : List (List Char)) :
    joinMembers (a :: b :: as) = a ++ ',' :: newline :: ' ' :: ' ' :: joinMembers (b :: as) := by
  rw [joinMembers]

theorem joinMembers_head (b : List Char) (as : List (List Char)) (r : List Char)
    (h : b = quoteChar :: r) : ∃ r2, joinMembers (b :: as) = quoteChar :: r2 := by
  subst h
  cases as with
  | nil => exact ⟨_, rfl⟩
  | cons c cs => rw [joinMembers_cons_cons]; exact ⟨_, rfl⟩

theorem encodeMembers_cons_ok (zone : String → Zone) (e : String × Time)
    (es : List (String × Time)) (ms : List (List Char))
    (h : encodeMembers zone (e :: es) = .ok ms) :
    ∃ a as, encodeMember zone e = .ok a ∧ encodeMembers zone es = .ok as ∧ ms = a :: as := by
  rw [encodeMembers] at h
  cases hea : encodeMember zone e with
  | error err => rw [hea] at h; cases h
  | ok a =>
    rw [hea] at h
    cases hes : encodeMembers zone es with
    | error err => rw [hes] at h; cases h
    | ok as =>
      rw [hes] at h
      simp only [Except.bind, Except.map, Except.ok.injEq] at h
      exact ⟨a, as, rfl, rfl, h.symm⟩

theorem encodeMembers_nil_ok (zone : String → Zone) (ms : List (List Char))
    (h : encodeMembers zone [] = .ok ms) : ms = [] := by
  rw [encodeMembers] at h
  simp only [Except.ok.injEq] at h
  exact h.symm

/-- The decoder reads the members of the encoder back, one assignment for
each. -/
theorem parseMembers_joinMembers (zone : String → Zone) (es : List (String × Time)) :
    ∀ (ms : List (List Char)) (fuel : Nat) (acc : GoMap Time) (tail : List Char),
      es ≠ [] → encodeMembers zone es = .ok ms → es.length ≤ fuel →
      parseMembers fuel (joinMembers ms ++ newline :: rbrace :: tail) acc
        = some (es.foldl (fun a e => a.set e.1 e.2) acc) := by
  induction es with
  | nil => intro _ _ _ _ h; exact absurd rfl h
  | cons e es ih =>
    intro ms fuel acc tail _ hms hfuel
    obtain ⟨f, rfl⟩ : ∃ f, fuel = f + 1 := ⟨fuel - 1, by simp at hfuel; omega⟩
    obtain ⟨a, as, hea, hes, rfl⟩ := encodeMembers_cons_ok zone e es ms hms
    cases es with
    | nil =>
      have := encodeMembers_nil_ok zone as hes
      subst this
      rw [parseMembers]
      simp only [joinMembers]
      rw [parseMember_encodeMember zone e a _ hea,
        skipSpace_cons_of_space newline _ (by decide),
        skipSpace_cons_of_not_space rbrace _ (by decide)]
      simp only [List.foldl_cons, List.foldl_nil]
      rw [if_neg (by decide), if_pos trivial]
    | cons e2 es2 =>
      obtain ⟨a2, as2, hea2, hes2, rfl⟩ := encodeMembers_cons_ok zone e2 es2 as hes
      obtain ⟨r, hr⟩ := encodeMember_head zone e2 a2 hea2
      obtain ⟨r2, hr2⟩ := joinMembers_head a2 as2 r hr
      rw [parseMembers, joinMembers_cons_cons, List.append_assoc]
      simp only [List.cons_append]
      rw [parseMember_encodeMember zone e a _ hea,
        skipSpace_cons_of_not_space ',' _ (by decide)]
      simp only [if_true]
      rw [skipSpace_cons_of_space newline _ (by decide),
        skipSpace_cons_of_space ' ' _ (by decide),
        skipSpace_cons_of_space ' ' _ (by decide)]
      have hskip : skipSpace (joinMembers (a2 :: as2) ++ newline :: rbrace :: tail)
          = joinMembers (a2 :: as2) ++ newline :: rbrace :: tail := by
        rw [hr2]
        exact skipSpace_cons_of_not_space quoteChar _ (by decide)
      rw [hskip, List.foldl_cons]
      exact ih (a2 :: as2) f _ tail (by simp) hes (by simp at hfuel ⊢; omega)

theorem joinMembers_length (ms : List (List Char)) (h : ∀ a ∈ ms, 1 ≤ a.length) :
    ms.length ≤ (joinMembers ms).length := by
  induction ms with
  | nil => simp [joinMembers]
  | cons a as ih =>
    cases as with
    | nil =>
      have := h a (List.mem_cons_self _ _)
      simp only [joinMembers, List.length_cons, List.length_nil]
      omega
    | cons b bs =>
      rw [joinMembers_cons_cons]
      have := ih (fun x hx => h x (List.mem_cons_of_mem _ hx))
      simp only [List.length_append, List.length_cons] at this ⊢
      omega

theorem encodeMembers_length (zone : String → Zone) (es : List (String × Time)) :
    ∀ ms, encodeMembers zone es = .ok ms →
      ms.length = es.length ∧ ∀ a ∈ ms, 1 ≤ a.length := by
  induction es with
  | nil =>
    intro ms h
    have := encodeMembers_nil_ok zone ms h
    subst this
    simp
  | cons e es ih =>
    intro ms h
    obtain ⟨a, as, hea, hes, rfl⟩ := encodeMembers_cons_ok zone e es ms h
    obtain ⟨hl, hall⟩ := ih as hes
    obtain ⟨r, rfl⟩ := encodeMember_head zone e a hea
    refine ⟨by simp [hl], ?_⟩
    intro x hx
    simp only [List.mem_cons] at hx
    rcases hx with rfl | hx
    · simp
    · exact hall x hx

theorem GoMap.get_foldl_set_filterMap (m : GoMap Time) (ks : List String) (acc : GoMap Time)
    (k : String) :
    GoMap.get ((ks.filterMap (fun k => (m.get k).map (fun v => (k, v)))).foldl
        (fun a e => a.set e.1 e.2) acc) k
      = if k ∈ ks then (match m.get k with | some v => some v | none => GoMap.get acc k)
        else GoMap.get acc k := by
  induction ks generalizing acc with
  | nil => simp
  | cons a ks ih =>
    rw [List.filterMap_cons]
    cases hma : GoMap.get m a with
    | none =>
      simp only [Option.map_none']
      rw [ih]
      by_cases hk : k ∈ ks
      · simp [hk]
      · by_cases hka : k = a
        · subst hka; simp [hk, hma]
        · simp [hk, hka]
    | some v =>
      simp only [Option.map_some', List.foldl_cons]
      rw [ih, GoMap.get_set]
      by_cases hka : k = a
      · subst hka
        simp [hma]
      · simp [hka]

theorem GoMap.mem_keys_of_get {V : Type} (m : GoMap V) (k : String) (v : V)
    (h : GoMap.get m k = some v) : k ∈ m.keys := by
  by_contra hk
  rw [GoMap.get_eq_none_of_not_mem_keys m k hk] at h
  cases h

theorem GoMap.get_foldl_set_sortedEntries (m : GoMap Time) (k : String) :
    GoMap.get ((sortedEntries m).foldl (fun a e => a.set e.1 e.2) []) k = GoMap.get m k := by
  unfold sortedEntries
  rw [GoMap.get_foldl_set_filterMap]
  have hmem : k ∈ List.insertionSort (fun a b => keyLe a.data b.data = true) m.keys.dedup
      ↔ k ∈ m.keys := by
    rw [(List.perm_insertionSort _ _).mem_iff, List.mem_dedup]
  cases hg : GoMap.get m k with
  | none => simp [GoMap.get]
  | some v =>
    have := (hmem.2 (GoMap.mem_keys_of_get m k v hg))
    simp [this]

/-- The decoder reads the document of the encoder back as the same map: every
lookup answers as in the map that was encoded. -/
theorem json.Decode_MarshalIndent (zone : String → Zone) (m : GoMap Time) (b : String)
    (h : json.MarshalIndent zone m = .ok b) :
    ∃ m2, json.Decode b = .ok m2 ∧ ∀ k, GoMap.get m2 k = GoMap.get m k := by
  unfold json.MarshalIndent at h
  cases hes : encodeMembers zone (sortedEntries m) with
  | error err => rw [hes] at h; cases h
  | ok ms =>
    rw [hes] at h
    obtain ⟨hlen, hall⟩ := encodeMembers_length zone (sortedEntries m) ms hes
    cases ms with
    | nil =>
      simp only [Except.ok.injEq] at h
      subst h
      refine ⟨[], rfl, fun k => ?_⟩
      have hnil : sortedEntries m = [] := by
        apply List.eq_nil_of_length_eq_zero
        rw [← hlen]
        rfl
      rw [← GoMap.get_foldl_set_sortedEntries m k, hnil]
      rfl
    | cons a as =>
      simp only [Except.ok.injEq] at h
      subst h
      have hne : sortedEntries m ≠ [] := by
        intro hnil
        rw [hnil] at hlen
        simp at hlen
      obtain ⟨e, es, hse⟩ : ∃ e es, sortedEntries m = e :: es := by
        cases hse : sortedEntries m with
        | nil => exact absurd hse hne
        | cons e es => exact ⟨e, es, rfl⟩
      have hea : ∃ r, a = quoteChar :: r := by
        rw [hse] at hes
        obtain ⟨a1, as1, hea1, _, hcons⟩ := encodeMembers_cons_ok zone e es _ hes
        simp only [List.cons.injEq] at hcons
        obtain ⟨rfl, _⟩ := hcons
        exact encodeMember_head zone e a hea1
      obtain ⟨r, hr⟩ := hea
      obtain ⟨r2, hr2⟩ := joinMembers_head a as r hr
      have hjl := joinMembers_length (a :: as) hall
      have hfuel : (sortedEntries m).length
          ≤ (joinMembers (a :: as) ++ [newline, rbrace]).length := by
        rw [List.length_append, ← hlen]
        omega
      have hpm := parseMembers_joinMembers zone (sortedEntries m) (a :: as)
        (joinMembers (a :: as) ++ [newline, rbrace]).length [] [] hne hes hfuel
      refine ⟨_, ?_, fun k => GoMap.get_foldl_set_sortedEntries m k⟩
      unfold json.Decode
      simp only
      rw [skipSpace_cons_of_not_space lbrace _ (by decide)]
      simp only [if_true]
      rw [skipSpace_cons_of_space newline _ (by decide),
        skipSpace_cons_of_space ' ' _ (by decide),
        skipSpace_cons_of_space ' ' _ (by decide)]
      rw [hr2] at hpm ⊢
      simp only [List.cons_append] at hpm ⊢
      rw [skipSpace_cons_of_not_space quoteChar _ (by decide)]
      simp only
      rw [if_neg (by decide), hpm]

/-! ## Claims on `Save` and `LoadResourceSet` -/

theorem awsResourceSet.markComplete_get (s : awsResourceSet) (arn : String) :
    s.markComplete.firstSeen.get arn
      = if s.isMarked arn = true then s.firstSeen.get arn else none := by
  unfold awsResourceSet.markComplete
  simp only
  rw [GoMap.get_foldl_delete]
  by_cases hm : s.isMarked arn = true
  · have : arn ∉ s.gone := by
      simp [awsResourceSet.gone, hm]
    simp [this, hm]
  · simp only [hm, if_false]
    by_cases hk : arn ∈ s.firstSeen.keys
    · have : arn ∈ s.gone := by
        simp only [awsResourceSet.gone, List.mem_filter]
        exact ⟨hk, by simpa using hm⟩
      simp [this]
    · have : arn ∉ s.gone := by
        simp only [awsResourceSet.gone, List.mem_filter]
        exact fun h => hk h.1
      simp only [this, if_false]
      exact GoMap.get_eq_none_of_not_mem_keys _ _ hk

theorem awsResourceSet.Save_ok (env : Env) (s : awsResourceSet) (object : Option String)
    (w : World) (h : (s.Save env object w).1 = none) :
    ∃ b, env.MarshalIndent s.markComplete.firstSeen = .ok b ∧
      env.respond w.trace (.PutObject b) = none ∧
      s.Save env object w = (none, s.markComplete, w.emit (.call (.PutObject b)), some b) := by
  unfold awsResourceSet.Save at h ⊢
  cases hm : env.MarshalIndent s.markComplete.firstSeen with
  | error err => simp [hm] at h
  | ok b =>
    cases hp : env.respond w.trace (.PutObject b) with
    | some err => simp [hm, hp] at h
    | none => exact ⟨b, rfl, hp, by simp only [hm, hp]⟩

/-- The document that `Save` stores for `savedLedger`: the one entry that was
marked, on a line of its own, shown seven hours west of UTC. -/
theorem savedLedger_document :
    (savedLedger.Save savedEnv none ⟨[], 0⟩).2.2.2
      = some "\x7b\n  \"arn:aws:ec2:us-west-2:42:subnet/subnet-1\": \"2016-10-21T05:00:00.123456-07:00\"\n\x7d" := by
  decide

/-- The decoder on a document laid out otherwise: no line breaks, an escape in
a key, two zones, and one key twice, of which the later member stays. -/
theorem json.Decode_compact :
    (json.Decode "\x7b\"a\\u003cb\":\"1970-01-01T01:00:01+01:00\", \"c\":\"1970-01-01T00:00:00Z\", \"c\":\"1970-01-01T00:00:00.5Z\"\x7d").toOption
      = some [("c", 500000000), ("a<b", 1000000000)] := by
  decide

/-- C11: when `Save` succeeds and `LoadResourceSet`, in a later run, reads back
the object that `Save` stored, the load succeeds and the loaded `firstSeen`
answers every identity with the instant that the serialized map, the ledger
`firstSeen` after `markComplete`, answers, and with nothing where that map has
no entry; the loaded marked set is empty and the TTL is the one passed to the
load.  The document is written by `json.MarshalIndent` and read by
`json.Decode`, whatever the zones the timestamps are shown in. -/
theorem C11_save_then_load_round_trip (env later : Env) (zone zone2 : String → Zone)
    (s : awsResourceSet) (object : Option String) (w v : World) (ttl : Duration)
    (hsave : (s.Save (env.withJSON zone) object w).1 = none)
    (hget : later.GetObjectError v.trace = none) :
    ∃ b loaded,
      json.MarshalIndent zone s.markComplete.firstSeen = .ok b ∧
      (s.Save (env.withJSON zone) object w).2.2.2 = some b ∧
      LoadResourceSet (later.withJSON zone2) ttl (s.Save (env.withJSON zone) object w).2.2.2 v
        = (.ok loaded, v.emit (.call .GetObject)) ∧
      (∀ k, loaded.firstSeen.get k = s.markComplete.firstSeen.get k) ∧
      (∀ k, loaded.firstSeen.get k = if s.isMarked k = true then s.firstSeen.get k else none) ∧
      loaded.marked = [] ∧ (∀ k, loaded.isMarked k = false) ∧ loaded.ttl = ttl := by
  obtain ⟨b, hb, _, hs⟩ := awsResourceSet.Save_ok (env.withJSON zone) s object w hsave
  have hb2 : json.MarshalIndent zone s.markComplete.firstSeen = .ok b := hb
  obtain ⟨m, hm, hmk⟩ := json.Decode_MarshalIndent zone _ b hb2
  have hget2 : (later.withJSON zone2).GetObjectError v.trace = none := hget
  have hm2 : (later.withJSON zone2).Decode b = .ok m := hm
  refine ⟨b, ⟨m, [], ttl⟩, hb2, by rw [hs], ?_, hmk, ?_, rfl, ?_, rfl⟩
  · rw [hs]
    unfold LoadResourceSet
    simp only [hget2, hm2]
  · intro k
    rw [hmk k, awsResourceSet.markComplete_get]
  · intro k
    rfl

/-- Witness of C11: the ledger of two subnets, one of them marked, saved by a
process that shows its timestamps seven hours west of UTC and loaded by a
later one. -/
theorem C11_save_then_load_round_trip_witness :
    (savedLedger.Save savedEnv none ⟨[], 0⟩).1 = none ∧
    (Env.idle 300).GetObjectError [] = none ∧
    ∃ b loaded,
      json.MarshalIndent (fun _ => ⟨-420, by decide⟩) savedLedger.markComplete.firstSeen
        = .ok b ∧
      (savedLedger.Save savedEnv none ⟨[], 0⟩).2.2.2 = some b ∧
      LoadResourceSet ((Env.idle 300).withJSON (fun _ => Zone.utc)) 24
          (savedLedger.Save savedEnv none ⟨[], 0⟩).2.2.2 ⟨[], 0⟩
        = (.ok loaded, (⟨[], 0⟩ : World).emit (.call .GetObject)) ∧
      (∀ k, loaded.firstSeen.get k = savedLedger.markComplete.firstSeen.get k) ∧
      (∀ k, loaded.firstSeen.get k
        = if savedLedger.isMarked k = true then savedLedger.firstSeen.get k else none) ∧
      loaded.marked = [] ∧ (∀ k, loaded.isMarked k = false) ∧ loaded.ttl = 24 :=
  ⟨by decide, rfl,
    C11_save_then_load_round_trip (Env.idle 200) (Env.idle 300) (fun _ => ⟨-420, by decide⟩)
      (fun _ => Zone.utc) savedLedger none ⟨[], 0⟩ ⟨[], 0⟩ 24 (by decide) rfl⟩

end AwsJanitor
